import Mathlib

/-!
# scenarigo: step executor and template executor

A shallow embedding of `step.go` (`runStep`, `invokeAndAssert`), of
`template/template.go` (the template executor), of `cmd/scenarigo/main.go`
and of `internal/testutil/string.go` (`ResetDuration`), together with theorems
about retry, branch selection, string concatenation with re-indentation,
function calls, parameter expressions, basic literals, left arrow
expressions, the callable stash and its lifetime, the logging of failed
attempts, the include branch, the exit code of the command and the
normalisation of durations.

Conventions of the embedding.

* A Go `interface{}` value is a `Value`; a Go func value is `Value.func id`
  and its reflect type and behaviour are looked up in a table, because a
  callable takes `Value`s as arguments.
* A Go call that can return `(value, error)` or panic is a `Result`.
* Effects on the outside world (adapters, plug-ins, nested scenarios) are
  threaded as an explicit state `σ`; calls made on the reporter and on the
  adapter are recorded, in order, as a list of `Event`s.
* `Reporter.Fatal`, `Fatalf` and `FailNow` leave the running function by a
  non-local exit: a function that was left this way has outcome `none`.
-/

namespace Scenarigo

/-! ## Values -/

/-- A dynamic Go value (`interface{}`). `nil` is the nil interface, `func id`
a Go func value (reflect kind `Func`), `ptr v` a pointer to `v`, and
`other id` any other value (maps, structs, slices, ...). -/
inductive Value where
  | nil
  | str (s : String)
  | int (n : Int)
  | bool (b : Bool)
  | func (id : Nat)
  | ptr (v : Value)
  | other (id : Nat)
deriving DecidableEq, Repr

/-! ## Step executor: data model -/

/-- Modelled from the spec: the execution context (package `context` is not
part of the sources). "Fields: variable environment (a stack-like chain of
bindings, innermost wins), reporter handle, YAML node pointer, plugin
directory, enabled-color flag, a cancellable request deadline." The request
deadline is kept as the number of attempts an attempt stream can still grant
before the deadline fires (`none`: it never fires). -/
structure Context where
  vars : List Value
  reporter : Nat
  node : Nat
  pluginDir : String
  enabledColor : Bool
  requestContext : Option Nat
deriving DecidableEq, Repr

/-- `ctx.Reporter()`. -/
def Context.Reporter (ctx : Context) : Nat := ctx.reporter

/-- `ctx.Node()`. -/
def Context.Node (ctx : Context) : Nat := ctx.node

/-- `ctx.EnabledColor()`. -/
def Context.EnabledColor (ctx : Context) : Bool := ctx.enabledColor

/-- `ctx.RequestContext()`. -/
def Context.RequestContext (ctx : Context) : Option Nat := ctx.requestContext

/-- `ctx.WithVars(vars)`: a derived context whose innermost bindings are `vars`. -/
def Context.WithVars (ctx : Context) (vars : Value) : Context :=
  { ctx with vars := vars :: ctx.vars }

/-- `ctx.WithNode(node)`. -/
def Context.WithNode (ctx : Context) (node : Nat) : Context :=
  { ctx with node := node }

/-- `ctx.WithReporter(rptr)`. -/
def Context.WithReporter (ctx : Context) (rptr : Nat) : Context :=
  { ctx with reporter := rptr }

/-- Modelled from the spec: a built retry policy (`schema.Retry.Build` and the
backoff library are not part of the sources). Only the bound on the number
of retries matters to the step executor. -/
structure Policy where
  maxRetries : Nat
deriving DecidableEq, Repr

/-- Modelled from the spec: `policy.Start(ctx.RequestContext())`. "The policy
produces a bounded cancellable attempt stream; cancellation is bound to the
context's request deadline"; "a step executes at most `maxRetries+1` times".
The result is the number of times `backoff.Continue` will answer `true`. -/
def Policy.Start (p : Policy) (requestContext : Option Nat) : Nat :=
  match requestContext with
  | none => p.maxRetries + 1
  | some c => min c (p.maxRetries + 1)

/-- A message written with `Reporter.Logf`. Wall-clock durations are not
modelled, so the elapsed time carries no value. -/
inductive LogMsg where
  | sendRequest (i : Nat)
  | elapsedTime
  | runElapsed (ref : String)
deriving DecidableEq, Repr

/-- A call made by the step executor on a reporter (first argument: the
reporter it is made on) or on one of its collaborators. -/
inductive Event (Err : Type) where
  | Logf (r : Nat) (msg : LogMsg)
  | Log (r : Nat) (err : Err)
  | Fatal (r : Nat) (err : Err)
  | FatalfInclude (r : Nat) (incl : String) (cause : Option Err)
  | FailNow (r : Nat)
  | Run (r : Nat) (name : String)
  | ExecuteTemplate (what : Value)
  | LoadScenarios (path : String)
  | RunScenario (ctx : Context)
  | PluginRun (ctx : Context)
  | Invoke (ctx : Context)
  | Build (ctx : Context)
  | Assert
deriving DecidableEq, Repr

/-- An `assert.Assertion`: its `Assert` method. -/
structure Assertion (σ Resp Err : Type) where
  Assert : σ → Resp → σ × Option Err

/-- The `Request` field of a step: an invoker. -/
structure Invoker (σ Resp Err : Type) where
  Invoke : σ → Context → σ × Except Err (Context × Resp)

/-- The `Expect` field of a step: an assertion builder. -/
structure AssertionBuilder (σ Resp Err : Type) where
  Build : σ → Context → σ × Except Err (Assertion σ Resp Err)

/-- The `Retry` field of a step: its `Build` method. -/
structure Retry (Err : Type) where
  Build : Except Err Policy

/-- A step of a scenario (`schema.Step`), with the fields `step.go` reads. -/
structure Step (σ Resp Err : Type) where
  Vars : Option Value
  Include : String
  Ref : String
  Request : Invoker σ Resp Err
  Expect : AssertionBuilder σ Resp Err
  Retry : Retry Err

/-- A loaded scenario (`schema.Scenario`), with the fields `step.go` reads. -/
structure Scenario where
  filepath : String
  Node : Nat
deriving DecidableEq, Repr

/-- `scenario.Filepath()`. -/
def Scenario.Filepath (sc : Scenario) : String := sc.filepath

/-- The collaborators of `step.go` that are not part of the sources: error
decoration (package `errors`), `xerrors.Errorf`, template execution of the
context, the scenario loader, `path/filepath`, the reporter's `Run`, the
scenario runner and plug-in steps. -/
structure StepEnv (σ Resp Err : Type) where
  WithPath : Err → String → Err
  WrapPath : Err → String → String → Err
  ErrorPath : String → String → Err
  WithNodeAndColored : Err → Nat → Bool → Err
  Errorf : String → Err → Err
  asAssertError : Err → Option (List Err)
  ExecuteTemplate : σ → Context → Value → σ × Except Err Value
  LoadScenarios : σ → String → σ × Except Err (List Scenario)
  Dir : String → String
  Join : String → String → String
  Rel : String → String → Except Err String
  newReporter : σ → Nat → String → σ × Nat
  RunScenario : σ → Context → Scenario → σ × Option Context
  asPluginStep : Value → Option (σ → Context → Step σ Resp Err → σ × Option Context)

/-- What a function of the step executor did: the state of the outside world
afterwards, the calls it made, and the context it returned (`none` when it
was left through `Fatal`, `Fatalf` or `FailNow`). -/
structure Res (σ Err : Type) where
  ext : σ
  events : List (Event Err)
  out : Option Context

/-- The path `steps[%d].<field>` of a step. -/
def stepPath (stepIdx : Nat) (field : String) : String :=
  "steps[" ++ toString stepIdx ++ "]." ++ field

/-! ## Step executor: `invokeAndAssert` -/

section StepExecutor

variable {σ Resp Err : Type}

/-- The body of the retry loop of `invokeAndAssert` for the attempt numbered
`i`: the state afterwards, the calls made, and `some newCtx` when the body
ends in `return newCtx`, `none` when it ends in `continue`. -/
def attemptBody (env : StepEnv σ Resp Err) (ctx : Context) (s : Step σ Resp Err)
    (stepIdx : Nat) (i : Nat) (w : σ) : σ × List (Event Err) × Option Context :=
  let r := ctx.Reporter
  match s.Request.Invoke w ctx with
  | (w1, .error err) =>
    (w1, [.Logf r (.sendRequest i), .Invoke ctx, .Logf r .elapsedTime,
          .Log r (env.WithNodeAndColored (env.WithPath err (stepPath stepIdx "request"))
            ctx.Node ctx.EnabledColor)], none)
  | (w1, .ok (newCtx, resp)) =>
    match s.Expect.Build w1 newCtx with
    | (w2, .error err) =>
      (w2, [.Logf r (.sendRequest i), .Invoke ctx, .Logf r .elapsedTime, .Build newCtx,
            .Log r (env.WithNodeAndColored (env.WithPath err (stepPath stepIdx "expect"))
              ctx.Node ctx.EnabledColor)], none)
    | (w2, .ok assertion) =>
      match assertion.Assert w2 resp with
      | (w3, some err) =>
        let err := env.WithNodeAndColored (env.WithPath err (stepPath stepIdx "expect"))
          ctx.Node ctx.EnabledColor
        let logs : List (Event Err) :=
          match env.asAssertError err with
          | some errs => errs.map (fun e => Event.Log r e)
          | none => [.Log r err]
        (w3, [.Logf r (.sendRequest i), .Invoke ctx, .Logf r .elapsedTime, .Build newCtx,
              .Assert] ++ logs, none)
      | (w3, none) =>
        (w3, [.Logf r (.sendRequest i), .Invoke ctx, .Logf r .elapsedTime, .Build newCtx,
              .Assert], some newCtx)

/-- The loop `for backoff.Continue(b) { ... }` of `invokeAndAssert` followed by
`ctx.Reporter().FailNow()`: `b` is the number of attempts the stream still
grants and `i` the loop counter. -/
def retryLoop (env : StepEnv σ Resp Err) (ctx : Context) (s : Step σ Resp Err)
    (stepIdx : Nat) : Nat → Nat → σ → Res σ Err
  | 0, _, w => ⟨w, [.FailNow ctx.Reporter], none⟩
  | b + 1, i, w =>
    match attemptBody env ctx s stepIdx i w with
    | (w1, evs, some newCtx) => ⟨w1, evs, some newCtx⟩
    | (w1, evs, none) =>
      let rest := retryLoop env ctx s stepIdx b (i + 1) w1
      ⟨rest.ext, evs ++ rest.events, rest.out⟩

/-- `invokeAndAssert(ctx, s, stepIdx)`. -/
def invokeAndAssert (env : StepEnv σ Resp Err) (ctx : Context) (s : Step σ Resp Err)
    (stepIdx : Nat) (w : σ) : Res σ Err :=
  match s.Retry.Build with
  | .error err => ⟨w, [.Fatal ctx.Reporter (env.Errorf "invalid retry policy: %w" err)], none⟩
  | .ok policy => retryLoop env ctx s stepIdx (policy.Start ctx.RequestContext) 0 w

/-! ## Step executor: `runStep` -/

/-- The `include` branch of `runStep` (the body of `if s.Include != ""`). -/
def runInclude (env : StepEnv σ Resp Err) (ctx : Context) (scenario : Scenario)
    (s : Step σ Resp Err) (w : σ) : Res σ Err :=
  let baseDir := env.Dir scenario.Filepath
  let incl := env.Join baseDir s.Include
  match env.LoadScenarios w incl with
  | (w1, .error err) =>
    ⟨w1, [.LoadScenarios incl, .FatalfInclude ctx.Reporter s.Include (some err)], none⟩
  | (w1, .ok scenarios) =>
    match scenarios with
    | [sc] =>
      match env.Rel baseDir incl with
      | .error err =>
        ⟨w1, [.LoadScenarios incl, .FatalfInclude ctx.Reporter s.Include (some err)], none⟩
      | .ok testName =>
        let currentNode := ctx.Node
        let (w2, rptr) := env.newReporter w1 ctx.Reporter testName
        let sub := (ctx.WithReporter rptr).WithNode sc.Node
        let (w3, r) := env.RunScenario w2 sub sc
        let ctx1 := match r with
          | some c => c
          | none => ctx
        ⟨w3, [.LoadScenarios incl, .Run ctx.Reporter testName, .RunScenario sub],
          some (ctx1.WithNode currentNode)⟩
    | _ => ⟨w1, [.LoadScenarios incl, .FatalfInclude ctx.Reporter s.Include none], none⟩

/-- The `ref` branch of `runStep` (the body of `if s.Ref != ""`). -/
def runRef (env : StepEnv σ Resp Err) (ctx : Context) (s : Step σ Resp Err)
    (stepIdx : Nat) (w : σ) : Res σ Err :=
  match env.ExecuteTemplate w ctx (.str s.Ref) with
  | (w1, .error err) =>
    ⟨w1, [.ExecuteTemplate (.str s.Ref),
          .Fatal ctx.Reporter (env.WithNodeAndColored
            (env.WrapPath err (stepPath stepIdx "ref")
              ("failed to reference \"" ++ s.Ref ++ "\" as step"))
            ctx.Node ctx.EnabledColor)], none⟩
  | (w1, .ok x) =>
    match env.asPluginStep x with
    | none =>
      ⟨w1, [.ExecuteTemplate (.str s.Ref),
            .Fatal ctx.Reporter (env.WithNodeAndColored
              (env.ErrorPath (stepPath stepIdx "ref")
                ("failed to reference \"" ++ s.Ref ++
                  "\" as step: not implement plugin.Step interface"))
              ctx.Node ctx.EnabledColor)], none⟩
    | some stp =>
      match stp w1 ctx s with
      | (w2, none) => ⟨w2, [.ExecuteTemplate (.str s.Ref), .PluginRun ctx], none⟩
      | (w2, some ctx1) =>
        ⟨w2, [.ExecuteTemplate (.str s.Ref), .PluginRun ctx,
              .Logf ctx1.Reporter (.runElapsed s.Ref)], some ctx1⟩

/-- The part of `runStep` after the `vars` block: `include`, else `ref`, else
the request. -/
def runBranch (env : StepEnv σ Resp Err) (ctx : Context) (scenario : Scenario)
    (s : Step σ Resp Err) (stepIdx : Nat) (w : σ) : Res σ Err :=
  if s.Include ≠ "" then runInclude env ctx scenario s w
  else if s.Ref ≠ "" then runRef env ctx s stepIdx w
  else invokeAndAssert env ctx s stepIdx w

/-- `runStep(ctx, scenario, s, stepIdx)`. -/
def runStep (env : StepEnv σ Resp Err) (ctx : Context) (scenario : Scenario)
    (s : Step σ Resp Err) (stepIdx : Nat) (w : σ) : Res σ Err :=
  match s.Vars with
  | none => runBranch env ctx scenario s stepIdx w
  | some v =>
    match env.ExecuteTemplate w ctx v with
    | (w1, .error err) =>
      ⟨w1, [.ExecuteTemplate v,
            .Fatal ctx.Reporter (env.WithNodeAndColored
              (env.WrapPath err (stepPath stepIdx "vars") "invalid vars")
              ctx.Node ctx.EnabledColor)], none⟩
    | (w1, .ok vars) =>
      let rest := runBranch env (ctx.WithVars vars) scenario s stepIdx w1
      ⟨rest.ext, .ExecuteTemplate v :: rest.events, rest.out⟩

end StepExecutor

/-! ## Template executor: data model -/

/-- The outcome of a Go call returning `(value, error)`: a value with a nil
error, a non-nil error (with its message; the value is then nil), or a panic.
The payload of a panic is kept as its rendering under the verb `%s`; it is the
non-nil value that `recover()` returns. -/
inductive Result (α : Type) where
  | ok (v : α)
  | error (msg : String)
  | panic (msg : String)
deriving DecidableEq, Repr

/-- A `token.Token` as far as the executor distinguishes them. -/
inductive Token where
  | STRING
  | INT
  | ADD
  | other (name : String)
deriving DecidableEq, Repr

/-- The template AST (`ast.Expr`). `Unknown` stands for any node type that
`executeExpr` has no case for. -/
inductive Expr where
  | BasicLit (Kind : Token) (Value : String)
  | ParameterExpr (X : Option Expr) (Quoted : Bool)
  | BinaryExpr (X : Expr) (Op : Token) (Y : Expr)
  | Ident (Name : String)
  | SelectorExpr (X : Expr) (Sel : String)
  | IndexExpr (X : Expr) (Index : Expr)
  | CallExpr (Fun : Expr) (Args : List Expr)
  | LeftArrowExpr (Fun : Expr) (Arg : Expr)
  | Unknown (typeName : String)

/-- A `reflect.Type` as far as the executor inspects it. -/
inductive GoType where
  | named (name : String)
  | slice (elem : GoType)
  | ptr (elem : GoType)
deriving DecidableEq, Repr

/-- The reflect type of a func value: `NumIn` is the length of `params`, `In(i)`
its `i`-th entry, and `IsVariadic` is `variadic`. -/
structure FuncType where
  params : List GoType
  variadic : Bool
deriving DecidableEq, Repr

/-- A `reflect.Value`: `none` is the zero (invalid) Value, `some v` a valid one
whose `Interface()` is `v`. -/
abbrev ReflectValue := Option Value

/-- `reflect.ValueOf(v)`: the nil interface gives the zero Value. -/
def reflectValueOf (v : Value) : ReflectValue :=
  match v with
  | .nil => none
  | v => some v

/-- `reflect.Value.IsValid`. -/
def ReflectValue.IsValid (v : ReflectValue) : Bool := v.isSome

/-- The reflect kinds the executor tests for. -/
inductive Kind where
  | Invalid
  | Func
  | Ptr
  | Other
deriving DecidableEq, Repr

/-- `reflect.Value.Kind`. -/
def ReflectValue.Kind (v : ReflectValue) : Kind :=
  match v with
  | none => .Invalid
  | some (.func _) => .Func
  | some (.ptr _) => .Ptr
  | some _ => .Other

/-- What `reflect.Value.Call` does: the callable returns its results, or the
call panics (in the callable, or in reflect itself). -/
inductive CallResult where
  | returns (vs : List ReflectValue)
  | panics (msg : String)
deriving DecidableEq, Repr

/-- What `reflect.Value.Convert` does: it returns the converted value, or it
panics. It panics for some values although `ConvertibleTo` reports true for
their type: a slice that is shorter than the array, or the array a pointer
points to, it is converted to. -/
inductive ConvertResult where
  | value (v : Value)
  | panics (msg : String)
deriving DecidableEq, Repr

/-- A Go func value: its reflect type and what calling it does. -/
structure GoFunc where
  type : FuncType
  Call : List ReflectValue → CallResult

/-- A value implementing the `Func` interface (a left arrow function). The
argument of `UnmarshalArg` is the `unmarshal` callback: given the destination
it answers what was stored there. -/
structure Func where
  Exec : Value → Result Value
  UnmarshalArg : (Value → Result Value) → Result Value

/-- The argFuncs stash (`funcStash`, a `map[string]interface{}`), kept as the
list of its entries in insertion order. The nil map and the empty map are both
the empty list: `len` and lookups do not tell them apart, and `save` replaces
a nil map by an empty one before it writes. -/
abbrev funcStash := List (String × Value)

/-- The map assignment `(*s)[name] = f`. -/
def funcStash.set (s : funcStash) (name : String) (f : Value) : funcStash :=
  if s.any (fun p => p.1 == name) then
    s.map (fun p => if p.1 == name then (name, f) else p)
  else s ++ [(name, f)]

/-- The map lookup `(*s)[name]`. -/
def funcStash.get? (s : funcStash) (name : String) : Option Value :=
  (s.find? (fun p => p.1 == name)).map (fun p => p.2)

/-- `funcStash.save`: the generated name and the stash afterwards. -/
def funcStash.save (s : funcStash) (f : Value) : String × funcStash :=
  let name := "func-" ++ toString s.length
  (name, s.set name f)

/-- The collaborators of the template executor that are not part of the
sources: the extractor behind `lookup`, the table of func values, package
`reflect` (dynamic types and conversion), `reflectutil.Elem`, the verb `%T`,
`token.Token.String`, `strconv.Atoi`, YAML encoding and decoding, the
interface test `v.(Func)`, and the package-level `Execute` and `convert` used
to restore stashed callables. -/
structure TemplateEnv where
  lookup : Expr → Value → Result Value
  funcs : Nat → GoFunc
  typeOf : Value → GoType
  ConvertibleTo : GoType → GoType → Bool
  Convert : Value → GoType → ConvertResult
  Elem : ReflectValue → ReflectValue
  typeName : Value → String
  tokenString : Token → String
  Atoi : String → Except String Int
  yamlMarshal : Value → Result String
  yamlDecode : String → Value → Result Value
  asFunc : Value → Option Func
  ExecuteValue : Value → funcStash → Result Value
  convert : Value → Value → Result Value

/-- A parsed template, without its `argFuncs` field: the stash it points to is
shared between executors and is threaded through the executor as state. -/
structure Template where
  str : String
  expr : Expr
  executingLeftArrowExprArg : Bool

/-! ## Template executor: strings -/

/-- `strings.Split(s, "\n")` on the characters of `s`. -/
def splitNewline : List Char → List (List Char)
  | [] => [[]]
  | c :: cs =>
    match splitNewline cs with
    | [] => [[c]]
    | l :: ls => if c = '\n' then [] :: l :: ls else (c :: l) :: ls

/-- The loop of `addIndent` over the lines of `str`: `i` is the index of the
next line and `b` what the builder holds. Writes to a `strings.Builder` never
fail, so the error returns of the loop are left out. -/
def addIndentLoop (pfx : List Char) : List (List Char) → Nat → List Char → List Char
  | [], _, b => b
  | s :: rest, i, b =>
    let b1 := if i ≠ 0 then
        (if s ≠ [] then (b ++ ['\n']) ++ pfx else b ++ ['\n'])
      else b
    addIndentLoop pfx rest (i + 1) (b1 ++ s)

/-- `Template.addIndent(str, preStr)`; its error result is always nil. -/
def addIndent (t : Template) (str preStr : String) : String :=
  if t.executingLeftArrowExprArg then
    if str.data.contains '\n' && preStr ≠ "" then
      let lines := splitNewline preStr.data
      let pfx := List.replicate (lines.getLast?.getD []).length ' '
      String.mk (addIndentLoop pfx (splitNewline str.data) 0 [])
    else str
  else str

/-- `Template.stringize`. -/
def stringize (env : TemplateEnv) (v : Value) : Except String String :=
  match v with
  | .str s => .ok s
  | v => .error ("expect string but got " ++ env.typeName v)

/-- `errors.Wrap(err, msg)` on messages. -/
def wrapErr (err : String) (msg : String) : String := msg ++ ": " ++ err

/-- `Template.add`. -/
def add (env : TemplateEnv) (t : Template) (x y : Value) (withIndent : Bool) : Result Value :=
  match stringize env x with
  | .error err => .error (wrapErr err "failed to concat strings")
  | .ok strX =>
    match stringize env y with
    | .error err => .error (wrapErr err "failed to concat strings")
    | .ok strY =>
      let strY := if withIndent then addIndent t strY strX else strY
      .ok (.str (strX ++ strY))

/-- `strings.TrimSuffix(s, "\n")`. -/
def trimSuffixNewline (s : String) : String :=
  if s.data.getLast? = some '\n' then String.mk s.data.dropLast else s

/-! ## Template executor: function calls -/

/-- `Template.executeBasicLit`. -/
def executeBasicLit (env : TemplateEnv) (kind : Token) (value : String) : Result Value :=
  match kind with
  | .STRING => .ok (.str value)
  | .INT =>
    match env.Atoi value with
    | .error err => .error (wrapErr err ("invalid AST: \"" ++ value ++ "\" is not a integer"))
    | .ok i => .ok (.int i)
  | k => .error ("unknown basic literal \"" ++ env.tokenString k ++ "\"")

/-- `reflect.Type.NumIn` of a func type. -/
def FuncType.NumIn (ft : FuncType) : Int := ft.params.length

/-- `reflect.Type.In(i)` of a func type: panics when `i` is out of range. -/
def FuncType.In (ft : FuncType) (i : Int) : Result GoType :=
  if i < 0 then .panic "reflect: Func index out of bounds"
  else
    match ft.params.get? i.toNat with
    | some ty => .ok ty
    | none => .panic "reflect: Func index out of bounds"

/-- `reflect.Type.Elem`: panics on a type that has no element type. -/
def GoType.Elem : GoType → Result GoType
  | .slice e => .ok e
  | .ptr e => .ok e
  | .named n => .panic ("reflect: Elem of invalid type " ++ n)

/-- `Template.requiredFuncArgType`. -/
def requiredFuncArgType (funcType : FuncType) (argIdx : Nat) : Result GoType :=
  if !funcType.variadic then funcType.In argIdx
  else
    let argNum := funcType.NumIn
    let lastArgIdx := argNum - 1
    if (argIdx : Int) < lastArgIdx then funcType.In argIdx
    else
      match funcType.In lastArgIdx with
      | .ok ty => ty.Elem
      | .error e => .error e
      | .panic m => .panic m

/-- The arity check of `executeFuncCall` for a call with `numArgs` arguments:
the error it returns, if any. -/
def arityError (funcType : FuncType) (numArgs : Nat) : Option String :=
  if funcType.variadic then
    let minArgNum := funcType.NumIn - 1
    if (numArgs : Int) < minArgNum then
      some ("too few arguments to function: expected minimum argument number is " ++
        toString minArgNum ++ ". but specified " ++ toString numArgs ++ " arguments")
    else none
  else if funcType.NumIn ≠ (numArgs : Int) then
    some ("expected function argument number is " ++ toString funcType.NumIn ++
      ". but specified " ++ toString numArgs ++ " arguments")
  else none

/-- The conversion of one evaluated argument `a` in the argument loop of
`executeFuncCall`: the `reflect.Value` stored in `args[i]`, or the panic of
`v.Convert(requiredType)`. -/
def convertArg (env : TemplateEnv) (a : Value) (requiredType : GoType) :
    Result ReflectValue :=
  match reflectValueOf a with
  | some v =>
    if env.ConvertibleTo (env.typeOf v) requiredType then
      match env.Convert v requiredType with
      | .value c => .ok (some c)
      | .panics m => .panic m
    else .ok (some v)
  | none => .ok none

/-- The end of `executeFuncCall`: `funv.Call(args)` and the check of what it
returned. -/
def callFunc (f : GoFunc) (args : List ReflectValue) : Result Value :=
  match f.Call args with
  | .panics m => .panic m
  | .returns [some v] => .ok v
  | .returns _ => .error "function should return a value"

/-- The body of `Template.Execute` after `t.executeExpr(t.expr, data)` came
back with `r`: an error is wrapped with the template text, and the deferred
function turns a panic into an error. -/
def executeOutcome (str : String) (r : Result Value) : Result Value :=
  match r with
  | .ok v => .ok v
  | .error err =>
    if str.data.contains '\n' then
      .error (wrapErr err ("failed to execute: \n" ++ str ++ "\n"))
    else .error (wrapErr err ("failed to execute: " ++ str))
  | .panic m => .error ("failed to execute: panic: " ++ m)

/-- The `unmarshal` callback that `executeLeftArrowExpr` hands to
`UnmarshalArg`: decode `argStr` into the destination `v`, restore the stashed
callables, convert to the type of the destination. -/
def unmarshalCallback (env : TemplateEnv) (argStr : String) (stash : funcStash)
    (v : Value) : Result Value :=
  match env.yamlDecode argStr v with
  | .ok d =>
    match env.ExecuteValue d stash with
    | .ok executed => env.convert v executed
    | .error e => .error e
    | .panic m => .panic m
  | .error e => .error e
  | .panic m => .panic m

/-- `fmt.Sprintf("{{%s}}", name)`: the name between two opening and two closing
braces. -/
def placeholder (name : String) : String := "\x7b\x7b" ++ name ++ "\x7d\x7d"

/-- `fmt.Sprintf("'{{%s}}'", name)`: the placeholder wrapped in single quotes. -/
def quotedPlaceholder (name : String) : String := "\x27" ++ placeholder name ++ "\x27"

/-- The template a left arrow argument is executed with
(`executeLeftArrowExprArg`): it shares the stash of its parent. -/
def argTemplate (arg : Expr) : Template :=
  { str := "", expr := arg, executingLeftArrowExprArg := true }

/-! ## Template executor: `executeExpr` -/

mutual

/-- `Template.executeExpr`, with the methods it dispatches to
(`executeParameterExpr`, `executeBinaryExpr`, `executeFuncCall`,
`executeLeftArrowExpr`) in its cases. The stash `argFuncs` points to is passed
in and returned. -/
def executeExpr (env : TemplateEnv) (t : Template) :
    Expr → Value → funcStash → Result Value × funcStash
  | .BasicLit kind value, _, st => (executeBasicLit env kind value, st)
  | .ParameterExpr none _, _, st => (.ok (.str ""), st)
  | .ParameterExpr (some x) quoted, data, st =>
    match executeExpr env t x data st with
    | (.error e, st1) => (.error e, st1)
    | (.panic m, st1) => (.panic m, st1)
    | (.ok v, st1) =>
      if t.executingLeftArrowExprArg then
        if (env.Elem (reflectValueOf v)).Kind = Kind.Func then
          let (name, st2) := funcStash.save st1 v
          if quoted then (.ok (.str (quotedPlaceholder name)), st2)
          else (.ok (.str (placeholder name)), st2)
        else
          match env.yamlMarshal v with
          | .error e => (.error e, st1)
          | .panic m => (.panic m, st1)
          | .ok b => (.ok (.str (trimSuffixNewline b)), st1)
      else (.ok v, st1)
  | .BinaryExpr ex op ey, data, st =>
    match executeExpr env t ex data st with
    | (.error e, st1) => (.error e, st1)
    | (.panic m, st1) => (.panic m, st1)
    | (.ok x, st1) =>
      match executeExpr env t ey data st1 with
      | (.error e, st2) => (.error e, st2)
      | (.panic m, st2) => (.panic m, st2)
      | (.ok y, st2) =>
        let withIndent := t.executingLeftArrowExprArg &&
          (match ey with
           | .ParameterExpr _ _ => true
           | _ => false)
        match op with
        | .ADD => (add env t x y withIndent, st2)
        | op => (.error ("unknown operation \"" ++ env.tokenString op ++ "\""), st2)
  | .Ident name, data, st => (env.lookup (.Ident name) data, st)
  | .SelectorExpr x sel, data, st => (env.lookup (.SelectorExpr x sel) data, st)
  | .IndexExpr x index, data, st => (env.lookup (.IndexExpr x index) data, st)
  | .CallExpr efun eargs, data, st =>
    match executeExpr env t efun data st with
    | (.error e, st1) => (.error e, st1)
    | (.panic m, st1) => (.panic m, st1)
    | (.ok fn, st1) =>
      match fn with
      | .func id =>
        let funcType := (env.funcs id).type
        match arityError funcType eargs.length with
        | some msg => (.error msg, st1)
        | none =>
          match executeArgs env t funcType eargs 0 data st1 with
          | (.error e, st2) => (.error e, st2)
          | (.panic m, st2) => (.panic m, st2)
          | (.ok args, st2) => (callFunc (env.funcs id) args, st2)
      | _ => (.error "not function", st1)
  | .LeftArrowExpr efun earg, data, st =>
    match executeExpr env t efun data st with
    | (.error e, st1) => (.error e, st1)
    | (.panic m, st1) => (.panic m, st1)
    | (.ok v, st1) =>
      match env.asFunc v with
      | none => (.error "expect template function but got *ast.LeftArrowExpr", st1)
      | some f =>
        match executeExpr env (argTemplate earg) earg data st1 with
        | (r, st2) =>
          match executeOutcome (argTemplate earg).str r with
          | .error e => (.error e, st2)
          | .panic m => (.panic m, st2)
          | .ok (.str argStr) =>
            match f.UnmarshalArg (unmarshalCallback env argStr st2) with
            | .error e => (.error e, st2)
            | .panic m => (.panic m, st2)
            | .ok a => (f.Exec a, st2)
          | .ok v => (.error ("expect string but got " ++ env.typeName v), st2)
  | .Unknown typeName, _, st => (.error ("unknown expression \"" ++ typeName ++ "\""), st)

/-- The argument loop of `executeFuncCall` from index `i` on: each argument is
evaluated and converted to the type its position requires. -/
def executeArgs (env : TemplateEnv) (t : Template) (funcType : FuncType) :
    List Expr → Nat → Value → funcStash → Result (List ReflectValue) × funcStash
  | [], _, _, st => (.ok [], st)
  | arg :: rest, i, data, st =>
    match executeExpr env t arg data st with
    | (.error e, st1) => (.error e, st1)
    | (.panic m, st1) => (.panic m, st1)
    | (.ok a, st1) =>
      match requiredFuncArgType funcType i with
      | .error e => (.error e, st1)
      | .panic m => (.panic m, st1)
      | .ok requiredType =>
        match convertArg env a requiredType with
        | .error e => (.error e, st1)
        | .panic m => (.panic m, st1)
        | .ok v =>
          match executeArgs env t funcType rest (i + 1) data st1 with
          | (.error e, st2) => (.error e, st2)
          | (.panic m, st2) => (.panic m, st2)
          | (.ok vs, st2) => (.ok (v :: vs), st2)

end

/-- `Template.Execute(data)`, on the stash `t.argFuncs` points to. -/
def Template.Execute (env : TemplateEnv) (t : Template) (data : Value) (st : funcStash) :
    Result Value × funcStash :=
  match executeExpr env t t.expr data st with
  | (r, st1) => (executeOutcome t.str r, st1)

/-- `Template.executeLeftArrowExprArg(arg, data)`. -/
def executeLeftArrowExprArg (env : TemplateEnv) (arg : Expr) (data : Value) (st : funcStash) :
    Result Value × funcStash :=
  (argTemplate arg).Execute env data st

/-! ## Vocabulary of the retry claims -/

section RetryVocabulary

variable {σ Resp Err : Type}

/-- An attempt started in state `w` passes, and `c` is the context `Invoke`
returned in it: `Invoke`, then `Expect.Build`, then `Assert` return no error. -/
def AttemptPasses (ctx : Context) (s : Step σ Resp Err) (w : σ) (c : Context) : Prop :=
  ∃ w1 resp w2 a w3, s.Request.Invoke w ctx = (w1, .ok (c, resp)) ∧
    s.Expect.Build w1 c = (w2, .ok a) ∧ a.Assert w2 resp = (w3, none)

/-- The state of the outside world after one attempt started in `w`: `Invoke`,
then `Build` if `Invoke` succeeded, then `Assert` if `Build` succeeded. -/
def afterAttempt (ctx : Context) (s : Step σ Resp Err) (w : σ) : σ :=
  match s.Request.Invoke w ctx with
  | (w1, .error _) => w1
  | (w1, .ok (c, resp)) =>
    match s.Expect.Build w1 c with
    | (w2, .error _) => w2
    | (w2, .ok a) => (a.Assert w2 resp).1

/-- The state in which attempt `k` (counted from 0) starts when the first
attempt starts in `w`. -/
def stateBefore (ctx : Context) (s : Step σ Resp Err) : Nat → σ → σ
  | 0, w => w
  | k + 1, w => stateBefore ctx s k (afterAttempt ctx s w)

/-- Whether an event is a call of the adapter's `Invoke`. -/
def Event.isInvoke : Event Err → Bool
  | .Invoke _ => true
  | _ => false

/-- Whether an event is a call of `FailNow`. -/
def Event.isFailNow : Event Err → Bool
  | .FailNow _ => true
  | _ => false

/-- The number of calls of `Invoke` among the events. -/
def invokeCount (evs : List (Event Err)) : Nat := evs.countP Event.isInvoke

/-- An invoker that fails on its first two calls and succeeds from then on;
the state is the number of calls made so far. -/
def failTwiceInvoker : Invoker Nat Unit String :=
  ⟨fun w ctx => (w + 1, if w < 2 then .error "some error occurred" else .ok (ctx, ()))⟩

/-- An assertion builder whose assertion accepts every response. -/
def passBuilder : AssertionBuilder Nat Unit String :=
  ⟨fun w _ => (w, .ok ⟨fun w _ => (w, none)⟩)⟩

/-- A request step with the retry `{ constant: { interval: 0, maxRetries } }`
around `failTwiceInvoker`. -/
def failTwiceStep (maxRetries : Nat) : Step Nat Unit String :=
  { Vars := none, Include := "", Ref := "", Request := failTwiceInvoker,
    Expect := passBuilder, Retry := ⟨.ok ⟨maxRetries⟩⟩ }

/-- A context whose request deadline never fires. -/
def sampleContext : Context :=
  { vars := [], reporter := 0, node := 0, pluginDir := "", enabledColor := false,
    requestContext := none }

/-- Collaborators for concrete runs: errors are messages, decoration prepends
the path, no value is a plug-in step, and loading a path yields one scenario. -/
def sampleStepEnv : StepEnv Nat Unit String :=
  { WithPath := fun e p => p ++ ": " ++ e
    WrapPath := fun e p m => p ++ ": " ++ m ++ ": " ++ e
    ErrorPath := fun p m => p ++ ": " ++ m
    WithNodeAndColored := fun e _ _ => e
    Errorf := fun f e => f ++ e
    asAssertError := fun _ => none
    ExecuteTemplate := fun w _ v => (w, .ok v)
    LoadScenarios := fun w p => (w, .ok [⟨p, 7⟩])
    Dir := fun p => p
    Join := fun a b => a ++ "/" ++ b
    Rel := fun _ p => .ok p
    newReporter := fun w r _ => (w, r + 1)
    RunScenario := fun w c _ => (w, some c)
    asPluginStep := fun _ => none }

/-- Whether an event belongs to the `include` branch of `runStep`. -/
def Event.isInclude : Event Err → Bool
  | .LoadScenarios _ => true
  | .Run _ _ => true
  | .RunScenario _ => true
  | .FatalfInclude _ _ _ => true
  | _ => false

/-- Whether an event belongs to the `ref` branch of `runStep`: the evaluation of
a template or the run of a plug-in step. -/
def Event.isRef : Event Err → Bool
  | .ExecuteTemplate _ => true
  | .PluginRun _ => true
  | _ => false

/-- Whether an event is a call on the adapter made by the request branch. -/
def Event.isRequest : Event Err → Bool
  | .Invoke _ => true
  | .Build _ => true
  | .Assert => true
  | _ => false

/-- A step with the given `vars`, `include` and `ref` around `failTwiceInvoker`. -/
def sampleStep (vars : Option Value) (incl ref : String) : Step Nat Unit String :=
  { Vars := vars, Include := incl, Ref := ref, Request := failTwiceInvoker,
    Expect := passBuilder, Retry := ⟨.ok ⟨2⟩⟩ }

end RetryVocabulary

/-! ## Vocabulary of the template claims -/

/-- The characters of a string after its last newline (all of it when it has
no newline). -/
def afterLastNewline : List Char → List Char
  | [] => []
  | c :: cs =>
    if '\n' ∈ cs then afterLastNewline cs
    else if c = '\n' then cs
    else c :: cs

/-- The claim's re-indentation: the lines of `y` joined by newlines again, with
every line after the first prefixed with `k` spaces. -/
def indentEveryLaterLine (k : Nat) (y : String) : String :=
  match splitNewline y.data with
  | [] => ""
  | first :: later =>
    String.mk (List.intercalate ['\n']
      (first :: later.map (fun l => List.replicate k ' ' ++ l)))

/-- The amended re-indentation: the lines of `y` joined by newlines again, with
every non-empty line after the first prefixed with `k` spaces and every empty
line left empty. -/
def indentNonEmptyLaterLines (k : Nat) (y : String) : String :=
  match splitNewline y.data with
  | [] => ""
  | first :: later =>
    String.mk (List.intercalate ['\n']
      (first :: later.map (fun l => if l = [] then [] else List.replicate k ' ' ++ l)))

/-- The required type `T_i` in the claim's words: the `i`-th declared
parameter type, except that for a variadic function and `i ≥ N − 1` it is the
element type of the last parameter. -/
def requiredTypeSpec (ft : FuncType) (i : Nat) : Option GoType :=
  if ft.variadic = true ∧ (i : Int) ≥ ft.NumIn - 1 then
    match ft.params.getLast? with
    | some (.slice e) => some e
    | some (.ptr e) => some e
    | _ => none
  else ft.params.get? i

/-- The stash in which argument `i` of a call is evaluated: the stash left by
the evaluation of the arguments before it. -/
def stashBeforeArg (env : TemplateEnv) (t : Template) (data : Value) :
    List Expr → Nat → funcStash → funcStash
  | [], _, st => st
  | _, 0, st => st
  | arg :: rest, i + 1, st =>
    stashBeforeArg env t data rest i (executeExpr env t arg data st).2

/-- Sample func values: 0 is `func(string) string` appending an exclamation
mark, 1 the variadic `func(string, ...string) string` joining its arguments,
2 a `func() string` that panics, 3 a `func() (string, string)`, and every
other one a func without parameters and results. -/
def sampleFuncs : Nat → GoFunc
  | 0 => ⟨⟨[.named "string"], false⟩, fun args =>
      match args with
      | [some (.str s)] => .returns [some (.str (s ++ "!"))]
      | _ => .panics "reflect: Call using wrong argument"⟩
  | 1 => ⟨⟨[.named "string", .slice (.named "string")], true⟩, fun args =>
      match args with
      | some (.str sep) :: rest =>
        .returns [some (.str (sep.intercalate (rest.filterMap (fun v =>
          match v with
          | some (.str s) => some s
          | _ => none))))]
      | _ => .panics "reflect: Call using wrong argument"⟩
  | 2 => ⟨⟨[], false⟩, fun _ => .panics "boom"⟩
  | 3 => ⟨⟨[], false⟩, fun _ => .returns [some (.str "a"), some (.str "b")]⟩
  | _ => ⟨⟨[], false⟩, fun _ => .returns []⟩

/-- Sample collaborators of the template executor. Identifiers resolve to the
sample funcs by name and `v` to the data; an `int` converts to the string of
that code point; `Atoi` reads unsigned decimal numerals only; `other 1` and
`other 2` are mappings with the YAML texts given. -/
def sampleTemplateEnv : TemplateEnv :=
  { lookup := fun e data =>
      match e with
      | .Ident "v" => .ok data
      | .Ident "exclaim" => .ok (.func 0)
      | .Ident "join" => .ok (.func 1)
      | .Ident "boom" => .ok (.func 2)
      | .Ident "pair" => .ok (.func 3)
      | .Ident "nothing" => .ok (.func 4)
      | _ => .error "not found"
    funcs := sampleFuncs
    typeOf := fun v =>
      match v with
      | .str _ => .named "string"
      | .int _ => .named "int"
      | .bool _ => .named "bool"
      | _ => .named "interface"
    ConvertibleTo := fun a b => a == b || (a == .named "int" && b == .named "string")
    Convert := fun v ty =>
      match v, ty with
      | .int n, .named "string" => .value (.str (String.singleton (Char.ofNat n.toNat)))
      | v, _ => .value v
    Elem := fun v =>
      match v with
      | some (.ptr x) => some x
      | v => v
    typeName := fun v =>
      match v with
      | .nil => "<nil>"
      | .str _ => "string"
      | .int _ => "int"
      | .bool _ => "bool"
      | .func _ => "func()"
      | .ptr _ => "*struct"
      | .other _ => "map[string]interface"
    tokenString := fun k =>
      match k with
      | .STRING => "STRING"
      | .INT => "INT"
      | .ADD => "+"
      | .other n => n
    Atoi := fun s =>
      if s.data ≠ [] ∧ s.data.all Char.isDigit then
        .ok (Int.ofNat (s.data.foldl (fun acc c => acc * 10 + (c.toNat - 48)) 0))
      else .error "strconv.Atoi: invalid syntax"
    yamlMarshal := fun v =>
      match v with
      | .str s => .ok (s ++ "\n")
      | .int n => .ok (toString n ++ "\n")
      | .other 1 => .ok "a: 1\nb: 2\n"
      | .other 2 => .ok "a: |-\n  x\n\n  y\n"
      | _ => .error "yaml: unsupported value"
    yamlDecode := fun s _ => .ok (.str s)
    asFunc := fun _ => none
    ExecuteValue := fun v _ => .ok v
    convert := fun _ v => .ok v }

/-- A template with the given expression, outside a left arrow argument. -/
def plainTemplate (e : Expr) : Template :=
  { str := "", expr := e, executingLeftArrowExprArg := false }

/-- The parsed template `- {{v}}`: a string literal followed by a parameter
expression. -/
def dashParam : Expr :=
  .BinaryExpr (.BasicLit .STRING "- ") .ADD (.ParameterExpr (some (.Ident "v")) false)

/-- The call `exclaim(65)`: the `int` argument is converted to the `string`
the parameter requires. -/
def exclaimCall : Expr := .CallExpr (.Ident "exclaim") [.BasicLit .INT "65"]

/-- A template with the given expression that is executed as a left arrow
argument and is not itself the argument expression. -/
def leftArrowTemplate (e : Expr) : Template :=
  { str := "", expr := e, executingLeftArrowExprArg := true }

/-! ## Vocabulary of the stash, left arrow and literal claims -/

/-- The stash built from the empty stash by saving the values `fs` in order. -/
def funcStash.ofSaves (fs : List Value) : funcStash :=
  fs.foldl (fun s f => (funcStash.save s f).2) []

mutual

/-- Whether the executor reaches a left arrow expression when it evaluates
`e`: selector and index expressions are handed to `lookup` whole. -/
def hasLeftArrow : Expr → Bool
  | .BasicLit _ _ => false
  | .ParameterExpr none _ => false
  | .ParameterExpr (some x) _ => hasLeftArrow x
  | .BinaryExpr x _ y => hasLeftArrow x || hasLeftArrow y
  | .Ident _ => false
  | .SelectorExpr _ _ => false
  | .IndexExpr _ _ => false
  | .CallExpr f args => hasLeftArrow f || hasLeftArrowList args
  | .LeftArrowExpr _ _ => true
  | .Unknown _ => false

/-- Whether the executor reaches a left arrow expression in one of the
arguments. -/
def hasLeftArrowList : List Expr → Bool
  | [] => false
  | e :: rest => hasLeftArrow e || hasLeftArrowList rest

end

/-- The value of a decimal digit. -/
def digitValue (c : Char) : Nat := c.toNat - 48

/-- The number a sequence of decimal digits denotes. -/
def decimalValue (ds : List Char) : Nat :=
  ds.foldl (fun acc c => acc * 10 + digitValue c) 0

/-- The text of a numeral after its optional sign. -/
def stripSign (l : List Char) : List Char :=
  match l with
  | [] => []
  | c :: r => if c = '+' ∨ c = '-' then r else c :: r

/-- `strconv.Atoi` of the Go standard library for a 64-bit `int`: an optional
sign followed by one or more decimal digits; the value must lie in
`[-2^63, 2^63)`. The text is quoted in the message without escapes. -/
def strconvAtoi (s : String) : Except String Int :=
  let body := stripSign s.data
  if body = [] ∨ body.all Char.isDigit = false then
    .error ("strconv.Atoi: parsing \"" ++ s ++ "\": invalid syntax")
  else if s.data.head? = some '-' then
    if decimalValue body ≤ 2 ^ 63 then .ok (-(decimalValue body : Int))
    else .error ("strconv.Atoi: parsing \"" ++ s ++ "\": value out of range")
  else if decimalValue body < 2 ^ 63 then .ok (decimalValue body : Int)
  else .error ("strconv.Atoi: parsing \"" ++ s ++ "\": value out of range")

/-- The sample collaborators with `strconv.Atoi` as in the Go library. -/
def goAtoiEnv : TemplateEnv := { sampleTemplateEnv with Atoi := strconvAtoi }

/-- A sample left arrow function: `UnmarshalArg` unmarshals into an empty
`interface{}` destination and returns what was stored there; `Exec` returns
its argument. -/
def echoFunc : Func :=
  { Exec := fun a => .ok a
    UnmarshalArg := fun unmarshal => unmarshal .nil }

/-- The content of a single-quoted YAML scalar (any other text is taken as a
plain scalar). -/
def unquoteYaml (s : String) : String :=
  match s.data with
  | '\x27' :: rest =>
    if rest.getLast? = some '\x27' then String.mk rest.dropLast else s
  | _ => s

/-- Modelled from the spec: the package-level `Execute(v, argFuncs)` of the
restore step (not part of the sources), which "re-executes the result with
the `argFuncs` stash as environment to restore stashed callables in place of
their placeholder tokens". A string that is the placeholder of a name in the
stash becomes the entry stored under that name, a string that opens like a
placeholder and names no entry is a lookup error, and any other value is
returned as it is. -/
def restorePlaceholder (v : Value) (stash : funcStash) : Result Value :=
  match v with
  | .str s =>
    match stash.find? (fun p => placeholder p.1 == s) with
    | some p => .ok p.2
    | none =>
      if s.data.take 2 = ['\x7b', '\x7b'] then .error "not found" else .ok (.str s)
  | v => .ok v

/-- Sample collaborators with a left arrow function: the identifier `echo`
resolves to a value implementing `Func` (`echoFunc`), strings are written to
YAML as single-quoted scalars and read back from them, and the restore step is
`restorePlaceholder`. -/
def sampleLeftArrowEnv : TemplateEnv :=
  { sampleTemplateEnv with
    lookup := fun e data =>
      match e with
      | .Ident "echo" => .ok (.other 9)
      | e => sampleTemplateEnv.lookup e data
    asFunc := fun v => if v = .other 9 then some echoFunc else none
    yamlMarshal := fun v =>
      match v with
      | .str s => .ok ("\x27" ++ s ++ "\x27\n")
      | v => sampleTemplateEnv.yamlMarshal v
    yamlDecode := fun s _ => .ok (.str (unquoteYaml s))
    ExecuteValue := restorePlaceholder
    convert := fun _ v => .ok v }

/-- The parsed template `echo <- '{{exclaim}}'`: a left arrow function applied
to a quoted parameter that evaluates to a callable. -/
def echoCallable : Expr :=
  .LeftArrowExpr (.Ident "echo") (.ParameterExpr (some (.Ident "exclaim")) true)

/-- The parsed template `echo <- '{{v}}'`: a left arrow function applied to a
quoted parameter that evaluates to the data. -/
def echoData : Expr :=
  .LeftArrowExpr (.Ident "echo") (.ParameterExpr (some (.Ident "v")) true)

/-! ## Command line entry point (`cmd/scenarigo/main.go`) -/

/-- What running `main` does to the process: its exit code and what it wrote
to standard error. -/
structure ProcessOutcome where
  exitCode : Nat
  stderr : List String
deriving DecidableEq, Repr

/-- `main` of `cmd/scenarigo`. `result` is what `cmd.Execute()` returned
(`none`: a nil error), `ErrTestFailed` the value `cmd.ErrTestFailed`, and
`render` the `Error()` text that `fmt.Fprintln` writes. Returning from `main`
ends the process with code 0. -/
def main {Err : Type} [DecidableEq Err] (ErrTestFailed : Err) (render : Err → String)
    (result : Option Err) : ProcessOutcome :=
  match result with
  | none => ⟨0, []⟩
  | some err =>
    if err = ErrTestFailed then ⟨10, []⟩
    else ⟨1, [render err ++ "\n"]⟩

/-! ## Output normalisation (`internal/testutil/string.go`) -/

/-- Whether the text starts with a match of `dddPattern`, the regular
expression `\d\.\d\ds`. -/
def matchesDDD : List Char → Bool
  | a :: b :: c :: d :: e :: _ =>
    a.isDigit && b == '.' && c.isDigit && d.isDigit && e == 's'
  | _ => false

/-- Whether the text starts with a match of `ddddPattern`, the regular
expression `\d\.\d\d\ds`. -/
def matchesDDDD : List Char → Bool
  | a :: b :: c :: d :: e :: f :: _ =>
    a.isDigit && b == '.' && c.isDigit && d.isDigit && e.isDigit && f == 's'
  | _ => false

/-- `ReplaceAllString` for a pattern whose matches all have the length
`width`: the text is read from left to right, a match is replaced by `repl`
and the search goes on after it. `skip` is the number of characters of the
last match that are still to be passed over. -/
def replaceAllFixed (matchesAt : List Char → Bool) (width : Nat) (repl : List Char) :
    Nat → List Char → List Char
  | _, [] => []
  | skip + 1, _ :: t => replaceAllFixed matchesAt width repl skip t
  | 0, c :: t =>
    if matchesAt (c :: t) then repl ++ replaceAllFixed matchesAt width repl (width - 1) t
    else c :: replaceAllFixed matchesAt width repl 0 t

/-- `dddPattern.ReplaceAllString(s, "0.00s")`. -/
def replaceDDD (l : List Char) : List Char :=
  replaceAllFixed matchesDDD 5 "0.00s".data 0 l

/-- `ddddPattern.ReplaceAllString(s, "0.000s")`. -/
def replaceDDDD (l : List Char) : List Char :=
  replaceAllFixed matchesDDDD 6 "0.000s".data 0 l

/-- Whether `l` starts with the characters `p`. -/
def startsWith : List Char → List Char → Bool
  | [], _ => true
  | _ :: _, [] => false
  | a :: p, b :: l => a == b && startsWith p l

/-- Whether the text starts with a match of `elapsedTimePattern`, the regular
expression `elapsed time: .+`: the literal followed by at least one character
other than a newline. -/
def matchesElapsed (l : List Char) : Bool :=
  startsWith "elapsed time: ".data l &&
    (match l.drop 14 with
     | c :: _ => c != '\n'
     | [] => false)

mutual

/-- `elapsedTimePattern.ReplaceAllString(s, "elapsed time: 0.000000 sec")`: a
match runs to the end of its line. -/
def replaceElapsed : List Char → List Char
  | [] => []
  | c :: t =>
    if matchesElapsed (c :: t) then "elapsed time: 0.000000 sec".data ++ skipElapsed t
    else c :: replaceElapsed t

/-- The rest of a line matched by `elapsedTimePattern` is dropped, and the
search goes on at the newline. -/
def skipElapsed : List Char → List Char
  | [] => []
  | c :: t => if c = '\n' then c :: replaceElapsed t else skipElapsed t

end

/-- `testutil.ResetDuration`. -/
def ResetDuration (s : String) : String :=
  String.mk (replaceElapsed (replaceDDDD (replaceDDD s.data)))

/-! ## Vocabulary of the re-indentation and parameter type claims -/

/-- The claim's reference for `addIndent`: in a left arrow argument context,
when `str` contains a newline and `preStr` is not empty, the lines of `str`
joined by newlines again with the first line unchanged, every later non-empty
line prefixed with `k` spaces and every later empty line left empty, `k`
being the number of characters of `preStr` after its last newline; in every
other case `str`. -/
def addIndentReference (inLeftArrowArg : Bool) (str preStr : String) : String :=
  if inLeftArrowArg = true ∧ '\n' ∈ str.data ∧ preStr ≠ "" then
    indentNonEmptyLaterLines (afterLastNewline preStr.data).length str
  else str

/-- The number of lines of a text: one more than its newlines. -/
def lineCount (s : String) : Nat := (splitNewline s.data).length

/-- A func type as package `reflect` reports it: the last parameter of a
variadic func is a slice. -/
def FuncType.wellFormed (ft : FuncType) : Bool :=
  !ft.variadic ||
    (match ft.params.getLast? with
     | some (.slice _) => true
     | _ => false)

/-! ## Vocabulary of the argument conversion claim -/

/-- The conversion of the evaluated argument `a` to the required type `T`
returns: `Convert` is not called (the value is invalid or its type is not
convertible to `T`), or it is called and does not panic. -/
def ConversionReturns (env : TemplateEnv) (a : Value) (T : GoType) : Prop :=
  a ≠ .nil → env.ConvertibleTo (env.typeOf a) T = true → ∃ c, env.Convert a T = .value c

/-- Argument `j` of a call is evaluated, in the stash the arguments before it
left, to a value; the lookup of the type required at position `i0 + j`
returns, and so does the conversion of the value to that type. -/
def ArgConverts (env : TemplateEnv) (t : Template) (ft : FuncType) (data : Value)
    (eargs : List Expr) (i0 : Nat) (st : funcStash) (j : Nat) : Prop :=
  ∃ e a stj T, eargs.get? j = some e ∧
    executeExpr env t e data (stashBeforeArg env t data eargs j st) = (.ok a, stj) ∧
    requiredFuncArgType ft (i0 + j) = .ok T ∧ ConversionReturns env a T

/-- Sample collaborators with a conversion that panics: `other 3` is a slice
of one `int`, whose type `[]int` is convertible to the array type `[2]int`,
and the identifier `first` resolves to func 5, a `func([2]int) string`. The
conversion of the slice panics as in package `reflect`, the slice being
shorter than the array. -/
def samplePanicEnv : TemplateEnv :=
  { sampleTemplateEnv with
    lookup := fun e data =>
      match e with
      | .Ident "first" => .ok (.func 5)
      | e => sampleTemplateEnv.lookup e data
    funcs := fun id =>
      if id = 5 then ⟨⟨[.named "[2]int"], false⟩, fun _ => .returns [some (.str "called")]⟩
      else sampleFuncs id
    typeOf := fun v =>
      match v with
      | .other 3 => .slice (.named "int")
      | v => sampleTemplateEnv.typeOf v
    ConvertibleTo := fun a b =>
      (a == .slice (.named "int") && b == .named "[2]int") ||
        sampleTemplateEnv.ConvertibleTo a b
    Convert := fun v ty =>
      match v, ty with
      | .other 3, .named "[2]int" =>
        .panics "reflect: cannot convert slice with length 1 to array with length 2"
      | v, ty => sampleTemplateEnv.Convert v ty }

/-- The call `first(v)`. -/
def firstCall : Expr := .CallExpr (.Ident "first") [.Ident "v"]

/-! ## Vocabulary of the determinism claim -/

/-- The collaborators `env` with the extractor behind `lookup` replaced by
`l`: another data environment for the same funcs and libraries. -/
def TemplateEnv.withLookup (env : TemplateEnv) (l : Expr → Value → Result Value) :
    TemplateEnv :=
  { env with lookup := l }

mutual

/-- Whether the extractors `l1` and `l2` give the same answer, on the data
`data`, to every lookup the executor makes when it evaluates `e`: the
identifiers, selector expressions and index expressions it reaches, each
handed to `lookup` whole. -/
def sameLookups (l1 l2 : Expr → Value → Result Value) (data : Value) : Expr → Bool
  | .BasicLit _ _ => true
  | .ParameterExpr none _ => true
  | .ParameterExpr (some x) _ => sameLookups l1 l2 data x
  | .BinaryExpr x _ y => sameLookups l1 l2 data x && sameLookups l1 l2 data y
  | .Ident name => decide (l1 (.Ident name) data = l2 (.Ident name) data)
  | .SelectorExpr x sel =>
    decide (l1 (.SelectorExpr x sel) data = l2 (.SelectorExpr x sel) data)
  | .IndexExpr x index =>
    decide (l1 (.IndexExpr x index) data = l2 (.IndexExpr x index) data)
  | .CallExpr f args => sameLookups l1 l2 data f && sameLookupsList l1 l2 data args
  | .LeftArrowExpr f arg => sameLookups l1 l2 data f && sameLookups l1 l2 data arg
  | .Unknown _ => true

/-- The same for the arguments of a call. -/
def sameLookupsList (l1 l2 : Expr → Value → Result Value) (data : Value) : List Expr → Bool
  | [] => true
  | e :: rest => sameLookups l1 l2 data e && sameLookupsList l1 l2 data rest

end

/-- A sample extractor that knows the identifier `v` only. -/
def otherLookup : Expr → Value → Result Value
  | .Ident "v", data => .ok data
  | _, _ => .error "undefined"

/-! ## Theorems: retry -/

section RetryTheorems

variable {σ Resp Err : Type}

theorem attemptBody_state (env : StepEnv σ Resp Err) (ctx : Context) (s : Step σ Resp Err)
    (stepIdx i : Nat) (w : σ) :
    (attemptBody env ctx s stepIdx i w).1 = afterAttempt ctx s w := by
  unfold attemptBody afterAttempt
  rcases h1 : s.Request.Invoke w ctx with ⟨w1, e | ⟨c, resp⟩⟩
  · rfl
  · simp only
    rcases h2 : s.Expect.Build w1 c with ⟨w2, e | a⟩
    · rfl
    · simp only
      rcases h3 : a.Assert w2 resp with ⟨w3, _ | e⟩ <;> rfl

theorem attemptBody_out (env : StepEnv σ Resp Err) (ctx : Context) (s : Step σ Resp Err)
    (stepIdx i : Nat) (w : σ) (c : Context) :
    (attemptBody env ctx s stepIdx i w).2.2 = some c ↔ AttemptPasses ctx s w c := by
  unfold attemptBody AttemptPasses
  rcases h1 : s.Request.Invoke w ctx with ⟨w1, e | ⟨c1, resp⟩⟩
  · simp
  · simp only
    rcases h2 : s.Expect.Build w1 c1 with ⟨w2, e | a⟩
    · constructor
      · intro h; simp at h
      · rintro ⟨w1', resp', w2', a', w3', hI, hB, _⟩
        simp only [Prod.mk.injEq, Except.ok.injEq] at hI
        obtain ⟨rfl, rfl, rfl⟩ := hI
        rw [h2] at hB
        simp at hB
    · simp only
      rcases h3 : a.Assert w2 resp with ⟨w3, _ | e⟩
      · constructor
        · intro h
          simp only [Option.some.injEq] at h
          subst h
          exact ⟨w1, resp, w2, a, w3, rfl, h2, h3⟩
        · rintro ⟨w1', resp', w2', a', w3', hI, hB, hA⟩
          simp only [Prod.mk.injEq, Except.ok.injEq] at hI
          obtain ⟨rfl, rfl, rfl⟩ := hI
          rfl
      · constructor
        · intro h; simp at h
        · rintro ⟨w1', resp', w2', a', w3', hI, hB, hA⟩
          simp only [Prod.mk.injEq, Except.ok.injEq] at hI
          obtain ⟨rfl, rfl, rfl⟩ := hI
          rw [h2] at hB
          simp only [Prod.mk.injEq, Except.ok.injEq] at hB
          obtain ⟨rfl, rfl⟩ := hB
          rw [h3] at hA
          simp at hA

theorem attemptBody_invokeCount (env : StepEnv σ Resp Err) (ctx : Context)
    (s : Step σ Resp Err) (stepIdx i : Nat) (w : σ) :
    invokeCount (attemptBody env ctx s stepIdx i w).2.1 = 1 := by
  unfold attemptBody invokeCount
  rcases s.Request.Invoke w ctx with ⟨w1, e | ⟨c, resp⟩⟩
  · simp [List.countP_cons, Event.isInvoke]
  · simp only
    rcases s.Expect.Build w1 c with ⟨w2, e | a⟩
    · simp [List.countP_cons, Event.isInvoke]
    · simp only
      rcases a.Assert w2 resp with ⟨w3, _ | e⟩
      · simp [List.countP_cons, Event.isInvoke]
      · simp only
        cases env.asAssertError
            (env.WithNodeAndColored (env.WithPath e (stepPath stepIdx "expect"))
              ctx.Node ctx.EnabledColor) with
        | none => simp [List.countP_cons, Event.isInvoke]
        | some errs =>
          simp [List.countP_cons, List.countP_append, Event.isInvoke, List.countP_map,
            List.countP_eq_zero]

theorem attemptBody_no_failNow (env : StepEnv σ Resp Err) (ctx : Context)
    (s : Step σ Resp Err) (stepIdx i : Nat) (w : σ) :
    ∀ e ∈ (attemptBody env ctx s stepIdx i w).2.1, Event.isFailNow e = false := by
  unfold attemptBody
  rcases s.Request.Invoke w ctx with ⟨w1, e | ⟨c, resp⟩⟩
  · simp [Event.isFailNow]
  · simp only
    rcases s.Expect.Build w1 c with ⟨w2, e | a⟩
    · simp [Event.isFailNow]
    · simp only
      rcases a.Assert w2 resp with ⟨w3, _ | e⟩
      · simp [Event.isFailNow]
      · simp only
        cases env.asAssertError
            (env.WithNodeAndColored (env.WithPath e (stepPath stepIdx "expect"))
              ctx.Node ctx.EnabledColor) with
        | none => simp [Event.isFailNow]
        | some errs =>
          intro ev hev
          simp only [List.cons_append, List.nil_append, List.mem_cons, List.mem_map] at hev
          rcases hev with rfl | rfl | rfl | rfl | rfl | ⟨x, _, rfl⟩ <;> rfl

theorem AttemptPasses_unique {ctx : Context} {s : Step σ Resp Err} {w : σ} {c c' : Context}
    (h : AttemptPasses ctx s w c) (h' : AttemptPasses ctx s w c') : c = c' := by
  obtain ⟨w1, resp, _, _, _, hI, _, _⟩ := h
  obtain ⟨w1', resp', _, _, _, hI', _, _⟩ := h'
  rw [hI] at hI'
  simp only [Prod.mk.injEq, Except.ok.injEq] at hI'
  exact hI'.2.1

/-- When no attempt among the `n` granted passes, the loop runs all of them,
calls `Invoke` `n` times and ends in `FailNow`. -/
theorem retryLoop_exhausted (env : StepEnv σ Resp Err) (ctx : Context) (s : Step σ Resp Err)
    (stepIdx : Nat) :
    ∀ (n i : Nat) (w : σ),
      (∀ k, k < n → ∀ c, ¬ AttemptPasses ctx s (stateBefore ctx s k w) c) →
      (retryLoop env ctx s stepIdx n i w).out = none ∧
      Event.FailNow ctx.Reporter ∈ (retryLoop env ctx s stepIdx n i w).events ∧
      invokeCount (retryLoop env ctx s stepIdx n i w).events = n := by
  intro n
  induction n with
  | zero =>
    intro i w _
    simp [retryLoop, invokeCount, Event.isInvoke]
  | succ n ih =>
    intro i w h
    have hs := attemptBody_state env ctx s stepIdx i w
    have hc := attemptBody_invokeCount env ctx s stepIdx i w
    have h0 : ∀ c, ¬ (attemptBody env ctx s stepIdx i w).2.2 = some c := by
      intro c hc0
      exact h 0 (Nat.succ_pos n) c ((attemptBody_out env ctx s stepIdx i w c).1 hc0)
    rcases hb : attemptBody env ctx s stepIdx i w with ⟨w1, evs, _ | c⟩
    · rw [hb] at hs hc
      simp only at hs hc
      have ih1 := ih (i + 1) w1 (by
        intro k hk c
        have := h (k + 1) (Nat.succ_lt_succ hk) c
        simpa [stateBefore, ← hs] using this)
      simp only [retryLoop, hb]
      refine ⟨ih1.1, List.mem_append_right _ ih1.2.1, ?_⟩
      unfold invokeCount at hc ih1 ⊢
      rw [List.countP_append, hc, ih1.2.2, Nat.add_comm]
    · exact absurd (by rw [hb]) (h0 c)

/-- When attempt `k` is the first that passes, the loop returns the context
`Invoke` returned in it, has called `Invoke` `k + 1` times and never
`FailNow`. -/
theorem retryLoop_first_pass (env : StepEnv σ Resp Err) (ctx : Context) (s : Step σ Resp Err)
    (stepIdx : Nat) :
    ∀ (k n i : Nat) (w : σ) (c : Context), k < n →
      AttemptPasses ctx s (stateBefore ctx s k w) c →
      (∀ j, j < k → ∀ c', ¬ AttemptPasses ctx s (stateBefore ctx s j w) c') →
      (retryLoop env ctx s stepIdx n i w).out = some c ∧
      (∀ e ∈ (retryLoop env ctx s stepIdx n i w).events, Event.isFailNow e = false) ∧
      invokeCount (retryLoop env ctx s stepIdx n i w).events = k + 1 := by
  intro k
  induction k with
  | zero =>
    intro n i w c hn hp _
    obtain ⟨m, rfl⟩ : ∃ m, n = m + 1 := ⟨n - 1, by omega⟩
    have ho := (attemptBody_out env ctx s stepIdx i w c).2 hp
    have hc := attemptBody_invokeCount env ctx s stepIdx i w
    have hf := attemptBody_no_failNow env ctx s stepIdx i w
    rcases hb : attemptBody env ctx s stepIdx i w with ⟨w1, evs, _ | c1⟩
    · rw [hb] at ho; simp at ho
    · rw [hb] at ho hc hf
      simp only [Option.some.injEq] at ho
      subst ho
      simp only [retryLoop, hb]
      exact ⟨trivial, hf, hc⟩
  | succ k ih =>
    intro n i w c hn hp hnone
    obtain ⟨m, rfl⟩ : ∃ m, n = m + 1 := ⟨n - 1, by omega⟩
    have hs := attemptBody_state env ctx s stepIdx i w
    have hc := attemptBody_invokeCount env ctx s stepIdx i w
    have hf := attemptBody_no_failNow env ctx s stepIdx i w
    have h0 : ∀ c', ¬ (attemptBody env ctx s stepIdx i w).2.2 = some c' := by
      intro c' hc0
      exact hnone 0 (Nat.succ_pos k) c' ((attemptBody_out env ctx s stepIdx i w c').1 hc0)
    rcases hb : attemptBody env ctx s stepIdx i w with ⟨w1, evs, _ | c1⟩
    · rw [hb] at hs hc hf
      simp only at hs hc hf
      have ih1 := ih m (i + 1) w1 c (by omega)
        (by simpa [stateBefore, ← hs] using hp)
        (by
          intro j hj c'
          have := hnone (j + 1) (Nat.succ_lt_succ hj) c'
          simpa [stateBefore, ← hs] using this)
      simp only [retryLoop, hb]
      refine ⟨ih1.1, ?_, ?_⟩
      · intro e he
        rcases List.mem_append.1 he with h | h
        · exact hf e h
        · exact ih1.2.1 e h
      · unfold invokeCount at hc ih1 ⊢
        rw [List.countP_append, hc, ih1.2.2, Nat.add_comm]
    · exact absurd (by rw [hb]) (h0 c1)

/-- Among the first `n` attempts either none passes or there is a first one
that does. -/
theorem first_pass_or_none (ctx : Context) (s : Step σ Resp Err) (w : σ) (n : Nat) :
    (∀ k, k < n → ∀ c, ¬ AttemptPasses ctx s (stateBefore ctx s k w) c) ∨
    ∃ k c, k < n ∧ AttemptPasses ctx s (stateBefore ctx s k w) c ∧
      ∀ j, j < k → ∀ c', ¬ AttemptPasses ctx s (stateBefore ctx s j w) c' := by
  induction n with
  | zero => left; intro k hk; omega
  | succ n ih =>
    rcases ih with h | ⟨k, c, hk, hp, hmin⟩
    · by_cases hn : ∃ c, AttemptPasses ctx s (stateBefore ctx s n w) c
      · obtain ⟨c, hc⟩ := hn
        exact Or.inr ⟨n, c, Nat.lt_succ_self n, hc, fun j hj => h j hj⟩
      · left
        intro k hk c hc
        rcases Nat.lt_succ_iff_lt_or_eq.1 hk with hlt | rfl
        · exact h k hlt c hc
        · exact hn ⟨c, hc⟩
    · exact Or.inr ⟨k, c, Nat.lt_succ_of_lt hk, hp, hmin⟩

/-- C1: `invokeAndAssert` over an attempt stream granting `n` attempts returns a
context iff some attempt `k < n` passes (`Invoke`, `Expect.Build` and `Assert`
all without error); it then returns the context `Invoke` returned in the first
such attempt and never calls `FailNow`; when every attempt fails it returns
nothing and `FailNow` is called on the reporter of the context. An invoker
failing twice and then succeeding passes with `maxRetries: 2` (3 attempts) and
fails with `maxRetries: 1` (2 attempts). -/
theorem invokeAndAssert_passes_iff_attempt_passes (env : StepEnv σ Resp Err) (ctx : Context)
    (s : Step σ Resp Err) (stepIdx : Nat) (w : σ) (policy : Policy) (n : Nat)
    (hb : s.Retry.Build = .ok policy) (hn : policy.Start ctx.RequestContext = n) :
    ((∃ c, (invokeAndAssert env ctx s stepIdx w).out = some c) ↔
      ∃ k c, k < n ∧ AttemptPasses ctx s (stateBefore ctx s k w) c) ∧
    (∀ k c, k < n → AttemptPasses ctx s (stateBefore ctx s k w) c →
      (∀ j, j < k → ∀ c', ¬ AttemptPasses ctx s (stateBefore ctx s j w) c') →
      (invokeAndAssert env ctx s stepIdx w).out = some c ∧
      ∀ e ∈ (invokeAndAssert env ctx s stepIdx w).events, Event.isFailNow e = false) ∧
    ((∀ k, k < n → ∀ c, ¬ AttemptPasses ctx s (stateBefore ctx s k w) c) →
      (invokeAndAssert env ctx s stepIdx w).out = none ∧
      Event.FailNow ctx.Reporter ∈ (invokeAndAssert env ctx s stepIdx w).events) ∧
    (∀ (env2 : StepEnv Nat Unit String) (ctx2 : Context), ctx2.RequestContext = none →
      ((invokeAndAssert env2 ctx2 (failTwiceStep 2) stepIdx 0).out = some ctx2 ∧
        ∀ e ∈ (invokeAndAssert env2 ctx2 (failTwiceStep 2) stepIdx 0).events,
          Event.isFailNow e = false) ∧
      ((invokeAndAssert env2 ctx2 (failTwiceStep 1) stepIdx 0).out = none ∧
        Event.FailNow ctx2.Reporter ∈
          (invokeAndAssert env2 ctx2 (failTwiceStep 1) stepIdx 0).events)) := by
  have hrun : invokeAndAssert env ctx s stepIdx w = retryLoop env ctx s stepIdx n 0 w := by
    simp only [invokeAndAssert, hb, hn]
  rw [hrun]
  refine ⟨?_, ?_, ?_, ?_⟩
  · constructor
    · rintro ⟨c, hc⟩
      rcases first_pass_or_none ctx s w n with h | ⟨k, c', hk, hp, _⟩
      · rw [(retryLoop_exhausted env ctx s stepIdx n 0 w h).1] at hc
        cases hc
      · exact ⟨k, c', hk, hp⟩
    · rintro ⟨k, c, hk, hp⟩
      rcases first_pass_or_none ctx s w n with h | ⟨k', c', hk', hp', hmin⟩
      · exact absurd hp (h k hk c)
      · exact ⟨c', (retryLoop_first_pass env ctx s stepIdx k' n 0 w c' hk' hp' hmin).1⟩
  · intro k c hk hp hmin
    have h := retryLoop_first_pass env ctx s stepIdx k n 0 w c hk hp hmin
    exact ⟨h.1, h.2.1⟩
  · intro h
    have h' := retryLoop_exhausted env ctx s stepIdx n 0 w h
    exact ⟨h'.1, h'.2.1⟩
  · intro env2 ctx2 hrc
    simp [invokeAndAssert, failTwiceStep, Policy.Start, hrc, retryLoop, attemptBody,
      failTwiceInvoker, passBuilder, Event.isFailNow]

theorem invokeAndAssert_passes_iff_attempt_passes_witness :
    (failTwiceStep 2).Retry.Build = .ok ⟨2⟩ ∧
    Policy.Start ⟨2⟩ sampleContext.RequestContext = 3 ∧
    ((∃ c, (invokeAndAssert sampleStepEnv sampleContext (failTwiceStep 2) 0 0).out = some c) ↔
      ∃ k c, k < 3 ∧ AttemptPasses sampleContext (failTwiceStep 2)
        (stateBefore sampleContext (failTwiceStep 2) k 0) c) :=
  ⟨rfl, rfl, (invokeAndAssert_passes_iff_attempt_passes sampleStepEnv sampleContext
    (failTwiceStep 2) 0 0 ⟨2⟩ 3 rfl rfl).1⟩

theorem Policy.Start_le (p : Policy) (rc : Option Nat) : p.Start rc ≤ p.maxRetries + 1 := by
  cases rc with
  | none => exact Nat.le_refl _
  | some c => exact Nat.min_le_right _ _

/-- C2: for a retry policy with bound `maxRetries`, `invokeAndAssert` calls
`Invoke` at most `maxRetries + 1` times: once for each attempt the stream
grants when no attempt passes, and `k + 1` times (once per attempt up to and
including attempt `k`, never again afterwards) when attempt `k` is the first
in which invocation, assertion build and assertion all succeed. -/
theorem invokeAndAssert_invokes_at_most_maxRetries_succ (env : StepEnv σ Resp Err)
    (ctx : Context) (s : Step σ Resp Err) (stepIdx : Nat) (w : σ) (policy : Policy)
    (hb : s.Retry.Build = .ok policy) :
    invokeCount (invokeAndAssert env ctx s stepIdx w).events ≤ policy.maxRetries + 1 ∧
    invokeCount (invokeAndAssert env ctx s stepIdx w).events ≤
      policy.Start ctx.RequestContext ∧
    ((∀ k, k < policy.Start ctx.RequestContext →
        ∀ c, ¬ AttemptPasses ctx s (stateBefore ctx s k w) c) →
      invokeCount (invokeAndAssert env ctx s stepIdx w).events =
        policy.Start ctx.RequestContext) ∧
    (∀ k c, k < policy.Start ctx.RequestContext →
      AttemptPasses ctx s (stateBefore ctx s k w) c →
      (∀ j, j < k → ∀ c', ¬ AttemptPasses ctx s (stateBefore ctx s j w) c') →
      invokeCount (invokeAndAssert env ctx s stepIdx w).events = k + 1) := by
  have hrun : invokeAndAssert env ctx s stepIdx w =
      retryLoop env ctx s stepIdx (policy.Start ctx.RequestContext) 0 w := by
    simp only [invokeAndAssert, hb]
  rw [hrun]
  have hle := Policy.Start_le policy ctx.RequestContext
  have hcount : invokeCount
      (retryLoop env ctx s stepIdx (policy.Start ctx.RequestContext) 0 w).events ≤
      policy.Start ctx.RequestContext := by
    rcases first_pass_or_none ctx s w (policy.Start ctx.RequestContext) with
      h | ⟨k, c, hk, hp, hmin⟩
    · exact Nat.le_of_eq (retryLoop_exhausted env ctx s stepIdx _ 0 w h).2.2
    · rw [(retryLoop_first_pass env ctx s stepIdx k _ 0 w c hk hp hmin).2.2]
      exact hk
  refine ⟨Nat.le_trans hcount hle, hcount, ?_, ?_⟩
  · intro h
    exact (retryLoop_exhausted env ctx s stepIdx _ 0 w h).2.2
  · intro k c hk hp hmin
    exact (retryLoop_first_pass env ctx s stepIdx k _ 0 w c hk hp hmin).2.2

theorem invokeAndAssert_invokes_at_most_maxRetries_succ_witness :
    (failTwiceStep 1).Retry.Build = .ok ⟨1⟩ ∧
    invokeCount (invokeAndAssert sampleStepEnv sampleContext (failTwiceStep 1) 0 0).events
      ≤ 1 + 1 :=
  ⟨rfl, (invokeAndAssert_invokes_at_most_maxRetries_succ sampleStepEnv sampleContext
    (failTwiceStep 1) 0 0 ⟨1⟩ rfl).1⟩

end RetryTheorems

/-! ## Theorems: branch selection in `runStep` -/

section BranchTheorems

variable {σ Resp Err : Type}

theorem attemptBody_events_request (env : StepEnv σ Resp Err) (ctx : Context)
    (s : Step σ Resp Err) (stepIdx i : Nat) (w : σ) :
    ∀ e ∈ (attemptBody env ctx s stepIdx i w).2.1,
      Event.isInclude e = false ∧ Event.isRef e = false := by
  unfold attemptBody
  rcases s.Request.Invoke w ctx with ⟨w1, e | ⟨c, resp⟩⟩
  · simp [Event.isInclude, Event.isRef]
  · simp only
    rcases s.Expect.Build w1 c with ⟨w2, e | a⟩
    · simp [Event.isInclude, Event.isRef]
    · simp only
      rcases a.Assert w2 resp with ⟨w3, _ | e⟩
      · simp [Event.isInclude, Event.isRef]
      · simp only
        cases env.asAssertError
            (env.WithNodeAndColored (env.WithPath e (stepPath stepIdx "expect"))
              ctx.Node ctx.EnabledColor) with
        | none => simp [Event.isInclude, Event.isRef]
        | some errs =>
          intro ev hev
          simp only [List.cons_append, List.nil_append, List.mem_cons, List.mem_map] at hev
          rcases hev with rfl | rfl | rfl | rfl | rfl | ⟨x, _, rfl⟩ <;> exact ⟨rfl, rfl⟩

theorem retryLoop_events_request (env : StepEnv σ Resp Err) (ctx : Context)
    (s : Step σ Resp Err) (stepIdx : Nat) :
    ∀ (n i : Nat) (w : σ), ∀ e ∈ (retryLoop env ctx s stepIdx n i w).events,
      Event.isInclude e = false ∧ Event.isRef e = false := by
  intro n
  induction n with
  | zero =>
    intro i w e he
    simp only [retryLoop, List.mem_singleton] at he
    subst he
    exact ⟨rfl, rfl⟩
  | succ n ih =>
    intro i w e he
    have hb := attemptBody_events_request env ctx s stepIdx i w
    rcases hab : attemptBody env ctx s stepIdx i w with ⟨w1, evs, _ | c⟩
    · rw [hab] at hb
      simp only [retryLoop, hab] at he
      rcases List.mem_append.1 he with h | h
      · exact hb e h
      · exact ih (i + 1) w1 e h
    · rw [hab] at hb
      simp only [retryLoop, hab] at he
      exact hb e he

theorem invokeAndAssert_events_request (env : StepEnv σ Resp Err) (ctx : Context)
    (s : Step σ Resp Err) (stepIdx : Nat) (w : σ) :
    ∀ e ∈ (invokeAndAssert env ctx s stepIdx w).events,
      Event.isInclude e = false ∧ Event.isRef e = false := by
  unfold invokeAndAssert
  cases s.Retry.Build with
  | error err =>
    intro e he
    simp only [List.mem_singleton] at he
    subst he
    exact ⟨rfl, rfl⟩
  | ok policy => exact retryLoop_events_request env ctx s stepIdx _ 0 w

theorem runInclude_events (env : StepEnv σ Resp Err) (ctx : Context) (scenario : Scenario)
    (s : Step σ Resp Err) (w : σ) :
    ∀ e ∈ (runInclude env ctx scenario s w).events,
      Event.isRef e = false ∧ Event.isRequest e = false := by
  unfold runInclude
  simp only
  rcases env.LoadScenarios w (env.Join (env.Dir scenario.Filepath) s.Include) with
    ⟨w1, err | scs⟩
  · simp [Event.isRef, Event.isRequest]
  · rcases scs with _ | ⟨sc, _ | ⟨sc2, rest⟩⟩
    · simp [Event.isRef, Event.isRequest]
    · simp only
      cases env.Rel (env.Dir scenario.Filepath)
          (env.Join (env.Dir scenario.Filepath) s.Include) with
      | error err => simp [Event.isRef, Event.isRequest]
      | ok name => simp [Event.isRef, Event.isRequest]
    · simp [Event.isRef, Event.isRequest]

theorem runRef_events (env : StepEnv σ Resp Err) (ctx : Context) (s : Step σ Resp Err)
    (stepIdx : Nat) (w : σ) :
    ∀ e ∈ (runRef env ctx s stepIdx w).events,
      Event.isInclude e = false ∧ Event.isRequest e = false := by
  unfold runRef
  rcases env.ExecuteTemplate w ctx (.str s.Ref) with ⟨w1, err | x⟩
  · simp [Event.isInclude, Event.isRequest]
  · simp only
    cases env.asPluginStep x with
    | none => simp [Event.isInclude, Event.isRequest]
    | some stp =>
      simp only
      rcases stp w1 ctx s with ⟨w2, _ | c⟩ <;> simp [Event.isInclude, Event.isRequest]

/-- C3: `runStep` evaluates `vars` first (when present) and runs exactly one
branch in the derived context: with a non-empty `include` the include branch
(the included scenario is run when it loads as exactly one scenario), in which
no template is evaluated, no plug-in step run and the adapter never called;
otherwise with a non-empty `ref` the ref branch (the plug-in step is run when
the reference evaluates to one), in which nothing is loaded and the adapter
never called; and only with both empty `invokeAndAssert`. -/
theorem runStep_runs_exactly_one_branch (env : StepEnv σ Resp Err) (ctx : Context)
    (scenario : Scenario) (s : Step σ Resp Err) (stepIdx : Nat) (w : σ) :
    (s.Vars = none →
      runStep env ctx scenario s stepIdx w = runBranch env ctx scenario s stepIdx w) ∧
    (∀ v w1 err, s.Vars = some v → env.ExecuteTemplate w ctx v = (w1, .error err) →
      (runStep env ctx scenario s stepIdx w).out = none ∧
      (runStep env ctx scenario s stepIdx w).events =
        [Event.ExecuteTemplate v,
         Event.Fatal ctx.Reporter (env.WithNodeAndColored
           (env.WrapPath err (stepPath stepIdx "vars") "invalid vars")
           ctx.Node ctx.EnabledColor)]) ∧
    (∀ v w1 vars, s.Vars = some v → env.ExecuteTemplate w ctx v = (w1, .ok vars) →
      (runStep env ctx scenario s stepIdx w).events =
        Event.ExecuteTemplate v ::
          (runBranch env (ctx.WithVars vars) scenario s stepIdx w1).events ∧
      (runStep env ctx scenario s stepIdx w).out =
        (runBranch env (ctx.WithVars vars) scenario s stepIdx w1).out ∧
      (runStep env ctx scenario s stepIdx w).ext =
        (runBranch env (ctx.WithVars vars) scenario s stepIdx w1).ext) ∧
    (∀ (ctx2 : Context) (w2 : σ),
      (s.Include ≠ "" →
        runBranch env ctx2 scenario s stepIdx w2 = runInclude env ctx2 scenario s w2 ∧
        (∀ e ∈ (runBranch env ctx2 scenario s stepIdx w2).events,
          Event.isRef e = false ∧ Event.isRequest e = false) ∧
        (∀ w3 sc name,
          env.LoadScenarios w2 (env.Join (env.Dir scenario.Filepath) s.Include) =
            (w3, .ok [sc]) →
          env.Rel (env.Dir scenario.Filepath)
            (env.Join (env.Dir scenario.Filepath) s.Include) = .ok name →
          Event.RunScenario ((ctx2.WithReporter
              (env.newReporter w3 ctx2.Reporter name).2).WithNode sc.Node) ∈
            (runBranch env ctx2 scenario s stepIdx w2).events)) ∧
      (s.Include = "" → s.Ref ≠ "" →
        runBranch env ctx2 scenario s stepIdx w2 = runRef env ctx2 s stepIdx w2 ∧
        (∀ e ∈ (runBranch env ctx2 scenario s stepIdx w2).events,
          Event.isInclude e = false ∧ Event.isRequest e = false) ∧
        (∀ w3 x stp, env.ExecuteTemplate w2 ctx2 (.str s.Ref) = (w3, .ok x) →
          env.asPluginStep x = some stp →
          Event.PluginRun ctx2 ∈ (runBranch env ctx2 scenario s stepIdx w2).events)) ∧
      (s.Include = "" → s.Ref = "" →
        runBranch env ctx2 scenario s stepIdx w2 = invokeAndAssert env ctx2 s stepIdx w2 ∧
        ∀ e ∈ (runBranch env ctx2 scenario s stepIdx w2).events,
          Event.isInclude e = false ∧ Event.isRef e = false)) := by
  refine ⟨?_, ?_, ?_, ?_⟩
  · intro h
    simp only [runStep, h]
  · intro v w1 err hv he
    simp only [runStep, hv, he]
    exact ⟨trivial, trivial⟩
  · intro v w1 vars hv he
    simp only [runStep, hv, he]
    exact ⟨trivial, trivial, trivial⟩
  · intro ctx2 w2
    refine ⟨?_, ?_, ?_⟩
    · intro hi
      have hrun : runBranch env ctx2 scenario s stepIdx w2 =
          runInclude env ctx2 scenario s w2 := by
        simp only [runBranch, ne_eq, hi, not_false_eq_true, if_true]
      rw [hrun]
      refine ⟨rfl, runInclude_events env ctx2 scenario s w2, ?_⟩
      intro w3 sc name hl hr
      simp [runInclude, hl, hr]
    · intro hi hr
      have hrun : runBranch env ctx2 scenario s stepIdx w2 = runRef env ctx2 s stepIdx w2 := by
        simp only [runBranch, ne_eq, hi, not_true_eq_false, if_false, hr, not_false_eq_true,
          if_true]
      rw [hrun]
      refine ⟨rfl, runRef_events env ctx2 s stepIdx w2, ?_⟩
      intro w3 x stp he hp
      simp only [runRef, he, hp]
      rcases stp w3 ctx2 s with ⟨w4, _ | c⟩ <;> simp
    · intro hi hr
      have hrun : runBranch env ctx2 scenario s stepIdx w2 =
          invokeAndAssert env ctx2 s stepIdx w2 := by
        simp only [runBranch, ne_eq, hi, not_true_eq_false, if_false, hr]
      rw [hrun]
      exact ⟨rfl, invokeAndAssert_events_request env ctx2 s stepIdx w2⟩

theorem runStep_runs_exactly_one_branch_witness :
    (sampleStep none "sub.yaml" "").Include ≠ "" ∧
    Event.RunScenario ((sampleContext.WithReporter 1).WithNode 7) ∈
      (runBranch sampleStepEnv sampleContext ⟨"main.yaml", 3⟩
        (sampleStep none "sub.yaml" "") 0 0).events :=
  ⟨by decide,
    (((runStep_runs_exactly_one_branch sampleStepEnv sampleContext ⟨"main.yaml", 3⟩
      (sampleStep none "sub.yaml" "") 0 0).2.2.2 sampleContext 0).1 (by decide)).2.2
      0 ⟨"main.yaml/sub.yaml", 7⟩ "main.yaml/sub.yaml" rfl rfl⟩

end BranchTheorems

/-! ## Theorems: template executor -/

section TemplateTheorems

/-- C4: `Template.Execute` never ends in a panic: when the evaluation of the
expression panics with payload `m`, `Execute` returns the error
`failed to execute: panic: m` and no value; so does a call expression whose
callable panics. -/
theorem Execute_converts_panic_to_error (env : TemplateEnv) (t : Template) (data : Value)
    (st : funcStash) :
    (∀ m, (t.Execute env data st).1 ≠ .panic m) ∧
    (∀ m st1, executeExpr env t t.expr data st = (.panic m, st1) →
      t.Execute env data st = (.error ("failed to execute: panic: " ++ m), st1)) ∧
    (∀ efun eargs id args st1 st2 m, t.expr = .CallExpr efun eargs →
      executeExpr env t efun data st = (.ok (.func id), st1) →
      arityError (env.funcs id).type eargs.length = none →
      executeArgs env t (env.funcs id).type eargs 0 data st1 = (.ok args, st2) →
      (env.funcs id).Call args = .panics m →
      t.Execute env data st = (.error ("failed to execute: panic: " ++ m), st2)) ∧
    (plainTemplate (.CallExpr (.Ident "boom") [])).Execute sampleTemplateEnv data st =
      (.error "failed to execute: panic: boom", st) := by
  refine ⟨?_, ?_, ?_, ?_⟩
  · intro m
    unfold Template.Execute
    rcases executeExpr env t t.expr data st with ⟨r, st1⟩
    cases r with
    | ok v => simp [executeOutcome]
    | error e =>
      simp only [executeOutcome]
      split <;> simp
    | panic p => simp [executeOutcome]
  · intro m st1 h
    simp only [Template.Execute, h, executeOutcome]
  · intro efun eargs id args st1 st2 m he hf ha hargs hcall
    simp only [Template.Execute, he, executeExpr, hf, ha, hargs, callFunc, hcall,
      executeOutcome]
  · simp [Template.Execute, plainTemplate, executeExpr, sampleTemplateEnv, arityError,
      sampleFuncs, FuncType.NumIn, executeArgs, callFunc, executeOutcome]

/-- C5: for a binary ADD whose operands evaluate to `x` and `y`: when both are
strings and the executor is not in a left arrow argument context, or the right
operand is not a parameter expression, the result is the concatenation of the
two; when either is not a string the result is the error
`failed to concat strings: expect string but got T` for the type `T` of the
first operand that is not a string, and no value. -/
theorem executeBinaryExpr_add_concats (env : TemplateEnv) (t : Template) (ex ey : Expr)
    (data : Value) (st st1 st2 : funcStash) (x y : Value)
    (hx : executeExpr env t ex data st = (.ok x, st1))
    (hy : executeExpr env t ey data st1 = (.ok y, st2)) :
    (∀ sx sy, x = .str sx → y = .str sy →
      (t.executingLeftArrowExprArg = false ∨ ∀ e q, ey ≠ .ParameterExpr e q) →
      executeExpr env t (.BinaryExpr ex .ADD ey) data st = (.ok (.str (sx ++ sy)), st2)) ∧
    ((∀ sx, x ≠ .str sx) →
      executeExpr env t (.BinaryExpr ex .ADD ey) data st =
        (.error ("failed to concat strings: " ++ ("expect string but got " ++ env.typeName x)), st2)) ∧
    (∀ sx, x = .str sx → (∀ sy, y ≠ .str sy) →
      executeExpr env t (.BinaryExpr ex .ADD ey) data st =
        (.error ("failed to concat strings: " ++ ("expect string but got " ++ env.typeName y)), st2)) := by
  refine ⟨?_, ?_, ?_⟩
  · intro sx sy hsx hsy hctx
    subst hsx hsy
    simp only [executeExpr, hx, hy, add, stringize]
    rcases hctx with h | h
    · simp [h]
    · cases ey with
      | ParameterExpr e q => exact absurd rfl (h e q)
      | _ => simp
  · intro hns
    simp only [executeExpr, hx, hy, add]
    cases x with
    | str sx => exact absurd rfl (hns sx)
    | _ => simp [stringize, wrapErr]
  · intro sx hsx hns
    subst hsx
    simp only [executeExpr, hx, hy, add, stringize]
    cases y with
    | str sy => exact absurd rfl (hns sy)
    | _ => simp [stringize, wrapErr]

theorem executeBinaryExpr_add_concats_witness :
    executeExpr sampleTemplateEnv (plainTemplate dashParam) (.BasicLit .STRING "- ")
      (.str "a\nb") [] = (.ok (.str "- "), []) ∧
    executeExpr sampleTemplateEnv (plainTemplate dashParam)
      (.ParameterExpr (some (.Ident "v")) false) (.str "a\nb") [] = (.ok (.str "a\nb"), []) ∧
    executeExpr sampleTemplateEnv (plainTemplate dashParam) dashParam (.str "a\nb") [] =
      (.ok (.str ("- " ++ "a\nb")), []) :=
  ⟨by decide, by decide,
    (executeBinaryExpr_add_concats sampleTemplateEnv (plainTemplate dashParam)
      (.BasicLit .STRING "- ") (.ParameterExpr (some (.Ident "v")) false) (.str "a\nb")
      [] [] [] (.str "- ") (.str "a\nb") (by decide) (by decide)).1 "- " "a\nb" rfl rfl
      (Or.inl rfl)⟩

theorem splitNewline_ne_nil (l : List Char) : splitNewline l ≠ [] := by
  cases l with
  | nil => simp [splitNewline]
  | cons c cs =>
    simp only [splitNewline]
    split
    · simp
    · split <;> simp

theorem splitNewline_no_newline (l : List Char) (h : '\n' ∉ l) : splitNewline l = [l] := by
  induction l with
  | nil => rfl
  | cons c cs ih =>
    have hc : c ≠ '\n' := fun hc => h (by simp [hc])
    have hcs : '\n' ∉ cs := fun hcs => h (List.mem_cons_of_mem _ hcs)
    simp [splitNewline, ih hcs, hc]

theorem splitNewline_length_of_newline (l : List Char) (h : '\n' ∈ l) :
    2 ≤ (splitNewline l).length := by
  induction l with
  | nil => cases h
  | cons c cs ih =>
    simp only [splitNewline]
    rcases hs : splitNewline cs with _ | ⟨x, xs⟩
    · exact absurd hs (splitNewline_ne_nil cs)
    · simp only
      by_cases hc : c = '\n'
      · simp [hc]
      · have hcs : '\n' ∈ cs := by
          rcases List.mem_cons.1 h with h1 | h1
          · exact absurd h1.symm hc
          · exact h1
        have := ih hcs
        rw [hs] at this
        simpa [hc] using this

theorem splitNewline_getLast (l : List Char) :
    (splitNewline l).getLast? = some (afterLastNewline l) := by
  induction l with
  | nil => rfl
  | cons c cs ih =>
    by_cases hcs : '\n' ∈ cs
    · have hlen := splitNewline_length_of_newline cs hcs
      simp only [afterLastNewline, hcs, if_true, splitNewline]
      rcases hs : splitNewline cs with _ | ⟨x, xs⟩
      · exact absurd hs (splitNewline_ne_nil cs)
      · rw [hs] at ih hlen
        rcases xs with _ | ⟨y, ys⟩
        · simp at hlen
        · simp only
          split
          · simpa [List.getLast?_cons_cons] using ih
          · simpa [List.getLast?_cons_cons] using ih
    · simp only [afterLastNewline, hcs, if_false, splitNewline,
        splitNewline_no_newline cs hcs]
      by_cases hc : c = '\n' <;> simp [hc]

theorem intercalate_cons_cons' (sep x y : List Char) (ys : List (List Char)) :
    List.intercalate sep (x :: y :: ys) = x ++ sep ++ List.intercalate sep (y :: ys) := by
  simp [List.intercalate, List.intersperse]

theorem intercalate_splitNewline (l : List Char) :
    List.intercalate ['\n'] (splitNewline l) = l := by
  induction l with
  | nil => simp [splitNewline, List.intercalate, List.intersperse]
  | cons c cs ih =>
    simp only [splitNewline]
    rcases hs : splitNewline cs with _ | ⟨x, xs⟩
    · exact absurd hs (splitNewline_ne_nil cs)
    · rw [hs] at ih
      simp only
      by_cases hc : c = '\n'
      · simp only [hc, if_true]
        rw [intercalate_cons_cons', ih]
        rfl
      · simp only [hc, if_false]
        cases xs with
        | nil =>
          simp [List.intercalate, List.intersperse] at ih ⊢
          exact ih
        | cons y ys =>
          rw [intercalate_cons_cons'] at ih ⊢
          rw [← ih]
          simp


theorem addIndentLoop_later (pfx : List Char) :
    ∀ (ls : List (List Char)) (i : Nat) (b x : List Char),
      addIndentLoop pfx ls (i + 1) (b ++ x) =
        b ++ List.intercalate ['\n']
          (x :: ls.map (fun l => if l = [] then [] else pfx ++ l)) := by
  intro ls
  induction ls with
  | nil =>
    intro i b x
    simp [addIndentLoop, List.intercalate, List.intersperse]
  | cons l rest ih =>
    intro i b x
    simp only [addIndentLoop, List.map_cons]
    rw [intercalate_cons_cons']
    by_cases hl : l = []
    · subst hl
      have := ih (i + 1) (b ++ x ++ ['\n']) []
      simp only [List.append_nil] at this
      simp only [ne_eq, Nat.add_one_ne_zero, not_false_eq_true, if_true, not_true_eq_false,
        if_false, List.append_nil]
      rw [this]
      simp
    · have := ih (i + 1) (b ++ x ++ ['\n']) (pfx ++ l)
      simp only [ne_eq, Nat.add_one_ne_zero, not_false_eq_true, if_true, hl, if_false]
      rw [show b ++ x ++ ['\n'] ++ pfx ++ l = b ++ x ++ ['\n'] ++ (pfx ++ l) by simp, this]
      simp

theorem addIndentLoop_start (pfx first : List Char) (later : List (List Char)) :
    addIndentLoop pfx (first :: later) 0 [] =
      List.intercalate ['\n']
        (first :: later.map (fun l => if l = [] then [] else pfx ++ l)) := by
  have := addIndentLoop_later pfx later 0 [] first
  simpa [addIndentLoop] using this

/-- `addIndent` in a left arrow argument context is the amended
re-indentation by the number of characters after the last newline of
`preStr`. -/
theorem addIndent_eq_indentNonEmptyLaterLines (t : Template) (str preStr : String)
    (hctx : t.executingLeftArrowExprArg = true) :
    addIndent t str preStr =
      indentNonEmptyLaterLines (afterLastNewline preStr.data).length str := by
  unfold addIndent indentNonEmptyLaterLines
  simp only [hctx, if_true]
  rcases hs : splitNewline str.data with _ | ⟨first, later⟩
  · exact absurd hs (splitNewline_ne_nil _)
  · simp only
    by_cases hnl : '\n' ∈ str.data
    · by_cases hpre : preStr = ""
      · subst hpre
        have hid : later.map (fun l => if l = [] then [] else
            List.replicate (afterLastNewline "".data).length ' ' ++ l) = later := by
          have : (afterLastNewline "".data).length = 0 := rfl
          rw [this]
          simp only [List.replicate_zero, List.nil_append]
          conv_rhs => rw [← List.map_id later]
          apply List.map_congr_left
          intro l _
          by_cases hl : l = [] <;> simp [hl]
        rw [hid, ← hs, intercalate_splitNewline]
        simp
      · have hc : (str.data.contains '\n' && decide (preStr ≠ "")) = true := by
          simp [hnl, hpre]
        simp only [hc, if_true, splitNewline_getLast, Option.getD_some]
        rw [addIndentLoop_start]
    · have hone := splitNewline_no_newline _ hnl
      rw [hs] at hone
      simp only [List.cons.injEq] at hone
      obtain ⟨rfl, rfl⟩ := hone
      simp [hnl, List.intercalate, List.intersperse]


/-- C6 (as stated) fails: for the template `- {{v}}` in a left arrow argument
context, where the parameter evaluates to the four lines `a: |-`, `  x`, an
empty line and `  y`, the executor leaves the empty line empty, whereas the
claim prefixes every line after the first with two spaces. -/
theorem add_reindent_every_later_line_counterexample :
    (argTemplate dashParam).executingLeftArrowExprArg = true ∧
    executeExpr sampleTemplateEnv (argTemplate dashParam) (.BasicLit .STRING "- ")
      (.other 2) [] = (.ok (.str "- "), []) ∧
    executeExpr sampleTemplateEnv (argTemplate dashParam)
      (.ParameterExpr (some (.Ident "v")) false) (.other 2) [] =
      (.ok (.str "a: |-\n  x\n\n  y"), []) ∧
    executeExpr sampleTemplateEnv (argTemplate dashParam) dashParam (.other 2) [] =
      (.ok (.str "- a: |-\n    x\n\n    y"), []) ∧
    executeExpr sampleTemplateEnv (argTemplate dashParam) dashParam (.other 2) [] ≠
      (.ok (.str ("- " ++ indentEveryLaterLine (afterLastNewline "- ".data).length
        "a: |-\n  x\n\n  y")), []) := by
  decide

/-- C6 (amended): in a left arrow argument context, an ADD whose right operand
is a parameter expression evaluating to the string `y` and whose left operand
evaluates to the string `x` gives `x` followed by `y` in which every non-empty
line after the first is prefixed with exactly `k` spaces and every empty line
is left empty, `k` being the number of characters of `x` after its last
newline. -/
theorem executeBinaryExpr_add_reindents_nonempty_later_lines (env : TemplateEnv)
    (t : Template) (ex : Expr) (e : Option Expr) (q : Bool) (data : Value)
    (st st1 st2 : funcStash) (x y : String)
    (hctx : t.executingLeftArrowExprArg = true)
    (hx : executeExpr env t ex data st = (.ok (.str x), st1))
    (hy : executeExpr env t (.ParameterExpr e q) data st1 = (.ok (.str y), st2)) :
    executeExpr env t (.BinaryExpr ex .ADD (.ParameterExpr e q)) data st =
      (.ok (.str (x ++ indentNonEmptyLaterLines (afterLastNewline x.data).length y)), st2) := by
  rw [← addIndent_eq_indentNonEmptyLaterLines t y x hctx]
  cases e with
  | none =>
    simp only [executeExpr, hx] at hy ⊢
    simp only [Prod.mk.injEq, Result.ok.injEq, Value.str.injEq] at hy
    obtain ⟨rfl, rfl⟩ := hy
    simp [add, stringize, hctx]
  | some e1 =>
    rw [executeExpr]
    simp only [hx, hy]
    simp [add, stringize, hctx]

theorem executeBinaryExpr_add_reindents_nonempty_later_lines_witness :
    (argTemplate dashParam).executingLeftArrowExprArg = true ∧
    executeExpr sampleTemplateEnv (argTemplate dashParam) (.BasicLit .STRING "- ")
      (.other 1) [] = (.ok (.str "- "), []) ∧
    executeExpr sampleTemplateEnv (argTemplate dashParam)
      (.ParameterExpr (some (.Ident "v")) false) (.other 1) [] =
      (.ok (.str "a: 1\nb: 2"), []) ∧
    executeExpr sampleTemplateEnv (argTemplate dashParam) dashParam (.other 1) [] =
      (.ok (.str ("- " ++ indentNonEmptyLaterLines (afterLastNewline "- ".data).length
        "a: 1\nb: 2")), []) ∧
    "- " ++ indentNonEmptyLaterLines (afterLastNewline "- ".data).length "a: 1\nb: 2" =
      "- a: 1\n  b: 2" :=
  ⟨rfl, by decide, by decide,
    executeBinaryExpr_add_reindents_nonempty_later_lines sampleTemplateEnv
      (argTemplate dashParam) (.BasicLit .STRING "- ") (some (.Ident "v")) false (.other 1)
      [] [] [] "- " "a: 1\nb: 2" rfl (by decide) (by decide),
    by decide⟩

/-- C7: for a call whose function expression evaluates to `fn` and which is
given `m` arguments: a value that is not a func is rejected with the error
`not function`; for a func with `N` declared parameters an arity error is
reported iff the func is variadic and `m < N − 1`, or is not variadic and
`m ≠ N`; the call then returns that error, and otherwise goes on to the
arguments and the call. -/
theorem executeFuncCall_arity_error_iff (env : TemplateEnv) (t : Template) (efun : Expr)
    (eargs : List Expr) (data : Value) (st st1 : funcStash) (fn : Value)
    (hf : executeExpr env t efun data st = (.ok fn, st1)) :
    ((∀ id, fn ≠ .func id) →
      executeExpr env t (.CallExpr efun eargs) data st = (.error "not function", st1)) ∧
    (∀ id, fn = .func id →
      ((∃ msg, arityError (env.funcs id).type eargs.length = some msg) ↔
        ((env.funcs id).type.variadic = true ∧
          (eargs.length : Int) < (env.funcs id).type.NumIn - 1) ∨
        ((env.funcs id).type.variadic = false ∧
          (eargs.length : Int) ≠ (env.funcs id).type.NumIn)) ∧
      (∀ msg, arityError (env.funcs id).type eargs.length = some msg →
        executeExpr env t (.CallExpr efun eargs) data st = (.error msg, st1)) ∧
      (arityError (env.funcs id).type eargs.length = none →
        executeExpr env t (.CallExpr efun eargs) data st =
          match executeArgs env t (env.funcs id).type eargs 0 data st1 with
          | (.error e, st2) => (.error e, st2)
          | (.panic m, st2) => (.panic m, st2)
          | (.ok args, st2) => (callFunc (env.funcs id) args, st2))) := by
  refine ⟨?_, ?_⟩
  · intro hnf
    cases fn with
    | func id => exact absurd rfl (hnf id)
    | _ =>
      rw [executeExpr]
      simp only [hf]
  · intro id hid
    subst hid
    refine ⟨?_, ?_, ?_⟩
    · unfold arityError
      cases hv : (env.funcs id).type.variadic with
      | true =>
        by_cases hlt : (eargs.length : Int) < (env.funcs id).type.NumIn - 1
        · simp [hlt]
        · simp [hlt]
      | false =>
        by_cases hne : (env.funcs id).type.NumIn = (eargs.length : Int)
        · simp [hne]
        · have hne' : ¬ (eargs.length : Int) = (env.funcs id).type.NumIn :=
            fun h => hne h.symm
          simp [hne, hne']
    · intro msg hmsg
      rw [executeExpr]
      simp only [hf, hmsg]
    · intro hnone
      rw [executeExpr]
      simp only [hf, hnone]

theorem executeFuncCall_arity_error_iff_witness :
    executeExpr sampleTemplateEnv (plainTemplate (.Ident "join")) (.Ident "join") .nil [] =
      (.ok (.func 1), []) ∧
    executeExpr sampleTemplateEnv (plainTemplate (.Ident "join"))
      (.CallExpr (.Ident "join") []) .nil [] =
      (.error ("too few arguments to function: expected minimum argument number is 1. " ++
        "but specified 0 arguments"), []) :=
  ⟨by decide,
    ((executeFuncCall_arity_error_iff sampleTemplateEnv (plainTemplate (.Ident "join"))
      (.Ident "join") [] .nil [] [] (.func 1) (by decide)).2 1 rfl).2.1 _ (by decide)⟩

theorem requiredFuncArgType_spec (ft : FuncType) (i : Nat) (T : GoType)
    (h : requiredFuncArgType ft i = .ok T) : requiredTypeSpec ft i = some T := by
  unfold requiredFuncArgType at h
  unfold requiredTypeSpec
  cases hv : ft.variadic with
  | false =>
    simp only [hv, Bool.not_false, if_true, FuncType.In] at h
    simp only [Bool.false_eq_true, false_and, if_false]
    have hi : ¬ ((i : Int) < 0) := by omega
    simp only [hi, if_false, Int.toNat_ofNat] at h
    cases hg : ft.params.get? i with
    | none => rw [hg] at h; simp at h
    | some ty => rw [hg] at h; simp only [Result.ok.injEq] at h; rw [h]
  | true =>
    simp only [hv, Bool.not_true, Bool.false_eq_true, if_false] at h
    by_cases hlt : (i : Int) < ft.NumIn - 1
    · simp only [hlt, if_true, FuncType.In] at h
      have hge : ¬ ((i : Int) ≥ ft.NumIn - 1) := by omega
      simp only [hge, and_false, if_false]
      have hi : ¬ ((i : Int) < 0) := by omega
      simp only [hi, if_false, Int.toNat_ofNat] at h
      cases hg : ft.params.get? i with
      | none => rw [hg] at h; simp at h
      | some ty => rw [hg] at h; simp only [Result.ok.injEq] at h; rw [h]
    · have hge : (i : Int) ≥ ft.NumIn - 1 := by omega
      simp only [hlt, if_false, FuncType.In] at h
      simp only [hge, and_self, if_true]
      by_cases hneg : ft.NumIn - 1 < 0
      · simp [hneg] at h
      · simp only [hneg, if_false] at h
        have hidx : (ft.NumIn - 1).toNat = ft.params.length - 1 := by
          unfold FuncType.NumIn
          omega
        rw [hidx] at h
        have hlast : ft.params.getLast? = ft.params.get? (ft.params.length - 1) := by
          rw [List.getLast?_eq_getElem?]
          simp
        rw [hlast]
        cases hg : ft.params.get? (ft.params.length - 1) with
        | none => rw [hg] at h; simp at h
        | some ty =>
          rw [hg] at h
          simp only at h
          cases ty with
          | named n => simp [GoType.Elem] at h
          | slice e => simp only [GoType.Elem, Result.ok.injEq] at h; simp [h]
          | ptr e => simp only [GoType.Elem, Result.ok.injEq] at h; simp [h]

theorem convertArg_eq (env : TemplateEnv) (a : Value) (T : GoType) :
    convertArg env a T =
      if a ≠ .nil ∧ env.ConvertibleTo (env.typeOf a) T = true then
        match env.Convert a T with
        | .value c => .ok (some c)
        | .panics m => .panic m
      else .ok (reflectValueOf a) := by
  unfold convertArg
  cases a <;> simp [reflectValueOf]

theorem convertArg_ok (env : TemplateEnv) (a : Value) (T : GoType) (v : ReflectValue)
    (h : convertArg env a T = .ok v) :
    (a ≠ .nil ∧ env.ConvertibleTo (env.typeOf a) T = true →
      ∃ c, env.Convert a T = .value c ∧ v = some c) ∧
    (¬ (a ≠ .nil ∧ env.ConvertibleTo (env.typeOf a) T = true) → v = reflectValueOf a) := by
  rw [convertArg_eq] at h
  by_cases hc : a ≠ .nil ∧ env.ConvertibleTo (env.typeOf a) T = true
  · rw [if_pos hc] at h
    refine ⟨fun _ => ?_, fun hn => absurd hc hn⟩
    cases hcv : env.Convert a T with
    | value c =>
      rw [hcv] at h
      simp only [Result.ok.injEq] at h
      exact ⟨c, rfl, h.symm⟩
    | panics m =>
      rw [hcv] at h
      simp at h
  · rw [if_neg hc] at h
    simp only [Result.ok.injEq] at h
    exact ⟨fun hp => absurd hp hc, fun _ => h.symm⟩

theorem convertArg_of_returns (env : TemplateEnv) (a : Value) (T : GoType)
    (h : ConversionReturns env a T) : ∃ v, convertArg env a T = .ok v := by
  rw [convertArg_eq]
  by_cases hc : a ≠ .nil ∧ env.ConvertibleTo (env.typeOf a) T = true
  · obtain ⟨c, hcv⟩ := h hc.1 hc.2
    rw [if_pos hc, hcv]
    exact ⟨some c, rfl⟩
  · rw [if_neg hc]
    exact ⟨reflectValueOf a, rfl⟩

theorem convertArg_panic (env : TemplateEnv) (a : Value) (T : GoType) (m : String)
    (hn : a ≠ .nil) (hc : env.ConvertibleTo (env.typeOf a) T = true)
    (hp : env.Convert a T = .panics m) : convertArg env a T = .panic m := by
  rw [convertArg_eq, if_pos ⟨hn, hc⟩, hp]

/-- The argument loop of `executeFuncCall`, when it completes, has evaluated
every argument in the stash left by the ones before it and stored its
conversion to the type its position requires. -/
theorem executeArgs_ok (env : TemplateEnv) (t : Template) (ft : FuncType) (data : Value) :
    ∀ (eargs : List Expr) (i0 : Nat) (st st2 : funcStash) (args : List ReflectValue),
      executeArgs env t ft eargs i0 data st = (.ok args, st2) →
      args.length = eargs.length ∧
      ∀ i (h : i < eargs.length), ∃ a sti T v,
        executeExpr env t (eargs.get ⟨i, h⟩) data (stashBeforeArg env t data eargs i st) =
          (.ok a, sti) ∧
        requiredFuncArgType ft (i0 + i) = .ok T ∧
        convertArg env a T = .ok v ∧
        args.get? i = some v := by
  intro eargs
  induction eargs with
  | nil =>
    intro i0 st st2 args h
    simp only [executeArgs, Prod.mk.injEq, Result.ok.injEq] at h
    refine ⟨by simp [← h.1], ?_⟩
    intro i hi
    simp at hi
  | cons arg rest ih =>
    intro i0 st st2 args h
    rw [executeArgs] at h
    rcases he : executeExpr env t arg data st with ⟨r, st1⟩
    rw [he] at h
    cases r with
    | error e => simp at h
    | panic m => simp at h
    | ok a =>
      simp only at h
      cases hT : requiredFuncArgType ft i0 with
      | error e => rw [hT] at h; simp at h
      | panic m => rw [hT] at h; simp at h
      | ok T =>
        rw [hT] at h
        simp only at h
        cases hcv : convertArg env a T with
        | error e => rw [hcv] at h; simp at h
        | panic m => rw [hcv] at h; simp at h
        | ok v =>
          rw [hcv] at h
          simp only at h
          rcases hr : executeArgs env t ft rest (i0 + 1) data st1 with ⟨r2, st3⟩
          rw [hr] at h
          cases r2 with
          | error e => simp at h
          | panic m => simp at h
          | ok vs =>
            simp only [Prod.mk.injEq, Result.ok.injEq] at h
            obtain ⟨hargs, hst⟩ := h
            subst hargs
            have ih1 := ih (i0 + 1) st1 st3 vs hr
            refine ⟨by simp [ih1.1], ?_⟩
            intro i hi
            cases i with
            | zero =>
              refine ⟨a, st1, T, v, ?_, ?_, hcv, ?_⟩
              · simpa [stashBeforeArg] using he
              · simpa using hT
              · simp
            | succ j =>
              have hj : j < rest.length := by simpa using hi
              obtain ⟨a2, sti, T2, v2, h1, h2, h3, h4⟩ := ih1.2 j hj
              refine ⟨a2, sti, T2, v2, ?_, ?_, h3, ?_⟩
              · simpa [stashBeforeArg, he] using h1
              · rw [← h2]
                congr 1
                omega
              · simpa using h4

theorem ArgConverts_tail (env : TemplateEnv) (t : Template) (ft : FuncType) (data : Value)
    (arg : Expr) (rest : List Expr) (i0 : Nat) (st : funcStash) (j : Nat)
    (h : ArgConverts env t ft data (arg :: rest) i0 st (j + 1)) :
    ArgConverts env t ft data rest (i0 + 1) (executeExpr env t arg data st).2 j := by
  obtain ⟨e, a, stj, T, h1, h2, h3, h4⟩ := h
  refine ⟨e, a, stj, T, ?_, ?_, ?_, h4⟩
  · simpa using h1
  · simpa [stashBeforeArg] using h2
  · rw [← h3]
    congr 1
    omega

/-- The argument loop completes when every argument evaluates and every
conversion returns. -/
theorem executeArgs_complete (env : TemplateEnv) (t : Template) (ft : FuncType)
    (data : Value) :
    ∀ (eargs : List Expr) (i0 : Nat) (st : funcStash),
      (∀ j, j < eargs.length → ArgConverts env t ft data eargs i0 st j) →
      ∃ args, executeArgs env t ft eargs i0 data st =
        (.ok args, stashBeforeArg env t data eargs eargs.length st) := by
  intro eargs
  induction eargs with
  | nil =>
    intro i0 st _
    exact ⟨[], by simp [executeArgs, stashBeforeArg]⟩
  | cons arg rest ih =>
    intro i0 st H
    obtain ⟨e, a, st1, T, h1, h2, h3, h4⟩ := H 0 (by simp)
    simp only [List.get?_cons_zero, Option.some.injEq] at h1
    subst h1
    simp only [stashBeforeArg] at h2
    simp only [Nat.add_zero] at h3
    obtain ⟨v, hv⟩ := convertArg_of_returns env a T h4
    have Hrest : ∀ j, j < rest.length →
        ArgConverts env t ft data rest (i0 + 1) st1 j := by
      intro j hj
      have := ArgConverts_tail env t ft data arg rest i0 st j
        (H (j + 1) (by simpa using hj))
      rwa [h2] at this
    obtain ⟨args, hargs⟩ := ih (i0 + 1) st1 Hrest
    refine ⟨v :: args, ?_⟩
    rw [executeArgs]
    simp only [h2, h3, hv, hargs, List.length_cons, stashBeforeArg]

/-- The argument loop panics with the panic of the first conversion that
panics, in the stash the evaluation of that argument left: the arguments after
it are not evaluated. -/
theorem executeArgs_convert_panic (env : TemplateEnv) (t : Template) (ft : FuncType)
    (data : Value) :
    ∀ (eargs : List Expr) (i0 : Nat) (st : funcStash) (i : Nat) (e : Expr) (a : Value)
      (sti : funcStash) (T : GoType) (m : String),
      (∀ j, j < i → ArgConverts env t ft data eargs i0 st j) →
      eargs.get? i = some e →
      executeExpr env t e data (stashBeforeArg env t data eargs i st) = (.ok a, sti) →
      requiredFuncArgType ft (i0 + i) = .ok T →
      a ≠ .nil → env.ConvertibleTo (env.typeOf a) T = true → env.Convert a T = .panics m →
      executeArgs env t ft eargs i0 data st = (.panic m, sti) := by
  intro eargs
  induction eargs with
  | nil =>
    intro i0 st i e a sti T m _ hget
    simp at hget
  | cons arg rest ih =>
    intro i0 st i e a sti T m H hget hexec hT hn hc hp
    cases i with
    | zero =>
      simp only [List.get?_cons_zero, Option.some.injEq] at hget
      subst hget
      simp only [stashBeforeArg] at hexec
      simp only [Nat.add_zero] at hT
      rw [executeArgs]
      simp only [hexec, hT, convertArg_panic env a T m hn hc hp]
    | succ k =>
      obtain ⟨e0, a0, st1, T0, h1, h2, h3, h4⟩ := H 0 (by omega)
      simp only [List.get?_cons_zero, Option.some.injEq] at h1
      subst h1
      simp only [stashBeforeArg] at h2
      simp only [Nat.add_zero] at h3
      obtain ⟨v, hv⟩ := convertArg_of_returns env a0 T0 h4
      have Hrest : ∀ j, j < k → ArgConverts env t ft data rest (i0 + 1) st1 j := by
        intro j hj
        have := ArgConverts_tail env t ft data arg rest i0 st j (H (j + 1) (by omega))
        rwa [h2] at this
      have hget2 : rest.get? k = some e := by simpa using hget
      have hexec2 : executeExpr env t e data (stashBeforeArg env t data rest k st1) =
          (.ok a, sti) := by
        simpa [stashBeforeArg, h2] using hexec
      have hT2 : requiredFuncArgType ft (i0 + 1 + k) = .ok T := by
        rw [← hT]
        congr 1
        omega
      have := ih (i0 + 1) st1 k e a sti T m Hrest hget2 hexec2 hT2 hn hc hp
      rw [executeArgs]
      simp only [h2, h3, hv, this]

theorem executeFuncCall_calls (env : TemplateEnv) (t : Template) (efun : Expr)
    (eargs : List Expr) (data : Value) (st st1 st2 : funcStash) (id : Nat)
    (args : List ReflectValue)
    (hf : executeExpr env t efun data st = (.ok (.func id), st1))
    (ha : arityError (env.funcs id).type eargs.length = none)
    (hargs : executeArgs env t (env.funcs id).type eargs 0 data st1 = (.ok args, st2)) :
    executeExpr env t (.CallExpr efun eargs) data st = (callFunc (env.funcs id) args, st2) := by
  rw [executeExpr]
  simp only [hf, ha, hargs]

theorem executeFuncCall_loop_panics (env : TemplateEnv) (t : Template) (efun : Expr)
    (eargs : List Expr) (data : Value) (st st1 st2 : funcStash) (id : Nat) (m : String)
    (hf : executeExpr env t efun data st = (.ok (.func id), st1))
    (ha : arityError (env.funcs id).type eargs.length = none)
    (hargs : executeArgs env t (env.funcs id).type eargs 0 data st1 = (.panic m, st2)) :
    executeExpr env t (.CallExpr efun eargs) data st = (.panic m, st2) := by
  rw [executeExpr]
  simp only [hf, ha, hargs]

/-- C8: for a call of a func value that passes the arity check: when the
argument loop completes, the callable is called, and the `i`-th value handed
to it is the evaluated argument converted to `T_i` when it is valid and its
dynamic type is convertible to `T_i`, and the evaluated argument unchanged
otherwise, where `T_i` is the `i`-th declared parameter type, or, for a
variadic func and `i ≥ N − 1`, the element type of the last parameter. The
loop completes when every argument evaluates and every conversion returns.
When the conversion of an argument panics (after the arguments before it
evaluated and converted), the callable is not called: the call panics with
that panic, and `Execute` of a template that is this call returns it as the
error `failed to execute: panic: ...`. -/
theorem executeFuncCall_hands_converted_arguments (env : TemplateEnv) (t : Template)
    (efun : Expr) (eargs : List Expr) (data : Value) (st st1 : funcStash) (id : Nat)
    (hf : executeExpr env t efun data st = (.ok (.func id), st1))
    (ha : arityError (env.funcs id).type eargs.length = none) :
    (∀ args st2, executeArgs env t (env.funcs id).type eargs 0 data st1 = (.ok args, st2) →
      executeExpr env t (.CallExpr efun eargs) data st = (callFunc (env.funcs id) args, st2) ∧
      args.length = eargs.length ∧
      ∀ i (h : i < eargs.length), ∃ a sti T,
        executeExpr env t (eargs.get ⟨i, h⟩) data (stashBeforeArg env t data eargs i st1) =
          (.ok a, sti) ∧
        requiredTypeSpec (env.funcs id).type i = some T ∧
        (a ≠ .nil ∧ env.ConvertibleTo (env.typeOf a) T = true →
          ∃ c, env.Convert a T = .value c ∧ args.get? i = some (some c)) ∧
        (¬ (a ≠ .nil ∧ env.ConvertibleTo (env.typeOf a) T = true) →
          args.get? i = some (reflectValueOf a))) ∧
    ((∀ j, j < eargs.length → ArgConverts env t (env.funcs id).type data eargs 0 st1 j) →
      ∃ args, executeArgs env t (env.funcs id).type eargs 0 data st1 =
        (.ok args, stashBeforeArg env t data eargs eargs.length st1)) ∧
    (∀ i e a sti T m,
      (∀ j, j < i → ArgConverts env t (env.funcs id).type data eargs 0 st1 j) →
      eargs.get? i = some e →
      executeExpr env t e data (stashBeforeArg env t data eargs i st1) = (.ok a, sti) →
      requiredFuncArgType (env.funcs id).type i = .ok T →
      a ≠ .nil → env.ConvertibleTo (env.typeOf a) T = true → env.Convert a T = .panics m →
      executeExpr env t (.CallExpr efun eargs) data st = (.panic m, sti) ∧
      (t.expr = .CallExpr efun eargs →
        t.Execute env data st = (.error ("failed to execute: panic: " ++ m), sti))) := by
  refine ⟨?_, ?_, ?_⟩
  · intro args st2 hargs
    have hloop := executeArgs_ok env t (env.funcs id).type data eargs 0 st1 st2 args hargs
    refine ⟨executeFuncCall_calls env t efun eargs data st st1 st2 id args hf ha hargs,
      hloop.1, ?_⟩
    intro i hi
    obtain ⟨a, sti, T, v, h1, h2, h3, h4⟩ := hloop.2 i hi
    have hv := convertArg_ok env a T v h3
    refine ⟨a, sti, T, h1, ?_, ?_, ?_⟩
    · apply requiredFuncArgType_spec
      simpa using h2
    · intro hc
      obtain ⟨c, hcv, hvc⟩ := hv.1 hc
      exact ⟨c, hcv, by rw [h4, hvc]⟩
    · intro hc
      rw [h4, hv.2 hc]
  · intro H
    exact executeArgs_complete env t (env.funcs id).type data eargs 0 st1 H
  · intro i e a sti T m H hget hexec hT hn hc hp
    have hloop := executeArgs_convert_panic env t (env.funcs id).type data eargs 0 st1 i e a
      sti T m H hget hexec (by simpa using hT) hn hc hp
    have hcall := executeFuncCall_loop_panics env t efun eargs data st st1 sti id m hf ha
      hloop
    refine ⟨hcall, ?_⟩
    intro hexpr
    simp only [Template.Execute, hexpr, hcall, executeOutcome]

theorem executeFuncCall_hands_converted_arguments_witness :
    (executeExpr sampleTemplateEnv (plainTemplate exclaimCall) (.Ident "exclaim") .nil [] =
      (.ok (.func 0), []) ∧
    arityError (sampleTemplateEnv.funcs 0).type [Expr.BasicLit .INT "65"].length = none ∧
    executeArgs sampleTemplateEnv (plainTemplate exclaimCall) (sampleTemplateEnv.funcs 0).type
      [.BasicLit .INT "65"] 0 .nil [] = (.ok [some (.str "A")], []) ∧
    executeExpr sampleTemplateEnv (plainTemplate exclaimCall) exclaimCall .nil [] =
      (callFunc (sampleTemplateEnv.funcs 0) [some (.str "A")], [])) ∧
    (executeExpr samplePanicEnv (plainTemplate firstCall) (.Ident "first") (.other 3) [] =
      (.ok (.func 5), []) ∧
    arityError (samplePanicEnv.funcs 5).type [Expr.Ident "v"].length = none ∧
    samplePanicEnv.ConvertibleTo (samplePanicEnv.typeOf (.other 3)) (.named "[2]int") = true ∧
    (plainTemplate firstCall).Execute samplePanicEnv (.other 3) [] =
      (.error ("failed to execute: panic: " ++
        "reflect: cannot convert slice with length 1 to array with length 2"), [])) :=
  ⟨⟨by decide, by decide, by decide,
    ((executeFuncCall_hands_converted_arguments sampleTemplateEnv (plainTemplate exclaimCall)
      (.Ident "exclaim") [.BasicLit .INT "65"] .nil [] [] 0
      (by decide) (by decide)).1 [some (.str "A")] [] (by decide)).1⟩,
   ⟨by decide, by decide, by decide,
    ((executeFuncCall_hands_converted_arguments samplePanicEnv (plainTemplate firstCall)
      (.Ident "first") [.Ident "v"] (.other 3) [] [] 5
      (by decide) (by decide)).2.2 0 (.Ident "v") (.other 3) [] (.named "[2]int")
      "reflect: cannot convert slice with length 1 to array with length 2"
      (fun j hj => absurd hj (Nat.not_lt_zero j)) rfl (by decide) (by decide) (by decide)
      (by decide) (by decide)).2 rfl⟩⟩

/-- C9: for a call whose callable is invoked with `args`: when it returns
exactly one valid value the call returns that value and no error; when it
returns zero values, or two or more, or a single invalid value, the call
returns the error `function should return a value` and no value. -/
theorem executeFuncCall_requires_one_result (env : TemplateEnv) (t : Template)
    (efun : Expr) (eargs : List Expr) (data : Value) (st st1 st2 : funcStash) (id : Nat)
    (args : List ReflectValue)
    (hf : executeExpr env t efun data st = (.ok (.func id), st1))
    (ha : arityError (env.funcs id).type eargs.length = none)
    (hargs : executeArgs env t (env.funcs id).type eargs 0 data st1 = (.ok args, st2)) :
    (∀ v, (env.funcs id).Call args = .returns [some v] →
      executeExpr env t (.CallExpr efun eargs) data st = (.ok v, st2)) ∧
    (∀ vs, (env.funcs id).Call args = .returns vs → vs.length ≠ 1 →
      executeExpr env t (.CallExpr efun eargs) data st =
        (.error "function should return a value", st2)) ∧
    ((env.funcs id).Call args = .returns [none] →
      executeExpr env t (.CallExpr efun eargs) data st =
        (.error "function should return a value", st2)) := by
  rw [executeFuncCall_calls env t efun eargs data st st1 st2 id args hf ha hargs]
  refine ⟨?_, ?_, ?_⟩
  · intro v hv
    simp only [callFunc, hv]
  · intro vs hvs hlen
    unfold callFunc
    rw [hvs]
    rcases vs with _ | ⟨v, _ | ⟨v2, rest⟩⟩
    · rfl
    · simp at hlen
    · cases v <;> rfl
  · intro hv
    simp only [callFunc, hv]

theorem executeFuncCall_requires_one_result_witness :
    executeExpr sampleTemplateEnv (plainTemplate (.Ident "pair")) (.Ident "pair") .nil [] =
      (.ok (.func 3), []) ∧
    arityError (sampleTemplateEnv.funcs 3).type ([] : List Expr).length = none ∧
    executeArgs sampleTemplateEnv (plainTemplate (.Ident "pair")) (sampleTemplateEnv.funcs 3).type
      [] 0 .nil [] = (.ok [], []) ∧
    executeExpr sampleTemplateEnv (plainTemplate (.Ident "pair"))
      (.CallExpr (.Ident "pair") []) .nil [] =
      (.error "function should return a value", []) :=
  ⟨by decide, by decide, by decide,
    (executeFuncCall_requires_one_result sampleTemplateEnv (plainTemplate (.Ident "pair"))
      (.Ident "pair") [] .nil [] [] [] 3 [] (by decide) (by decide) (by decide)).2.1
      [some (.str "a"), some (.str "b")] (by decide) (by decide)⟩

theorem funcStash.get?_set_self (s : funcStash) (name : String) (f : Value) :
    (s.set name f).get? name = some f := by
  unfold funcStash.set funcStash.get?
  by_cases hany : s.any (fun p => p.1 == name) = true
  · simp only [hany, if_true]
    induction s with
    | nil => simp at hany
    | cons p rest ih =>
      by_cases hp : (p.1 == name) = true
      · simp [List.find?, hp]
      · have hrest : rest.any (fun p => p.1 == name) = true := by
          simpa [List.any_cons, hp] using hany
        simp only [List.map_cons, hp, Bool.false_eq_true, if_false, List.find?]
        exact ih hrest
  · simp only [hany, Bool.false_eq_true, if_false, List.find?_append]
    have hnone : s.find? (fun p => p.1 == name) = none := by
      rw [List.find?_eq_none]
      intro x hx hxn
      exact hany (List.any_eq_true.2 ⟨x, hx, hxn⟩)
    simp [hnone, List.find?]

/-- C10: in a left arrow argument context, a parameter expression whose inner
expression evaluates to a callable `v` stores `v` in the stash under the name
`func-N`, `N` being the number of entries of the stash before the store, and
evaluates to the string `{{func-N}}`, or to `'{{func-N}}'` when its quoted
flag is set. -/
theorem executeParameterExpr_stashes_callable (env : TemplateEnv) (t : Template) (x : Expr)
    (quoted : Bool) (data : Value) (st st1 : funcStash) (v : Value)
    (hctx : t.executingLeftArrowExprArg = true)
    (hx : executeExpr env t x data st = (.ok v, st1))
    (hfun : (env.Elem (reflectValueOf v)).Kind = Kind.Func) :
    executeExpr env t (.ParameterExpr (some x) quoted) data st =
      (.ok (.str (if quoted = true then
          "\x27" ++ ("\x7b\x7b" ++ ("func-" ++ toString st1.length) ++ "\x7d\x7d") ++ "\x27"
        else "\x7b\x7b" ++ ("func-" ++ toString st1.length) ++ "\x7d\x7d")),
        funcStash.set st1 ("func-" ++ toString st1.length) v) ∧
    (funcStash.set st1 ("func-" ++ toString st1.length) v).get?
      ("func-" ++ toString st1.length) = some v := by
  refine ⟨?_, funcStash.get?_set_self _ _ _⟩
  rw [executeExpr]
  simp only [hx, hctx, hfun, if_true, funcStash.save]
  cases quoted <;> simp [placeholder, quotedPlaceholder]

theorem executeParameterExpr_stashes_callable_witness :
    (leftArrowTemplate (.Ident "exclaim")).executingLeftArrowExprArg = true ∧
    (sampleTemplateEnv.Elem (reflectValueOf (.func 0))).Kind = Kind.Func ∧
    executeExpr sampleTemplateEnv (leftArrowTemplate (.Ident "exclaim"))
      (.ParameterExpr (some (.Ident "exclaim")) true) .nil [("func-0", .func 3)] =
      (.ok (.str "\x27\x7b\x7bfunc-1\x7d\x7d\x27"), [("func-0", .func 3), ("func-1", .func 0)]) :=
  ⟨rfl, by decide,
    (executeParameterExpr_stashes_callable sampleTemplateEnv
      (leftArrowTemplate (.Ident "exclaim")) (.Ident "exclaim") true .nil
      [("func-0", .func 3)] [("func-0", .func 3)] (.func 0) rfl (by decide) (by decide)).1⟩

end TemplateTheorems

/-! ## Theorems: parameter expressions -/

section ParameterTheorems

theorem trimSuffixNewline_append_newline (b : String) : trimSuffixNewline (b ++ "\n") = b := by
  have hd : (b ++ "\n").data = b.data ++ ['\n'] := by simp [String.data_append]
  unfold trimSuffixNewline
  rw [hd]
  simp

theorem trimSuffixNewline_of_not_suffix (b : String) (h : ∀ c, b ≠ c ++ "\n") :
    trimSuffixNewline b = b := by
  unfold trimSuffixNewline
  split
  · rename_i hlast
    exfalso
    apply h (String.mk b.data.dropLast)
    apply String.ext
    have := List.dropLast_append_getLast? '\n' (by simpa using hlast)
    simp only [String.data_append]
    exact this.symm
  · rfl

/-- C11: in a left arrow argument context, a parameter expression whose inner
expression evaluates to a value `v` that is not callable evaluates to the YAML
serialization of `v` with exactly one trailing newline removed when there is
one (a serialization ending in two newlines keeps one, and one without a
trailing newline is returned unchanged); a serialization error is returned as
the error. -/
theorem executeParameterExpr_serializes_non_callable (env : TemplateEnv) (t : Template)
    (x : Expr) (quoted : Bool) (data : Value) (st st1 : funcStash) (v : Value)
    (hctx : t.executingLeftArrowExprArg = true)
    (hx : executeExpr env t x data st = (.ok v, st1))
    (hnf : (env.Elem (reflectValueOf v)).Kind ≠ Kind.Func) :
    (∀ b, env.yamlMarshal v = .ok (b ++ "\n") →
      executeExpr env t (.ParameterExpr (some x) quoted) data st = (.ok (.str b), st1)) ∧
    (∀ b, env.yamlMarshal v = .ok (b ++ "\n" ++ "\n") →
      executeExpr env t (.ParameterExpr (some x) quoted) data st =
        (.ok (.str (b ++ "\n")), st1)) ∧
    (∀ b, env.yamlMarshal v = .ok b → (∀ c, b ≠ c ++ "\n") →
      executeExpr env t (.ParameterExpr (some x) quoted) data st = (.ok (.str b), st1)) ∧
    (∀ e, env.yamlMarshal v = .error e →
      executeExpr env t (.ParameterExpr (some x) quoted) data st = (.error e, st1)) := by
  refine ⟨?_, ?_, ?_, ?_⟩
  · intro b hb
    rw [executeExpr]
    simp only [hx, hctx, hnf, if_true, if_false, hb, trimSuffixNewline_append_newline]
  · intro b hb
    rw [executeExpr]
    simp only [hx, hctx, hnf, if_true, if_false, hb, trimSuffixNewline_append_newline]
  · intro b hb hns
    rw [executeExpr]
    simp only [hx, hctx, hnf, if_true, if_false, hb, trimSuffixNewline_of_not_suffix b hns]
  · intro e he
    rw [executeExpr]
    simp only [hx, hctx, hnf, if_true, if_false, he]

theorem executeParameterExpr_serializes_non_callable_witness :
    (leftArrowTemplate (.Ident "v")).executingLeftArrowExprArg = true ∧
    executeExpr sampleTemplateEnv (leftArrowTemplate (.Ident "v")) (.Ident "v") (.other 1) [] =
      (.ok (.other 1), []) ∧
    (sampleTemplateEnv.Elem (reflectValueOf (.other 1))).Kind ≠ Kind.Func ∧
    sampleTemplateEnv.yamlMarshal (.other 1) = .ok ("a: 1\nb: 2" ++ "\n") ∧
    executeExpr sampleTemplateEnv (leftArrowTemplate (.Ident "v"))
      (.ParameterExpr (some (.Ident "v")) false) (.other 1) [] = (.ok (.str "a: 1\nb: 2"), []) :=
  ⟨rfl, by decide, by decide, by decide,
    (executeParameterExpr_serializes_non_callable sampleTemplateEnv
      (leftArrowTemplate (.Ident "v")) (.Ident "v") false (.other 1) [] [] (.other 1)
      rfl (by decide) (by decide)).1 "a: 1\nb: 2" (by decide)⟩

/-- C17: a parameter expression without inner expression (the template `{{}}`)
evaluates to the empty string in every context, and outside a left arrow
argument context a parameter expression evaluates to exactly what its inner
expression evaluates to, value or error, and leaves the stash as the inner
expression left it. -/
theorem executeParameterExpr_empty_and_raw (env : TemplateEnv) (t : Template)
    (quoted : Bool) (data : Value) (st : funcStash) :
    executeExpr env t (.ParameterExpr none quoted) data st = (.ok (.str ""), st) ∧
    (t.executingLeftArrowExprArg = false →
      ∀ x, executeExpr env t (.ParameterExpr (some x) quoted) data st =
        executeExpr env t x data st) := by
  refine ⟨by rw [executeExpr], ?_⟩
  intro hctx x
  rw [executeExpr]
  rcases executeExpr env t x data st with ⟨r, st1⟩
  cases r <;> simp [hctx]

theorem executeParameterExpr_empty_and_raw_witness :
    (plainTemplate dashParam).executingLeftArrowExprArg = false ∧
    executeExpr sampleTemplateEnv (plainTemplate dashParam)
      (.ParameterExpr (some (.Ident "v")) true) (.int 5) [] = (.ok (.int 5), []) ∧
    executeExpr sampleTemplateEnv (leftArrowTemplate dashParam)
      (.ParameterExpr none true) (.int 5) [] = (.ok (.str ""), []) :=
  ⟨rfl,
    ((executeParameterExpr_empty_and_raw sampleTemplateEnv (plainTemplate dashParam) true
      (.int 5) []).2 rfl (.Ident "v")).trans (by decide),
    (executeParameterExpr_empty_and_raw sampleTemplateEnv (leftArrowTemplate dashParam) true
      (.int 5) []).1⟩

end ParameterTheorems

/-! ## Theorems: the stash -/

section StashTheorems

theorem digitValue_digitChar (d : Nat) (h : d < 10) : digitValue (Nat.digitChar d) = d := by
  interval_cases d <;> rfl

theorem isDigit_digitChar (d : Nat) (h : d < 10) : (Nat.digitChar d).isDigit = true := by
  interval_cases d <;> rfl

theorem decimalValue_append_singleton (l : List Char) (c : Char) :
    decimalValue (l ++ [c]) = decimalValue l * 10 + digitValue c := by
  simp [decimalValue, List.foldl_append]

/-- The digits core `Nat.toDigits` writes in front of the accumulator are
decimal digits whose value is the number written. -/
theorem toDigitsCore_spec :
    ∀ (fuel n : Nat) (ds : List Char), n < fuel →
      ∃ l, Nat.toDigitsCore 10 fuel n ds = l ++ ds ∧ decimalValue l = n ∧ l ≠ [] ∧
        l.all Char.isDigit = true := by
  intro fuel
  induction fuel with
  | zero => intro n ds h; omega
  | succ fuel ih =>
    intro n ds h
    simp only [Nat.toDigitsCore]
    by_cases h0 : n / 10 = 0
    · simp only [h0, if_true]
      have hn : n < 10 := by omega
      refine ⟨[Nat.digitChar (n % 10)], rfl, ?_, by simp, ?_⟩
      · have := digitValue_digitChar (n % 10) (Nat.mod_lt _ (by decide))
        rw [Nat.mod_eq_of_lt hn] at this ⊢
        simp [decimalValue, this]
      · simp [isDigit_digitChar (n % 10) (Nat.mod_lt _ (by decide))]
    · simp only [h0, if_false]
      obtain ⟨l, hl, hv, hne, hall⟩ := ih (n / 10) (Nat.digitChar (n % 10) :: ds) (by omega)
      refine ⟨l ++ [Nat.digitChar (n % 10)], by simp [hl], ?_, by simp, ?_⟩
      · rw [decimalValue_append_singleton, hv,
          digitValue_digitChar (n % 10) (Nat.mod_lt _ (by decide))]
        omega
      · simp [List.all_append, hall, isDigit_digitChar (n % 10) (Nat.mod_lt _ (by decide))]

theorem toString_nat_spec (n : Nat) :
    decimalValue (toString n).data = n ∧ (toString n).data ≠ [] ∧
      (toString n).data.all Char.isDigit = true := by
  have hdata : (toString n).data = Nat.toDigits 10 n := rfl
  obtain ⟨l, hl, hv, hne, hall⟩ := toDigitsCore_spec (n + 1) n [] (Nat.lt_succ_self n)
  rw [hdata, Nat.toDigits, hl, List.append_nil]
  exact ⟨hv, hne, hall⟩

theorem toString_nat_injective (a b : Nat) (h : toString a = toString b) : a = b := by
  have ha := (toString_nat_spec a).1
  have hb := (toString_nat_spec b).1
  rw [h] at ha
  exact ha.symm.trans hb

theorem funcName_injective (a b : Nat)
    (h : "func-" ++ toString a = "func-" ++ toString b) : a = b := by
  apply toString_nat_injective
  have hd := congrArg String.data h
  simp only [String.data_append] at hd
  have := List.append_cancel_left hd
  exact String.ext this


theorem funcStash.set_of_not_key (s : funcStash) (name : String) (f : Value)
    (h : ∀ p ∈ s, p.1 ≠ name) : s.set name f = s ++ [(name, f)] := by
  unfold funcStash.set
  have hany : s.any (fun p => p.1 == name) = false := by
    rw [List.any_eq_false]
    intro p hp
    simpa using h p hp
  simp [hany]

theorem funcStash.get?_of_not_key (s : funcStash) (name : String)
    (h : ∀ p ∈ s, p.1 ≠ name) : s.get? name = none := by
  unfold funcStash.get?
  have : s.find? (fun p => p.1 == name) = none := by
    rw [List.find?_eq_none]
    intro p hp
    simpa using h p hp
  simp [this]

theorem funcStash.get?_append_of_some (s s2 : funcStash) (k : String) (v : Value)
    (h : s.get? k = some v) : (s ++ s2).get? k = some v := by
  unfold funcStash.get? at h ⊢
  rw [List.find?_append]
  cases hf : s.find? (fun p => p.1 == k) with
  | none => rw [hf] at h; simp at h
  | some p => rw [hf] at h; simpa using h

theorem funcStash.ofSaves_append (fs : List Value) (f : Value) :
    funcStash.ofSaves (fs ++ [f]) = (funcStash.save (funcStash.ofSaves fs) f).2 := by
  simp [funcStash.ofSaves, List.foldl_append]

/-- A stash built only by `save` holds, in order, the keys `func-0` to
`func-(n-1)`, `n` being its number of entries. -/
theorem funcStash.ofSaves_keys (fs : List Value) :
    (funcStash.ofSaves fs).map Prod.fst =
      (List.range (funcStash.ofSaves fs).length).map (fun i => "func-" ++ toString i) := by
  induction fs using List.reverseRecOn with
  | nil => rfl
  | append_singleton fs f ih =>
    rw [funcStash.ofSaves_append]
    have hnot : ∀ p ∈ funcStash.ofSaves fs,
        p.1 ≠ "func-" ++ toString (funcStash.ofSaves fs).length := by
      intro p hp heq
      have hmem : p.1 ∈ (funcStash.ofSaves fs).map Prod.fst := List.mem_map_of_mem _ hp
      rw [ih, List.mem_map] at hmem
      obtain ⟨i, hi, hpi⟩ := hmem
      have hlt := List.mem_range.1 hi
      have := funcName_injective i _ (hpi.trans heq)
      omega
    simp only [funcStash.save]
    rw [funcStash.set_of_not_key _ _ _ hnot]
    simp [List.range_succ, ih]

theorem funcStash.ofSaves_fresh_name (fs : List Value) :
    ∀ p ∈ funcStash.ofSaves fs, p.1 ≠ "func-" ++ toString (funcStash.ofSaves fs).length := by
  intro p hp heq
  have hmem : p.1 ∈ (funcStash.ofSaves fs).map Prod.fst := List.mem_map_of_mem _ hp
  rw [funcStash.ofSaves_keys, List.mem_map] at hmem
  obtain ⟨i, hi, hpi⟩ := hmem
  have hlt := List.mem_range.1 hi
  have := funcName_injective i _ (hpi.trans heq)
  omega

theorem funcStash.ofSaves_length (fs : List Value) :
    (funcStash.ofSaves fs).length = fs.length := by
  induction fs using List.reverseRecOn with
  | nil => rfl
  | append_singleton fs g ih =>
    rw [funcStash.ofSaves_append]
    simp only [funcStash.save]
    rw [funcStash.set_of_not_key _ _ _ (funcStash.ofSaves_fresh_name fs)]
    simp [ih]

/-- C12: for a stash `s` built only by `save` from the empty stash and a
callable `f`, with `name = s.save(f)`: looking up `name` in the resulting
stash gives exactly `f`, every entry of `s` is still there with the same
value, and `name` was not a key of `s`. -/
theorem funcStash.save_round_trip (fs : List Value) (f : Value) :
    ((funcStash.ofSaves fs).save f).2.get? ((funcStash.ofSaves fs).save f).1 = some f ∧
    (∀ k v, (funcStash.ofSaves fs).get? k = some v →
      ((funcStash.ofSaves fs).save f).2.get? k = some v) ∧
    (funcStash.ofSaves fs).get? ((funcStash.ofSaves fs).save f).1 = none ∧
    ((funcStash.ofSaves fs).save f).1 = "func-" ++ toString fs.length := by
  have hfresh := funcStash.ofSaves_fresh_name fs
  refine ⟨funcStash.get?_set_self _ _ _, ?_, ?_, ?_⟩
  · intro k v hk
    simp only [funcStash.save]
    rw [funcStash.set_of_not_key _ _ _ hfresh]
    exact funcStash.get?_append_of_some _ _ k v hk
  · exact funcStash.get?_of_not_key _ _ hfresh
  · simp only [funcStash.save, funcStash.ofSaves_length]

theorem funcStash.length_set_le (s : funcStash) (name : String) (f : Value) :
    s.length ≤ (s.set name f).length := by
  unfold funcStash.set
  split <;> simp

mutual
theorem executeExpr_stash_length (env : TemplateEnv) (t : Template) :
    ∀ (e : Expr) (data : Value) (st : funcStash),
      st.length ≤ (executeExpr env t e data st).2.length
  | .BasicLit _ _, _, _ => by simp [executeExpr]
  | .ParameterExpr none _, _, _ => by simp [executeExpr]
  | .ParameterExpr (some x) q, data, st => by
    have ih := executeExpr_stash_length env t x data st
    rw [executeExpr]
    generalize executeExpr env t x data st = p1 at ih ⊢
    obtain ⟨r, st1⟩ := p1
    cases r with
    | error e => exact ih
    | panic m => exact ih
    | ok v =>
      simp only at ih ⊢
      split
      · split
        · simp only [funcStash.save]
          split <;> exact Nat.le_trans ih (funcStash.length_set_le _ _ _)
        · split <;> exact ih
      · exact ih
  | .BinaryExpr x op y, data, st => by
    have ih1 := executeExpr_stash_length env t x data st
    simp only [executeExpr]
    generalize executeExpr env t x data st = p1 at ih1 ⊢
    obtain ⟨r, st1⟩ := p1
    cases r with
    | error e => exact ih1
    | panic m => exact ih1
    | ok v =>
      simp only at ih1 ⊢
      have ih2 := executeExpr_stash_length env t y data st1
      generalize executeExpr env t y data st1 = p2 at ih2 ⊢
      obtain ⟨r2, st2⟩ := p2
      cases r2 with
      | error e => exact Nat.le_trans ih1 ih2
      | panic m => exact Nat.le_trans ih1 ih2
      | ok v2 =>
        simp only at ih2 ⊢
        split <;> exact Nat.le_trans ih1 ih2
  | .Ident _, _, _ => by simp [executeExpr]
  | .SelectorExpr _ _, _, _ => by simp [executeExpr]
  | .IndexExpr _ _, _, _ => by simp [executeExpr]
  | .CallExpr f args, data, st => by
    have ih1 := executeExpr_stash_length env t f data st
    rw [executeExpr]
    generalize executeExpr env t f data st = p1 at ih1 ⊢
    obtain ⟨r, st1⟩ := p1
    cases r with
    | error e => exact ih1
    | panic m => exact ih1
    | ok v =>
      simp only at ih1 ⊢
      split
      · rename_i id
        split
        · exact ih1
        · have ih2 := executeArgs_stash_length env t (env.funcs id).type args 0 data st1
          generalize executeArgs env t (env.funcs id).type args 0 data st1 = p2 at ih2 ⊢
          obtain ⟨r2, st2⟩ := p2
          cases r2 <;> exact Nat.le_trans ih1 ih2
      · exact ih1
  | .LeftArrowExpr f arg, data, st => by
    have ih1 := executeExpr_stash_length env t f data st
    rw [executeExpr]
    generalize executeExpr env t f data st = p1 at ih1 ⊢
    obtain ⟨r, st1⟩ := p1
    cases r with
    | error e => exact ih1
    | panic m => exact ih1
    | ok v =>
      simp only at ih1 ⊢
      split
      · exact ih1
      · have ih2 := executeExpr_stash_length env (argTemplate arg) arg data st1
        generalize executeExpr env (argTemplate arg) arg data st1 = p2 at ih2 ⊢
        obtain ⟨r2, st2⟩ := p2
        simp only at ih2 ⊢
        split
        · exact Nat.le_trans ih1 ih2
        · exact Nat.le_trans ih1 ih2
        · split <;> exact Nat.le_trans ih1 ih2
        · exact Nat.le_trans ih1 ih2
  | .Unknown _, _, _ => by simp [executeExpr]
theorem executeArgs_stash_length (env : TemplateEnv) (t : Template) (ft : FuncType) :
    ∀ (args : List Expr) (i : Nat) (data : Value) (st : funcStash),
      st.length ≤ (executeArgs env t ft args i data st).2.length
  | [], _, _, _ => by simp [executeArgs]
  | e :: rest, i, data, st => by
    have ih1 := executeExpr_stash_length env t e data st
    rw [executeArgs]
    generalize executeExpr env t e data st = p1 at ih1 ⊢
    obtain ⟨r, st1⟩ := p1
    cases r with
    | error e => exact ih1
    | panic m => exact ih1
    | ok v =>
      simp only at ih1 ⊢
      split
      · exact ih1
      · exact ih1
      · split
        · exact ih1
        · exact ih1
        · have ih2 := executeArgs_stash_length env t ft rest (i + 1) data st1
          generalize executeArgs env t ft rest (i + 1) data st1 = p2 at ih2 ⊢
          obtain ⟨r2, st2⟩ := p2
          cases r2 <;> exact Nat.le_trans ih1 ih2
end

theorem executeLeftArrowExprArg_eq (env : TemplateEnv) (arg : Expr) (data : Value)
    (st : funcStash) :
    executeLeftArrowExprArg env arg data st =
      (executeOutcome "" (executeExpr env (argTemplate arg) arg data st).1,
        (executeExpr env (argTemplate arg) arg data st).2) := rfl

/-- C13 (as stated) fails: on one Template, evaluating `echo <- '{{exclaim}}'`
from the empty stash leaves the entry `func-0` in the stash, and a second
evaluation of a left arrow argument starts from that stash and names its
callable `func-1`. -/
theorem argFuncs_discarded_counterexample :
    executeExpr sampleLeftArrowEnv (plainTemplate echoCallable) echoCallable .nil [] =
      (.ok (.func 0), [("func-0", .func 0)]) ∧
    (executeExpr sampleLeftArrowEnv (plainTemplate echoCallable) echoCallable .nil []).2 ≠ [] ∧
    executeLeftArrowExprArg sampleLeftArrowEnv (.ParameterExpr (some (.Ident "exclaim")) true)
      .nil (executeExpr sampleLeftArrowEnv (plainTemplate echoCallable) echoCallable .nil []).2 =
      (.ok (.str "\x27\x7b\x7bfunc-1\x7d\x7d\x27"),
        [("func-0", .func 0), ("func-1", .func 0)]) ∧
    (executeLeftArrowExprArg sampleLeftArrowEnv (.ParameterExpr (some (.Ident "exclaim")) true)
      .nil (executeExpr sampleLeftArrowEnv (plainTemplate echoCallable) echoCallable .nil []).2).1
      ≠ .ok (.str "\x27\x7b\x7bfunc-0\x7d\x7d\x27") := by
  decide

/-- C13 (amended): the stash is kept after a left arrow evaluation. After
`executeLeftArrowExpr` returns, the stash of the enclosing Template is the
stash as the evaluation of the argument left it; no evaluation makes the
stash smaller; and a later left arrow argument evaluated from a stash names a
callable `func-N`, `N` being the number of entries that stash has when the
callable is stored. -/
theorem executeLeftArrowExpr_keeps_stash (env : TemplateEnv) (t : Template) (efun earg : Expr)
    (data : Value) (st st1 : funcStash) (v : Value) (f : Func)
    (hf : executeExpr env t efun data st = (.ok v, st1))
    (hfunc : env.asFunc v = some f) :
    (executeExpr env t (.LeftArrowExpr efun earg) data st).2 =
      (executeLeftArrowExprArg env earg data st1).2 ∧
    st.length ≤ (executeExpr env t (.LeftArrowExpr efun earg) data st).2.length ∧
    (∀ (e : Expr) (d : Value) (s0 : funcStash),
      s0.length ≤ (executeExpr env t e d s0).2.length) ∧
    (∀ (x : Expr) (q : Bool) (d : Value) (s0 s1 : funcStash) (c : Value),
      executeExpr env (argTemplate (.ParameterExpr (some x) q)) x d s0 = (.ok c, s1) →
      (env.Elem (reflectValueOf c)).Kind = Kind.Func →
      s0.length ≤ s1.length ∧
      (executeLeftArrowExprArg env (.ParameterExpr (some x) q) d s0).2 =
        funcStash.set s1 ("func-" ++ toString s1.length) c) := by
  have hstash : (executeExpr env t (.LeftArrowExpr efun earg) data st).2 =
      (executeLeftArrowExprArg env earg data st1).2 := by
    rw [executeExpr]
    simp only [hf, hfunc, executeLeftArrowExprArg_eq]
    generalize executeExpr env (argTemplate earg) earg data st1 = p
    obtain ⟨r, st2⟩ := p
    simp only
    split
    · rfl
    · rfl
    · split <;> rfl
    · rfl
  refine ⟨hstash, ?_, fun e d s0 => executeExpr_stash_length env t e d s0, ?_⟩
  · exact executeExpr_stash_length env t _ data st
  · intro x q d s0 s1 c hx hc
    refine ⟨?_, ?_⟩
    · have := executeExpr_stash_length env (argTemplate (.ParameterExpr (some x) q)) x d s0
      rw [hx] at this
      exact this
    · rw [executeLeftArrowExprArg_eq, executeExpr]
      have hflag : (argTemplate (.ParameterExpr (some x) q)).executingLeftArrowExprArg = true :=
        rfl
      simp only [hx, hflag, hc, if_true, funcStash.save]
      cases q <;> rfl

theorem executeLeftArrowExpr_keeps_stash_witness :
    executeExpr sampleLeftArrowEnv (plainTemplate echoCallable) (.Ident "echo") .nil
      [("func-0", .func 0)] = (.ok (.other 9), [("func-0", .func 0)]) ∧
    sampleLeftArrowEnv.asFunc (.other 9) = some echoFunc ∧
    (executeExpr sampleLeftArrowEnv (plainTemplate echoCallable) echoCallable .nil
      [("func-0", .func 0)]).2 =
      (executeLeftArrowExprArg sampleLeftArrowEnv (.ParameterExpr (some (.Ident "exclaim")) true)
        .nil [("func-0", .func 0)]).2 ∧
    (executeLeftArrowExprArg sampleLeftArrowEnv (.ParameterExpr (some (.Ident "exclaim")) true)
        .nil [("func-0", .func 0)]).2 = [("func-0", .func 0), ("func-1", .func 0)] :=
  ⟨by decide, rfl,
    (executeLeftArrowExpr_keeps_stash sampleLeftArrowEnv (plainTemplate echoCallable)
      (.Ident "echo") (.ParameterExpr (some (.Ident "exclaim")) true) .nil
      [("func-0", .func 0)] [("func-0", .func 0)] (.other 9) echoFunc (by decide) rfl).1,
    by decide⟩

end StashTheorems

/-! ## Theorems: left arrow expressions -/

section LeftArrowTheorems

/-- C14: for a left arrow expression whose function expression evaluates to
`v`: when `v` does not implement `Func` the result is an error and the stash
is as the function expression left it (the argument is not evaluated);
otherwise the argument is executed by a child executor marked
`executingLeftArrowExprArg` on the same stash, and when that gives an error or
a value that is not a string the result is an error that does not depend on
`UnmarshalArg` or `Exec`; when it gives a string, an error of `UnmarshalArg`
is returned as it is, and otherwise the result is exactly `Exec(arg)` for the
`arg` that `UnmarshalArg` returned. -/
theorem executeLeftArrowExpr_steps (env : TemplateEnv) (t : Template) (efun earg : Expr)
    (data : Value) (st st1 : funcStash) (v : Value)
    (hf : executeExpr env t efun data st = (.ok v, st1)) :
    (env.asFunc v = none →
      executeExpr env t (.LeftArrowExpr efun earg) data st =
        (.error "expect template function but got *ast.LeftArrowExpr", st1)) ∧
    (executeLeftArrowExprArg env earg data st1 =
        (argTemplate earg).Execute env data st1 ∧
      (argTemplate earg).executingLeftArrowExprArg = true ∧
      (argTemplate earg).expr = earg) ∧
    (∀ f, env.asFunc v = some f →
      (∀ e st2, executeLeftArrowExprArg env earg data st1 = (.error e, st2) →
        executeExpr env t (.LeftArrowExpr efun earg) data st = (.error e, st2)) ∧
      (∀ a st2, executeLeftArrowExprArg env earg data st1 = (.ok a, st2) →
        (∀ s, a ≠ .str s) →
        executeExpr env t (.LeftArrowExpr efun earg) data st =
          (.error ("expect string but got " ++ env.typeName a), st2)) ∧
      (∀ argStr st2, executeLeftArrowExprArg env earg data st1 = (.ok (.str argStr), st2) →
        (∀ e, f.UnmarshalArg (unmarshalCallback env argStr st2) = .error e →
          executeExpr env t (.LeftArrowExpr efun earg) data st = (.error e, st2)) ∧
        (∀ arg, f.UnmarshalArg (unmarshalCallback env argStr st2) = .ok arg →
          executeExpr env t (.LeftArrowExpr efun earg) data st = (f.Exec arg, st2)))) := by
  refine ⟨?_, ⟨rfl, rfl, rfl⟩, ?_⟩
  · intro hnone
    rw [executeExpr]
    simp only [hf, hnone]
  · intro f hfunc
    have hunfold : ∀ r st2, executeLeftArrowExprArg env earg data st1 = (r, st2) →
        executeExpr env t (.LeftArrowExpr efun earg) data st =
          match r with
          | .error e => (.error e, st2)
          | .panic m => (.panic m, st2)
          | .ok (.str argStr) =>
            match f.UnmarshalArg (unmarshalCallback env argStr st2) with
            | .error e => (.error e, st2)
            | .panic m => (.panic m, st2)
            | .ok a => (f.Exec a, st2)
          | .ok a => (.error ("expect string but got " ++ env.typeName a), st2) := by
      intro r st2 hr
      rw [executeLeftArrowExprArg_eq] at hr
      simp only [Prod.mk.injEq] at hr
      obtain ⟨h1, h2⟩ := hr
      rw [executeExpr]
      simp only [hf, hfunc]
      generalize executeExpr env (argTemplate earg) earg data st1 = p at h1 h2
      obtain ⟨r0, s0⟩ := p
      simp only at h1 h2
      subst h2
      have hstr : (argTemplate earg).str = "" := rfl
      simp only [hstr, h1]
    refine ⟨?_, ?_, ?_⟩
    · intro e st2 hr
      rw [hunfold _ _ hr]
    · intro a st2 hr hns
      rw [hunfold _ _ hr]
      cases a with
      | str s => exact absurd rfl (hns s)
      | _ => rfl
    · intro argStr st2 hr
      refine ⟨?_, ?_⟩
      · intro e he
        rw [hunfold _ _ hr]
        simp only [he]
      · intro arg harg
        rw [hunfold _ _ hr]
        simp only [harg]

theorem executeLeftArrowExpr_steps_witness :
    executeExpr sampleLeftArrowEnv (plainTemplate echoData) (.Ident "echo") (.str "hello") [] =
      (.ok (.other 9), []) ∧
    sampleLeftArrowEnv.asFunc (.other 9) = some echoFunc ∧
    executeLeftArrowExprArg sampleLeftArrowEnv (.ParameterExpr (some (.Ident "v")) true)
      (.str "hello") [] = (.ok (.str "\x27hello\x27"), []) ∧
    echoFunc.UnmarshalArg (unmarshalCallback sampleLeftArrowEnv "\x27hello\x27" []) =
      .ok (.str "hello") ∧
    executeExpr sampleLeftArrowEnv (plainTemplate echoData) echoData (.str "hello") [] =
      (echoFunc.Exec (.str "hello"), []) :=
  ⟨by decide, rfl, by decide, by decide,
    ((((executeLeftArrowExpr_steps sampleLeftArrowEnv (plainTemplate echoData) (.Ident "echo")
      (.ParameterExpr (some (.Ident "v")) true) (.str "hello") [] [] (.other 9)
      (by decide)).2.2 echoFunc rfl).2.2 "\x27hello\x27" [] (by decide)).2
      (.str "hello") (by decide))⟩

end LeftArrowTheorems

/-! ## Theorems: determinism and reentrancy -/

section ReentrancyTheorems

mutual

/-- Outside a left arrow argument context, the evaluation of an expression in
which no left arrow expression is reached neither reads nor changes the
stash. -/
theorem executeExpr_without_left_arrow (env : TemplateEnv) (t : Template)
    (hflag : t.executingLeftArrowExprArg = false) :
    ∀ (e : Expr) (data : Value) (st : funcStash), hasLeftArrow e = false →
      executeExpr env t e data st = ((executeExpr env t e data []).1, st)
  | .BasicLit _ _, _, _, _ => by simp [executeExpr]
  | .ParameterExpr none _, _, _, _ => by simp [executeExpr]
  | .ParameterExpr (some x) q, data, st, h => by
    have hx : hasLeftArrow x = false := by simpa [hasLeftArrow] using h
    have ih := executeExpr_without_left_arrow env t hflag x data st hx
    rw [executeExpr, executeExpr, ih]
    generalize executeExpr env t x data [] = p
    obtain ⟨r, s0⟩ := p
    cases r <;> simp [hflag]
  | .BinaryExpr x op y, data, st, h => by
    have hxy : hasLeftArrow x = false ∧ hasLeftArrow y = false := by
      simpa [hasLeftArrow] using h
    have ihx := executeExpr_without_left_arrow env t hflag x data st hxy.1
    have ihy := executeExpr_without_left_arrow env t hflag y data st hxy.2
    have ihx0 := executeExpr_without_left_arrow env t hflag x data [] hxy.1
    simp only [executeExpr]
    rw [ihx]
    generalize executeExpr env t x data [] = p at ihx0 ⊢
    obtain ⟨r, s0⟩ := p
    simp only [Prod.mk.injEq, true_and] at ihx0
    subst ihx0
    cases r with
    | error e => rfl
    | panic m => rfl
    | ok vx =>
      simp only
      rw [ihy]
      generalize executeExpr env t y data [] = p2
      obtain ⟨r2, s2⟩ := p2
      cases r2 with
      | error e => rfl
      | panic m => rfl
      | ok vy =>
        simp only
        split <;> rfl
  | .Ident _, _, _, _ => by simp [executeExpr]
  | .SelectorExpr _ _, _, _, _ => by simp [executeExpr]
  | .IndexExpr _ _, _, _, _ => by simp [executeExpr]
  | .CallExpr f args, data, st, h => by
    have hfa : hasLeftArrow f = false ∧ hasLeftArrowList args = false := by
      simpa [hasLeftArrow] using h
    have ihf := executeExpr_without_left_arrow env t hflag f data st hfa.1
    have ihf0 := executeExpr_without_left_arrow env t hflag f data [] hfa.1
    rw [executeExpr, executeExpr, ihf]
    generalize executeExpr env t f data [] = p at ihf0 ⊢
    obtain ⟨r, s0⟩ := p
    simp only [Prod.mk.injEq, true_and] at ihf0
    subst ihf0
    cases r with
    | error e => rfl
    | panic m => rfl
    | ok fn =>
      simp only
      split
      · rename_i id
        split
        · rfl
        · have iha := executeArgs_without_left_arrow env t hflag (env.funcs id).type args 0
            data st hfa.2
          rw [iha]
          generalize executeArgs env t (env.funcs id).type args 0 data [] = p2
          obtain ⟨r2, s2⟩ := p2
          cases r2 <;> rfl
      · rfl
  | .LeftArrowExpr _ _, _, _, h => by simp [hasLeftArrow] at h
  | .Unknown _, _, _, _ => by simp [executeExpr]

/-- The argument loop of a call, likewise. -/
theorem executeArgs_without_left_arrow (env : TemplateEnv) (t : Template)
    (hflag : t.executingLeftArrowExprArg = false) (ft : FuncType) :
    ∀ (args : List Expr) (i : Nat) (data : Value) (st : funcStash),
      hasLeftArrowList args = false →
      executeArgs env t ft args i data st = ((executeArgs env t ft args i data []).1, st)
  | [], _, _, _, _ => by simp [executeArgs]
  | e :: rest, i, data, st, h => by
    have her : hasLeftArrow e = false ∧ hasLeftArrowList rest = false := by
      simpa [hasLeftArrowList] using h
    have ihe := executeExpr_without_left_arrow env t hflag e data st her.1
    have ihe0 := executeExpr_without_left_arrow env t hflag e data [] her.1
    have ihr := executeArgs_without_left_arrow env t hflag ft rest (i + 1) data st her.2
    rw [executeArgs, executeArgs, ihe]
    generalize executeExpr env t e data [] = p at ihe0 ⊢
    obtain ⟨r, s0⟩ := p
    simp only [Prod.mk.injEq, true_and] at ihe0
    subst ihe0
    cases r with
    | error e => rfl
    | panic m => rfl
    | ok a =>
      simp only
      split
      · rfl
      · rfl
      · split
        · rfl
        · rfl
        · rw [ihr]
          generalize executeArgs env t ft rest (i + 1) data [] = p2
          obtain ⟨r2, s2⟩ := p2
          cases r2 <;> rfl

end

theorem executeBasicLit_withLookup (env : TemplateEnv) (l : Expr → Value → Result Value)
    (k : Token) (v : String) :
    executeBasicLit (env.withLookup l) k v = executeBasicLit env k v := rfl

theorem add_withLookup (env : TemplateEnv) (l : Expr → Value → Result Value) (t : Template)
    (x y : Value) (w : Bool) : add (env.withLookup l) t x y w = add env t x y w := rfl

theorem convertArg_withLookup (env : TemplateEnv) (l : Expr → Value → Result Value)
    (a : Value) (T : GoType) : convertArg (env.withLookup l) a T = convertArg env a T := rfl

theorem unmarshalCallback_withLookup (env : TemplateEnv) (l : Expr → Value → Result Value)
    (s : String) (st : funcStash) :
    unmarshalCallback (env.withLookup l) s st = unmarshalCallback env s st := rfl

mutual

theorem executeExpr_same_lookups (env : TemplateEnv) (l : Expr → Value → Result Value)
    (data : Value) :
    ∀ (t : Template) (e : Expr) (st : funcStash), sameLookups env.lookup l data e = true →
      executeExpr (env.withLookup l) t e data st = executeExpr env t e data st
  | t, .BasicLit k v, st, _ => by
    simp only [executeExpr, executeBasicLit_withLookup]
  | t, .ParameterExpr none _, st, _ => by simp only [executeExpr]
  | t, .ParameterExpr (some x) q, st, h => by
    have hx : sameLookups env.lookup l data x = true := by simpa [sameLookups] using h
    have ih := executeExpr_same_lookups env l data t x st hx
    rw [executeExpr, executeExpr, ih]
    rfl
  | t, .BinaryExpr x op y, st, h => by
    have hxy : sameLookups env.lookup l data x = true ∧
        sameLookups env.lookup l data y = true := by simpa [sameLookups] using h
    have ihx := executeExpr_same_lookups env l data t x st hxy.1
    simp only [executeExpr]
    rw [ihx]
    generalize executeExpr env t x data st = p
    obtain ⟨r, st1⟩ := p
    cases r with
    | error e => rfl
    | panic m => rfl
    | ok vx =>
      simp only
      rw [executeExpr_same_lookups env l data t y st1 hxy.2]
      rfl
  | t, .Ident name, st, h => by
    have h1 : env.lookup (.Ident name) data = l (.Ident name) data := by
      simpa [sameLookups] using h
    simp only [executeExpr, TemplateEnv.withLookup, h1]
  | t, .SelectorExpr x sel, st, h => by
    have h1 : env.lookup (.SelectorExpr x sel) data = l (.SelectorExpr x sel) data := by
      simpa [sameLookups] using h
    simp only [executeExpr, TemplateEnv.withLookup, h1]
  | t, .IndexExpr x index, st, h => by
    have h1 : env.lookup (.IndexExpr x index) data = l (.IndexExpr x index) data := by
      simpa [sameLookups] using h
    simp only [executeExpr, TemplateEnv.withLookup, h1]
  | t, .CallExpr f args, st, h => by
    have hfa : sameLookups env.lookup l data f = true ∧
        sameLookupsList env.lookup l data args = true := by simpa [sameLookups] using h
    have ihf := executeExpr_same_lookups env l data t f st hfa.1
    rw [executeExpr, executeExpr, ihf]
    generalize executeExpr env t f data st = p
    obtain ⟨r, st1⟩ := p
    cases r with
    | error e => rfl
    | panic m => rfl
    | ok fn =>
      cases fn with
      | func id =>
        simp only
        have iha := executeArgs_same_lookups env l data t (env.funcs id).type args 0 st1 hfa.2
        change (match arityError (env.funcs id).type args.length with
          | some msg => (Result.error msg, st1)
          | none =>
            match executeArgs (env.withLookup l) t (env.funcs id).type args 0 data st1 with
            | (.error e, st2) => (Result.error e, st2)
            | (.panic m, st2) => (Result.panic m, st2)
            | (.ok args, st2) => (callFunc (env.funcs id) args, st2)) = _
        rw [iha]
      | _ => rfl
  | t, .LeftArrowExpr f arg, st, h => by
    have hfa : sameLookups env.lookup l data f = true ∧
        sameLookups env.lookup l data arg = true := by simpa [sameLookups] using h
    have ihf := executeExpr_same_lookups env l data t f st hfa.1
    rw [executeExpr, executeExpr, ihf]
    generalize executeExpr env t f data st = p
    obtain ⟨r, st1⟩ := p
    cases r with
    | error e => rfl
    | panic m => rfl
    | ok v =>
      simp only
      change (match env.asFunc v with
        | none => (Result.error "expect template function but got *ast.LeftArrowExpr", st1)
        | some fv =>
          match executeExpr (env.withLookup l) (argTemplate arg) arg data st1 with
          | (r, st2) =>
            match executeOutcome (argTemplate arg).str r with
            | .error e => (Result.error e, st2)
            | .panic m => (Result.panic m, st2)
            | .ok (.str argStr) =>
              match fv.UnmarshalArg (unmarshalCallback env argStr st2) with
              | .error e => (Result.error e, st2)
              | .panic m => (Result.panic m, st2)
              | .ok a => (fv.Exec a, st2)
            | .ok v => (Result.error ("expect string but got " ++ env.typeName v), st2)) = _
      rw [executeExpr_same_lookups env l data (argTemplate arg) arg st1 hfa.2]
  | t, .Unknown _, st, _ => by simp only [executeExpr]

theorem executeArgs_same_lookups (env : TemplateEnv) (l : Expr → Value → Result Value)
    (data : Value) :
    ∀ (t : Template) (ft : FuncType) (args : List Expr) (i : Nat) (st : funcStash),
      sameLookupsList env.lookup l data args = true →
      executeArgs (env.withLookup l) t ft args i data st = executeArgs env t ft args i data st
  | t, ft, [], i, st, _ => by simp only [executeArgs]
  | t, ft, e :: rest, i, st, h => by
    have her : sameLookups env.lookup l data e = true ∧
        sameLookupsList env.lookup l data rest = true := by simpa [sameLookupsList] using h
    have ihe := executeExpr_same_lookups env l data t e st her.1
    rw [executeArgs, executeArgs, ihe]
    generalize executeExpr env t e data st = p
    obtain ⟨r, st1⟩ := p
    cases r with
    | error e => rfl
    | panic m => rfl
    | ok a =>
      simp only
      cases requiredFuncArgType ft i with
      | error e => rfl
      | panic m => rfl
      | ok T =>
        simp only [convertArg_withLookup]
        cases convertArg env a T with
        | error e => rfl
        | panic m => rfl
        | ok v =>
          simp only
          rw [executeArgs_same_lookups env l data t ft rest (i + 1) st1 her.2]

end

/-- C15 (as stated) fails: on one Template for `echo <- '{{v}}'`, an execution
on an environment whose `v` is a callable leaves `func-0` in the stash, and a
later execution on an environment whose `v` is the string `{{func-0}}`
returns that callable, whereas on a freshly constructed executor it returns
an error. -/
theorem Execute_cross_effect_counterexample :
    (plainTemplate echoData).Execute sampleLeftArrowEnv (.func 0) [] =
      (.ok (.func 0), [("func-0", .func 0)]) ∧
    ((plainTemplate echoData).Execute sampleLeftArrowEnv (.str "\x7b\x7bfunc-0\x7d\x7d")
      ((plainTemplate echoData).Execute sampleLeftArrowEnv (.func 0) []).2).1 =
      .ok (.func 0) ∧
    ((plainTemplate echoData).Execute sampleLeftArrowEnv (.str "\x7b\x7bfunc-0\x7d\x7d") []).1 =
      .error "failed to execute: : not found" := by
  decide

/-- C15 (amended): two executions of a template on freshly constructed
executors return equal results, and leave equal stashes, whenever the two data
environments give the same answers to the lookups the tree makes (its
identifiers, selector and index expressions), in particular for one and the
same environment; the same holds from any stash. For a template outside a
left arrow argument context whose tree reaches no left arrow expression, an
execution leaves the stash unchanged and its result does not depend on the
stash, so an execution on one environment does not change the result of a
later execution of the same tree on another environment (other data, other
answers to the lookups) on the same Template. -/
theorem Execute_deterministic_and_reentrant (env : TemplateEnv) (t : Template)
    (data1 data2 : Value) (l : Expr → Value → Result Value) :
    (sameLookups env.lookup l data1 t.expr = true →
      t.Execute (env.withLookup l) data1 [] = t.Execute env data1 [] ∧
      ∀ st, t.Execute (env.withLookup l) data1 st = t.Execute env data1 st) ∧
    (t.executingLeftArrowExprArg = false → hasLeftArrow t.expr = false →
      (∀ st, (t.Execute env data1 st).2 = st ∧
        (t.Execute env data1 st).1 = (t.Execute env data1 []).1) ∧
      (t.Execute env data2 (t.Execute env data1 []).2).1 = (t.Execute env data2 []).1 ∧
      (t.Execute (env.withLookup l) data2 (t.Execute env data1 []).2).1 =
        (t.Execute (env.withLookup l) data2 []).1) := by
  refine ⟨?_, ?_⟩
  · intro hsame
    have hall : ∀ st, t.Execute (env.withLookup l) data1 st = t.Execute env data1 st := by
      intro st
      simp only [Template.Execute]
      rw [executeExpr_same_lookups env l data1 t t.expr st hsame]
    exact ⟨hall [], hall⟩
  · intro hflag hno
    have hplain : ∀ (env2 : TemplateEnv) d st,
        t.Execute env2 d st = ((t.Execute env2 d []).1, st) := by
      intro env2 d st
      simp only [Template.Execute]
      rw [executeExpr_without_left_arrow env2 t hflag t.expr d st hno]
    refine ⟨?_, ?_, ?_⟩
    · intro st
      rw [hplain env data1 st]
      exact ⟨rfl, rfl⟩
    · rw [hplain env data2 (t.Execute env data1 []).2]
    · rw [hplain (env.withLookup l) data2 (t.Execute env data1 []).2]

theorem Execute_deterministic_and_reentrant_witness :
    (sameLookups sampleTemplateEnv.lookup otherLookup (.str "a") (plainTemplate dashParam).expr =
      true ∧
    sampleTemplateEnv.lookup (.Ident "exclaim") (.str "a") ≠
      otherLookup (.Ident "exclaim") (.str "a") ∧
    (plainTemplate dashParam).Execute (sampleTemplateEnv.withLookup otherLookup) (.str "a") [] =
      (plainTemplate dashParam).Execute sampleTemplateEnv (.str "a") [] ∧
    (plainTemplate dashParam).Execute sampleTemplateEnv (.str "a") [] =
      (.ok (.str "- a"), [])) ∧
    ((plainTemplate dashParam).executingLeftArrowExprArg = false ∧
    hasLeftArrow (plainTemplate dashParam).expr = false ∧
    ((plainTemplate dashParam).Execute sampleTemplateEnv (.str "b")
      ((plainTemplate dashParam).Execute sampleTemplateEnv (.str "a") []).2).1 =
      ((plainTemplate dashParam).Execute sampleTemplateEnv (.str "b") []).1 ∧
    ((plainTemplate dashParam).Execute sampleTemplateEnv (.str "b") []).1 = .ok (.str "- b")) :=
  ⟨⟨by decide, by decide,
    ((Execute_deterministic_and_reentrant sampleTemplateEnv (plainTemplate dashParam)
      (.str "a") (.str "b") otherLookup).1 (by decide)).1,
    by decide⟩,
   ⟨rfl, by decide,
    ((Execute_deterministic_and_reentrant sampleTemplateEnv (plainTemplate dashParam)
      (.str "a") (.str "b") otherLookup).2 rfl (by decide)).2.1,
    by decide⟩⟩

end ReentrancyTheorems

/-! ## Theorems: basic literals -/

section LiteralTheorems

theorem stripSign_digits (ds : List Char) (hall : ds.all Char.isDigit = true) :
    stripSign ds = ds ∧ ds.head? ≠ some '-' := by
  cases ds with
  | nil => exact ⟨rfl, by simp⟩
  | cons c cs =>
    have hc : c.isDigit = true := by
      simp only [List.all_cons, Bool.and_eq_true] at hall
      exact hall.1
    have h1 : c ≠ '+' := by
      intro h; subst h; exact absurd hc (by decide)
    have h2 : c ≠ '-' := by
      intro h; subst h; exact absurd hc (by decide)
    exact ⟨by simp [stripSign, h1, h2], by simpa using h2⟩

theorem strconvAtoi_digits (ds : List Char) (hne : ds ≠ [])
    (hall : ds.all Char.isDigit = true) :
    strconvAtoi (String.mk ds) =
      if decimalValue ds < 2 ^ 63 then .ok (decimalValue ds : Int)
      else .error ("strconv.Atoi: parsing \"" ++ String.mk ds ++ "\": value out of range") := by
  obtain ⟨hbody, hhead⟩ := stripSign_digits ds hall
  unfold strconvAtoi
  simp only [hbody, hne, hall, false_or, Bool.true_eq_false, if_false, hhead]

theorem strconvAtoi_minus_digits (ds : List Char) (hne : ds ≠ [])
    (hall : ds.all Char.isDigit = true) :
    strconvAtoi (String.mk ('-' :: ds)) =
      if decimalValue ds ≤ 2 ^ 63 then .ok (-(decimalValue ds : Int))
      else .error ("strconv.Atoi: parsing \"" ++ String.mk ('-' :: ds) ++
        "\": value out of range") := by
  unfold strconvAtoi
  simp [stripSign, hne, hall]

theorem strconvAtoi_plus_digits (ds : List Char) (hne : ds ≠ [])
    (hall : ds.all Char.isDigit = true) :
    strconvAtoi (String.mk ('+' :: ds)) =
      if decimalValue ds < 2 ^ 63 then .ok (decimalValue ds : Int)
      else .error ("strconv.Atoi: parsing \"" ++ String.mk ('+' :: ds) ++
        "\": value out of range") := by
  unfold strconvAtoi
  simp [stripSign, hne, hall]

theorem strconvAtoi_malformed (text : String)
    (h : ∀ ds, ds ≠ [] → ds.all Char.isDigit = true →
      text ≠ String.mk ds ∧ text ≠ String.mk ('+' :: ds) ∧ text ≠ String.mk ('-' :: ds)) :
    strconvAtoi text = .error ("strconv.Atoi: parsing \"" ++ text ++ "\": invalid syntax") := by
  unfold strconvAtoi
  simp only
  split
  · rfl
  · rename_i hok
    exfalso
    simp only [not_or, Bool.not_eq_false] at hok
    obtain ⟨hne, hall⟩ := hok
    rcases htd : text.data with _ | ⟨c, cs⟩
    · rw [htd] at hne
      exact hne rfl
    · rw [htd] at hne hall
      by_cases hp : c = '+'
      · subst hp
        simp only [stripSign, true_or, if_true] at hne hall
        exact (h cs hne hall).2.1 (String.ext (by simpa using htd))
      · by_cases hm : c = '-'
        · subst hm
          simp only [stripSign, or_true, if_true] at hne hall
          exact (h cs hne hall).2.2 (String.ext (by simpa using htd))
        · simp only [stripSign, hp, hm, or_self, if_false] at hne hall
          exact (h (c :: cs) hne hall).1 (String.ext (by simpa using htd))

theorem executeBasicLit_int_nat (env : TemplateEnv) (hAtoi : env.Atoi = strconvAtoi) (m : Nat) :
    executeBasicLit env .INT (toString m) =
      if m < 2 ^ 63 then .ok (.int (m : Int))
      else .error (wrapErr
        ("strconv.Atoi: parsing \"" ++ toString m ++ "\": value out of range")
        ("invalid AST: \"" ++ toString m ++ "\" is not a integer")) := by
  obtain ⟨hv, hne, hall⟩ := toString_nat_spec m
  have hmk : toString m = String.mk (toString m).data := rfl
  have h := strconvAtoi_digits (toString m).data hne hall
  rw [← hmk, hv] at h
  by_cases hm : m < 2 ^ 63
  · rw [if_pos hm] at h ⊢
    simp only [executeBasicLit, hAtoi, h]
  · rw [if_neg hm] at h ⊢
    simp only [executeBasicLit, hAtoi, h]

theorem executeBasicLit_int_neg (env : TemplateEnv) (hAtoi : env.Atoi = strconvAtoi) (m : Nat) :
    executeBasicLit env .INT ("-" ++ toString m) =
      if m ≤ 2 ^ 63 then .ok (.int (-(m : Int)))
      else .error (wrapErr
        ("strconv.Atoi: parsing \"" ++ ("-" ++ toString m) ++ "\": value out of range")
        ("invalid AST: \"" ++ ("-" ++ toString m) ++ "\" is not a integer")) := by
  obtain ⟨hv, hne, hall⟩ := toString_nat_spec m
  have hmk : "-" ++ toString m = String.mk ('-' :: (toString m).data) := by
    apply String.ext
    simp [String.data_append]
  have h := strconvAtoi_minus_digits (toString m).data hne hall
  rw [← hmk, hv] at h
  by_cases hm : m ≤ 2 ^ 63
  · rw [if_pos hm] at h ⊢
    simp only [executeBasicLit, hAtoi, h]
  · rw [if_neg hm] at h ⊢
    simp only [executeBasicLit, hAtoi, h]

/-- C16: a STRING literal evaluates to its value unchanged; an INT literal
whose text is the decimal numeral of the integer `n` evaluates to `n` when
`-2^63 ≤ n < 2^63` and to an error when `n` is outside that range; an INT
literal whose text is not an optional sign followed by one or more decimal
digits evaluates to an error; a literal of any other kind evaluates to an
error. `strconv.Atoi` is taken for a 64-bit `int`. -/
theorem executeBasicLit_literal_kinds (env : TemplateEnv) (hAtoi : env.Atoi = strconvAtoi)
    (value : String) :
    executeBasicLit env .STRING value = .ok (.str value) ∧
    (∀ n : Int, -2 ^ 63 ≤ n → n < 2 ^ 63 →
      executeBasicLit env .INT (toString n) = .ok (.int n)) ∧
    (∀ n : Int, (n < -2 ^ 63 ∨ 2 ^ 63 ≤ n) →
      ∃ msg, executeBasicLit env .INT (toString n) = .error msg) ∧
    (∀ ds, ds ≠ [] → ds.all Char.isDigit = true →
      executeBasicLit env .INT (String.mk ds) =
        if decimalValue ds < 2 ^ 63 then .ok (.int (decimalValue ds : Int))
        else .error (wrapErr
          ("strconv.Atoi: parsing \"" ++ String.mk ds ++ "\": value out of range")
          ("invalid AST: \"" ++ String.mk ds ++ "\" is not a integer"))) ∧
    (∀ text : String,
      (∀ ds, ds ≠ [] → ds.all Char.isDigit = true →
        text ≠ String.mk ds ∧ text ≠ String.mk ('+' :: ds) ∧ text ≠ String.mk ('-' :: ds)) →
      ∃ msg, executeBasicLit env .INT text = .error msg) ∧
    (∀ k, k ≠ Token.STRING → k ≠ Token.INT →
      executeBasicLit env k value =
        .error ("unknown basic literal \"" ++ env.tokenString k ++ "\"")) := by
  refine ⟨rfl, ?_, ?_, ?_, ?_, ?_⟩
  · intro n hlo hhi
    cases n with
    | ofNat m =>
      have hm : m < 2 ^ 63 := by
        have : (m : Int) < 2 ^ 63 := hhi
        exact_mod_cast this
      have h := executeBasicLit_int_nat env hAtoi m
      rw [if_pos hm] at h
      exact h
    | negSucc m =>
      have hm : m + 1 ≤ 2 ^ 63 := by
        have : -2 ^ 63 ≤ Int.negSucc m := hlo
        rw [Int.negSucc_eq] at this
        have h2 : ((m : Int) + 1) ≤ 2 ^ 63 := by linarith
        exact_mod_cast h2
      have h := executeBasicLit_int_neg env hAtoi (m + 1)
      rw [if_pos hm] at h
      have hs : toString (Int.negSucc m) = "-" ++ toString (m + 1) := rfl
      rw [hs, h, Int.negSucc_eq]
      push_cast
      rfl
  · intro n hout
    cases n with
    | ofNat m =>
      have hm : ¬ m < 2 ^ 63 := by
        rcases hout with h | h
        · exfalso
          have h0 : (0 : Int) ≤ Int.ofNat m := Int.ofNat_nonneg m
          have : (0 : Int) < 2 ^ 63 := by positivity
          linarith
        · have : (2 : Int) ^ 63 ≤ (m : Int) := h
          have h2 : 2 ^ 63 ≤ m := by exact_mod_cast this
          omega
      have h := executeBasicLit_int_nat env hAtoi m
      rw [if_neg hm] at h
      exact ⟨_, h⟩
    | negSucc m =>
      have hm : ¬ m + 1 ≤ 2 ^ 63 := by
        rcases hout with h | h
        · rw [Int.negSucc_eq] at h
          have h2 : (2 : Int) ^ 63 < (m : Int) + 1 := by linarith
          have h3 : 2 ^ 63 < m + 1 := by exact_mod_cast h2
          omega
        · exfalso
          have h0 : Int.negSucc m < 0 := Int.negSucc_lt_zero m
          have : (0 : Int) < 2 ^ 63 := by positivity
          linarith
      have h := executeBasicLit_int_neg env hAtoi (m + 1)
      rw [if_neg hm] at h
      exact ⟨_, h⟩
  · intro ds hne hall
    have h := strconvAtoi_digits ds hne hall
    by_cases hm : decimalValue ds < 2 ^ 63
    · rw [if_pos hm] at h ⊢
      simp only [executeBasicLit, hAtoi, h]
    · rw [if_neg hm] at h ⊢
      simp only [executeBasicLit, hAtoi, h]
  · intro text hbad
    exact ⟨wrapErr ("strconv.Atoi: parsing \"" ++ text ++ "\": invalid syntax")
      ("invalid AST: \"" ++ text ++ "\" is not a integer"),
      by simp only [executeBasicLit, hAtoi, strconvAtoi_malformed text hbad]⟩
  · intro k hs hi
    cases k with
    | STRING => exact absurd rfl hs
    | INT => exact absurd rfl hi
    | ADD => rfl
    | other name => rfl

theorem executeBasicLit_literal_kinds_witness :
    goAtoiEnv.Atoi = strconvAtoi ∧
    executeBasicLit goAtoiEnv .INT (toString (-9223372036854775808 : Int)) =
      .ok (.int (-9223372036854775808)) ∧
    executeBasicLit goAtoiEnv .INT "9223372036854775808" =
      .error ("invalid AST: \"9223372036854775808\" is not a integer: " ++
        "strconv.Atoi: parsing \"9223372036854775808\": value out of range") :=
  ⟨rfl,
    (executeBasicLit_literal_kinds goAtoiEnv rfl "").2.1 (-9223372036854775808)
      (by norm_num) (by norm_num),
    by decide⟩

end LiteralTheorems

/-! ## Theorems: logging of failed attempts and the include branch -/

section AttemptLogTheorems

variable {σ Resp Err : Type}

/-- C18: in the attempt numbered `i` of step `stepIdx`: an error of `Invoke`
is logged decorated with the path `steps[stepIdx].request`, and neither
`Build` nor `Assert` is called; an error of `Expect.Build` is logged
decorated with the path `steps[stepIdx].expect`, and `Assert` is not called;
an error of `Assert` is decorated with the path `steps[stepIdx].expect` and
logged (by its contained errors when the decorated error is an aggregate); in
each case the body ends in `continue`, and the loop goes on with the next
attempt when the stream grants one. -/
theorem attempt_logs_error_and_continues (env : StepEnv σ Resp Err) (ctx : Context)
    (s : Step σ Resp Err) (stepIdx i : Nat) (w : σ) :
    (∀ w1 err, s.Request.Invoke w ctx = (w1, .error err) →
      attemptBody env ctx s stepIdx i w =
        (w1, [.Logf ctx.Reporter (.sendRequest i), .Invoke ctx,
          .Logf ctx.Reporter .elapsedTime,
          .Log ctx.Reporter (env.WithNodeAndColored
            (env.WithPath err ("steps[" ++ toString stepIdx ++ "]." ++ "request"))
            ctx.Node ctx.EnabledColor)], none)) ∧
    (∀ w1 newCtx resp w2 err, s.Request.Invoke w ctx = (w1, .ok (newCtx, resp)) →
      s.Expect.Build w1 newCtx = (w2, .error err) →
      attemptBody env ctx s stepIdx i w =
        (w2, [.Logf ctx.Reporter (.sendRequest i), .Invoke ctx,
          .Logf ctx.Reporter .elapsedTime, .Build newCtx,
          .Log ctx.Reporter (env.WithNodeAndColored
            (env.WithPath err ("steps[" ++ toString stepIdx ++ "]." ++ "expect"))
            ctx.Node ctx.EnabledColor)], none)) ∧
    (∀ w1 newCtx resp w2 assertion w3 err,
      s.Request.Invoke w ctx = (w1, .ok (newCtx, resp)) →
      s.Expect.Build w1 newCtx = (w2, .ok assertion) →
      assertion.Assert w2 resp = (w3, some err) →
      attemptBody env ctx s stepIdx i w =
        (w3, [.Logf ctx.Reporter (.sendRequest i), .Invoke ctx,
          .Logf ctx.Reporter .elapsedTime, .Build newCtx, .Assert] ++
          (match env.asAssertError (env.WithNodeAndColored
              (env.WithPath err ("steps[" ++ toString stepIdx ++ "]." ++ "expect"))
              ctx.Node ctx.EnabledColor) with
            | some errs => errs.map (fun e => Event.Log ctx.Reporter e)
            | none => [.Log ctx.Reporter (env.WithNodeAndColored
                (env.WithPath err ("steps[" ++ toString stepIdx ++ "]." ++ "expect"))
                ctx.Node ctx.EnabledColor)]), none)) ∧
    (∀ w1 evs b, attemptBody env ctx s stepIdx i w = (w1, evs, none) →
      retryLoop env ctx s stepIdx (b + 1) i w =
        ⟨(retryLoop env ctx s stepIdx b (i + 1) w1).ext,
          evs ++ (retryLoop env ctx s stepIdx b (i + 1) w1).events,
          (retryLoop env ctx s stepIdx b (i + 1) w1).out⟩) := by
  refine ⟨?_, ?_, ?_, ?_⟩
  · intro w1 err hI
    simp only [attemptBody, hI, stepPath, Context.Reporter]
  · intro w1 newCtx resp w2 err hI hB
    simp only [attemptBody, hI, hB, stepPath, Context.Reporter]
  · intro w1 newCtx resp w2 assertion w3 err hI hB hA
    simp only [attemptBody, hI, hB, hA, stepPath, Context.Reporter]
  · intro w1 evs b hb
    simp only [retryLoop, hb]

theorem attempt_logs_error_and_continues_witness :
    (failTwiceStep 2).Request.Invoke 0 sampleContext = (1, .error "some error occurred") ∧
    attemptBody sampleStepEnv sampleContext (failTwiceStep 2) 4 0 0 =
      (1, [.Logf 0 (.sendRequest 0), .Invoke sampleContext, .Logf 0 .elapsedTime,
        .Log 0 "steps[4].request: some error occurred"], none) :=
  ⟨rfl,
    ((attempt_logs_error_and_continues sampleStepEnv sampleContext (failTwiceStep 2) 4 0 0).1
      1 "some error occurred" rfl).trans (by decide)⟩

end AttemptLogTheorems

section IncludeTheorems

variable {σ Resp Err : Type}

theorem runInclude_node (env : StepEnv σ Resp Err) (ctx : Context) (scenario : Scenario)
    (s : Step σ Resp Err) (w : σ) :
    ∀ c, (runInclude env ctx scenario s w).out = some c → c.Node = ctx.Node := by
  intro c
  unfold runInclude
  simp only
  rcases env.LoadScenarios w (env.Join (env.Dir scenario.Filepath) s.Include) with
    ⟨w1, err | scs⟩
  · simp
  · rcases scs with _ | ⟨sc, _ | ⟨sc2, rest⟩⟩
    · simp
    · simp only
      cases env.Rel (env.Dir scenario.Filepath)
          (env.Join (env.Dir scenario.Filepath) s.Include) with
      | error err => simp
      | ok name =>
        simp only [Option.some.injEq]
        intro h
        rw [← h]
        rfl
    · simp

/-- C20: for an include step, every context `runStep` returns carries the
YAML node of the context the step was entered with, which is the node the
context had just before the included scenario was run; when the include loads
exactly one scenario (and its name relative to the base directory can be
formed) the included scenario is run in a child reporter and a context is
returned; when loading yields zero scenarios or more than one, the step is
left through `Fatalf` and the included scenario is not run. -/
theorem runStep_include_restores_node (env : StepEnv σ Resp Err) (ctx : Context)
    (scenario : Scenario) (s : Step σ Resp Err) (stepIdx : Nat) (w : σ)
    (hinc : s.Include ≠ "") :
    (∀ c, (runStep env ctx scenario s stepIdx w).out = some c → c.Node = ctx.Node) ∧
    (∀ (ctx2 : Context) (w2 w3 : σ) (sc : Scenario) (name : String),
      env.LoadScenarios w2 (env.Join (env.Dir scenario.Filepath) s.Include) =
        (w3, .ok [sc]) →
      env.Rel (env.Dir scenario.Filepath)
        (env.Join (env.Dir scenario.Filepath) s.Include) = .ok name →
      (runBranch env ctx2 scenario s stepIdx w2).out =
        some ((match (env.RunScenario (env.newReporter w3 ctx2.Reporter name).1
            ((ctx2.WithReporter (env.newReporter w3 ctx2.Reporter name).2).WithNode sc.Node)
            sc).2 with
          | some c => c
          | none => ctx2).WithNode ctx2.Node) ∧
      Event.RunScenario
          ((ctx2.WithReporter (env.newReporter w3 ctx2.Reporter name).2).WithNode sc.Node) ∈
        (runBranch env ctx2 scenario s stepIdx w2).events) ∧
    (∀ (ctx2 : Context) (w2 w3 : σ) (scs : List Scenario),
      env.LoadScenarios w2 (env.Join (env.Dir scenario.Filepath) s.Include) =
        (w3, .ok scs) →
      scs.length ≠ 1 →
      (runBranch env ctx2 scenario s stepIdx w2).out = none ∧
      (runBranch env ctx2 scenario s stepIdx w2).events =
        [.LoadScenarios (env.Join (env.Dir scenario.Filepath) s.Include),
         .FatalfInclude ctx2.Reporter s.Include none]) := by
  have hrun : ∀ ctx2 w2, runBranch env ctx2 scenario s stepIdx w2 =
      runInclude env ctx2 scenario s w2 := by
    intro ctx2 w2
    simp only [runBranch, ne_eq, hinc, not_false_eq_true, if_true]
  refine ⟨?_, ?_, ?_⟩
  · intro c hc
    unfold runStep at hc
    cases hv : s.Vars with
    | none =>
      rw [hv] at hc
      simp only [hrun] at hc
      exact runInclude_node env ctx scenario s w c hc
    | some v =>
      rw [hv] at hc
      simp only at hc
      rcases he : env.ExecuteTemplate w ctx v with ⟨w1, err | vars⟩
      · rw [he] at hc
        simp at hc
      · rw [he] at hc
        simp only [hrun] at hc
        exact runInclude_node env (ctx.WithVars vars) scenario s w1 c hc
  · intro ctx2 w2 w3 sc name hl hr
    rw [hrun]
    simp [runInclude, hl, hr]
  · intro ctx2 w2 w3 scs hl hlen
    rw [hrun]
    rcases scs with _ | ⟨sc, _ | ⟨sc2, rest⟩⟩
    · simp [runInclude, hl]
    · simp at hlen
    · simp [runInclude, hl]

theorem runStep_include_restores_node_witness :
    (sampleStep none "sub.yaml" "").Include ≠ "" ∧
    (runStep sampleStepEnv sampleContext ⟨"main.yaml", 3⟩
      (sampleStep none "sub.yaml" "") 0 0).out = some (sampleContext.WithReporter 1) ∧
    (sampleContext.WithReporter 1).Node = sampleContext.Node :=
  ⟨by decide, by decide,
    (runStep_include_restores_node sampleStepEnv sampleContext ⟨"main.yaml", 3⟩
      (sampleStep none "sub.yaml" "") 0 0 (by decide)).1 (sampleContext.WithReporter 1)
      (by decide)⟩

end IncludeTheorems

/-! ## Theorems: the reference form of `addIndent` -/

section AddIndentTheorems

theorem splitNewline_pieces (l : List Char) : ∀ p ∈ splitNewline l, '\n' ∉ p := by
  induction l with
  | nil =>
    intro p hp
    simp only [splitNewline, List.mem_singleton] at hp
    subst hp
    simp
  | cons c cs ih =>
    intro p hp
    simp only [splitNewline] at hp
    rcases hs : splitNewline cs with _ | ⟨x, xs⟩
    · exact absurd hs (splitNewline_ne_nil cs)
    · rw [hs] at hp ih
      simp only at hp
      by_cases hc : c = '\n'
      · simp only [hc, if_true, List.mem_cons] at hp
        rcases hp with rfl | hp
        · simp
        · exact ih p (List.mem_cons.2 hp)
      · simp only [hc, if_false, List.mem_cons] at hp
        rcases hp with rfl | hp
        · intro hmem
          rcases List.mem_cons.1 hmem with h | h
          · exact hc h.symm
          · exact ih x (List.mem_cons_self _ _) h
        · exact ih p (List.mem_cons_of_mem _ hp)

theorem splitNewline_append_newline (x rest : List Char) (hx : '\n' ∉ x) :
    splitNewline (x ++ '\n' :: rest) = x :: splitNewline rest := by
  induction x with
  | nil =>
    simp only [List.nil_append, splitNewline]
    rcases hs : splitNewline rest with _ | ⟨y, ys⟩
    · exact absurd hs (splitNewline_ne_nil rest)
    · simp
  | cons c cs ih =>
    have hc : c ≠ '\n' := fun h => hx (by simp [h])
    have hcs : '\n' ∉ cs := fun h => hx (List.mem_cons_of_mem _ h)
    have ih1 : splitNewline (cs.append ('\n' :: rest)) = cs :: splitNewline rest := ih hcs
    simp only [List.cons_append, splitNewline]
    rw [ih1]
    simp [hc]

theorem splitNewline_intercalate (ls : List (List Char)) (hne : ls ≠ [])
    (hp : ∀ p ∈ ls, '\n' ∉ p) : splitNewline (List.intercalate ['\n'] ls) = ls := by
  induction ls with
  | nil => exact absurd rfl hne
  | cons x xs ih =>
    cases xs with
    | nil =>
      have : List.intercalate ['\n'] [x] = x := by simp [List.intercalate, List.intersperse]
      rw [this]
      exact splitNewline_no_newline x (hp x (List.mem_cons_self _ _))
    | cons y ys =>
      rw [intercalate_cons_cons']
      have hx := hp x (List.mem_cons_self _ _)
      have ih1 := ih (by simp) (fun p hmem => hp p (List.mem_cons_of_mem _ hmem))
      rw [show x ++ ['\n'] ++ List.intercalate ['\n'] (y :: ys) =
        x ++ '\n' :: List.intercalate ['\n'] (y :: ys) by simp]
      rw [splitNewline_append_newline x _ hx, ih1]

theorem lineCount_indentNonEmptyLaterLines (k : Nat) (str : String) :
    lineCount (indentNonEmptyLaterLines k str) = lineCount str := by
  unfold lineCount indentNonEmptyLaterLines
  rcases hs : splitNewline str.data with _ | ⟨first, later⟩
  · exact absurd hs (splitNewline_ne_nil _)
  · simp only
    have hpieces := splitNewline_pieces str.data
    rw [hs] at hpieces
    rw [splitNewline_intercalate _ (by simp)]
    · simp
    · intro p hp
      rcases List.mem_cons.1 hp with rfl | hp
      · exact hpieces p (List.mem_cons_self _ _)
      · obtain ⟨l, hl, rfl⟩ := List.mem_map.1 hp
        by_cases hnil : l = []
        · simp [hnil]
        · simp only [hnil, if_false, List.mem_append, not_or]
          refine ⟨?_, hpieces l (List.mem_cons_of_mem _ hl)⟩
          intro hmem
          have := List.eq_of_mem_replicate hmem
          exact absurd this (by decide)

/-- C22: `addIndent(str, preStr)` equals the reference: in a left arrow
argument context, when `str` contains a newline and `preStr` is not empty, the
lines of `str` joined by newlines again, the first unchanged, every later
non-empty line prefixed with `k` spaces and every later empty line left
empty, `k` being the number of characters (runes, not bytes) of `preStr`
after its last newline; in every other case `str`. The result has as many
lines as `str`; and in a left arrow argument context
`addIndent("a: 1\nb:2", "- ")` is `"a: 1\n  b:2"`. -/
theorem addIndent_eq_reference (t : Template) (str preStr : String) :
    addIndent t str preStr = addIndentReference t.executingLeftArrowExprArg str preStr ∧
    lineCount (addIndent t str preStr) = lineCount str ∧
    (t.executingLeftArrowExprArg = true →
      addIndent t "a: 1\nb:2" "- " = "a: 1\n  b:2" ∧
      addIndent t "a\nb" "é " = "a\n  b" ∧ "é ".utf8ByteSize = 3) ∧
    (t.executingLeftArrowExprArg = false → addIndent t str preStr = str) := by
  have href : addIndent t str preStr =
      addIndentReference t.executingLeftArrowExprArg str preStr := by
    unfold addIndentReference
    by_cases hctx : t.executingLeftArrowExprArg = true
    · by_cases hcond : '\n' ∈ str.data ∧ preStr ≠ ""
      · rw [if_pos ⟨hctx, hcond⟩]
        exact addIndent_eq_indentNonEmptyLaterLines t str preStr hctx
      · have hneg : ¬ (t.executingLeftArrowExprArg = true ∧ '\n' ∈ str.data ∧ preStr ≠ "") :=
          fun h => hcond h.2
        rw [if_neg hneg]
        unfold addIndent
        have hc : (str.data.contains '\n' && decide (preStr ≠ "")) = false := by
          by_cases h1 : '\n' ∈ str.data
          · have h2 : preStr = "" := by
              by_contra h2
              exact hcond ⟨h1, h2⟩
            simp [h2]
          · simp [h1]
        simp only [hctx, if_true, hc, Bool.false_eq_true, if_false]
    · have hneg : ¬ (t.executingLeftArrowExprArg = true ∧ '\n' ∈ str.data ∧ preStr ≠ "") :=
        fun h => hctx h.1
      rw [if_neg hneg]
      unfold addIndent
      simp [hctx]
  refine ⟨href, ?_, ?_, ?_⟩
  · rw [href]
    unfold addIndentReference
    split
    · exact lineCount_indentNonEmptyLaterLines _ _
    · rfl
  · intro hctx
    refine ⟨?_, ?_, by decide⟩
    · rw [addIndent_eq_indentNonEmptyLaterLines t _ _ hctx]
      decide
    · rw [addIndent_eq_indentNonEmptyLaterLines t _ _ hctx]
      decide
  · intro hctx
    unfold addIndent
    simp [hctx]

theorem addIndent_eq_reference_witness :
    (leftArrowTemplate (.Ident "v")).executingLeftArrowExprArg = true ∧
    addIndent (leftArrowTemplate (.Ident "v")) "a: 1\nb:2" "- " = "a: 1\n  b:2" ∧
    lineCount (addIndent (leftArrowTemplate (.Ident "v")) "a: 1\n\nb:2" "- ") = 3 :=
  ⟨rfl,
    ((addIndent_eq_reference (leftArrowTemplate (.Ident "v")) "" "").2.2.1 rfl).1,
    ((addIndent_eq_reference (leftArrowTemplate (.Ident "v")) "a: 1\n\nb:2" "- ").2.1).trans
      (by decide)⟩

end AddIndentTheorems

/-! ## Theorems: parameter type lookup, exit code, output normalisation -/

section FinalTheorems

/-- C23: for a func type as `reflect` reports it, an argument count `m`
accepted by the arity check and an argument index `i < m`,
`requiredFuncArgType` returns a type and does not panic: for a func that is
not variadic `i < NumIn` and the type is the `i`-th parameter type; for a
variadic func either `i < NumIn − 1` and the type is the `i`-th parameter
type, or the type is the element type of the last parameter. -/
theorem requiredFuncArgType_in_range (ft : FuncType) (m i : Nat)
    (hwf : ft.wellFormed = true) (ha : arityError ft m = none) (hi : i < m) :
    ∃ T, requiredFuncArgType ft i = .ok T ∧
      (∀ msg, requiredFuncArgType ft i ≠ .panic msg) ∧
      (ft.variadic = false → (i : Int) < ft.NumIn ∧ ft.params.get? i = some T) ∧
      (ft.variadic = true →
        ((i : Int) < ft.NumIn - 1 ∧ ft.params.get? i = some T) ∨
        ((i : Int) ≥ ft.NumIn - 1 ∧ ft.params.getLast? = some (.slice T))) := by
  have key : ∃ T, requiredFuncArgType ft i = .ok T ∧
      (ft.variadic = false → (i : Int) < ft.NumIn ∧ ft.params.get? i = some T) ∧
      (ft.variadic = true →
        ((i : Int) < ft.NumIn - 1 ∧ ft.params.get? i = some T) ∨
        ((i : Int) ≥ ft.NumIn - 1 ∧ ft.params.getLast? = some (.slice T))) := by
    unfold arityError at ha
    unfold requiredFuncArgType
    cases hv : ft.variadic with
    | false =>
      simp only [hv, Bool.false_eq_true, if_false, ite_eq_right_iff] at ha
      have hnum : ft.NumIn = (m : Int) := by
        by_contra hne
        exact absurd (ha hne) (by simp)
      have hlen : i < ft.params.length := by
        unfold FuncType.NumIn at hnum
        omega
      have hi0 : ¬ ((i : Int) < 0) := by omega
      obtain ⟨T, hT⟩ : ∃ T, ft.params.get? i = some T :=
        ⟨ft.params.get ⟨i, hlen⟩, List.get?_eq_get hlen⟩
      refine ⟨T, ?_, ?_, ?_⟩
      · simp only [Bool.not_false, if_true, FuncType.In, hi0, if_false, Int.toNat_ofNat, hT]
      · intro _
        exact ⟨by rw [hnum]; exact_mod_cast hi, hT⟩
      · intro h
        exact absurd h (by simp)
    | true =>
      have hlast : ∃ e, ft.params.getLast? = some (.slice e) := by
        unfold FuncType.wellFormed at hwf
        simp only [hv, Bool.not_true, Bool.false_or] at hwf
        cases hg : ft.params.getLast? with
        | none => rw [hg] at hwf; simp at hwf
        | some ty =>
          rw [hg] at hwf
          cases ty with
          | slice e => exact ⟨e, rfl⟩
          | named n => simp at hwf
          | ptr e => simp at hwf
      obtain ⟨e, he⟩ := hlast
      have hpos : 0 < ft.params.length := by
        cases hp : ft.params with
        | nil => rw [hp] at he; simp at he
        | cons a as => simp
      simp only [Bool.not_true, Bool.false_eq_true, if_false]
      by_cases hlt : (i : Int) < ft.NumIn - 1
      · have hlen : i < ft.params.length := by
          unfold FuncType.NumIn at hlt
          omega
        have hi0 : ¬ ((i : Int) < 0) := by omega
        obtain ⟨T, hT⟩ : ∃ T, ft.params.get? i = some T :=
          ⟨ft.params.get ⟨i, hlen⟩, List.get?_eq_get hlen⟩
        refine ⟨T, ?_, ?_, ?_⟩
        · simp only [hlt, if_true, FuncType.In, hi0, if_false, Int.toNat_ofNat, hT]
        · intro h
          exact absurd h (by simp)
        · intro _
          exact Or.inl ⟨hlt, hT⟩
      · have hneg : ¬ (ft.NumIn - 1 < 0) := by
          unfold FuncType.NumIn
          omega
        have hidx : (ft.NumIn - 1).toNat = ft.params.length - 1 := by
          unfold FuncType.NumIn
          omega
        have hget : ft.params.get? (ft.params.length - 1) = some (.slice e) := by
          rw [← he, List.getLast?_eq_getElem?]
          simp
        refine ⟨e, ?_, ?_, ?_⟩
        · simp only [hlt, if_false, FuncType.In, hneg, hidx, hget, GoType.Elem]
        · intro h
          exact absurd h (by simp)
        · intro _
          exact Or.inr ⟨by omega, he⟩
  obtain ⟨T, hT, h1, h2⟩ := key
  refine ⟨T, hT, ?_, h1, h2⟩
  intro msg hmsg
  rw [hT] at hmsg
  cases hmsg

theorem requiredFuncArgType_in_range_witness :
    (sampleFuncs 1).type.wellFormed = true ∧
    arityError (sampleFuncs 1).type 3 = none ∧
    (2 : Nat) < 3 ∧
    (∃ T, requiredFuncArgType (sampleFuncs 1).type 2 = .ok T ∧
      ∀ msg, requiredFuncArgType (sampleFuncs 1).type 2 ≠ .panic msg) ∧
    requiredFuncArgType (sampleFuncs 1).type 2 = .ok (.named "string") :=
  ⟨by decide, by decide, by decide,
    (requiredFuncArgType_in_range (sampleFuncs 1).type 3 2
      (by decide) (by decide) (by decide)).imp (fun _ h => ⟨h.1, h.2.1⟩),
    by decide⟩

/-- C21: the exit code of the command is decided by what `cmd.Execute`
returned: 0 for no error, 10 for the error `cmd.ErrTestFailed` (nothing is
written to standard error), and 1 for every other error, which is then
written to standard error followed by a newline. -/
theorem main_exit_code {Err : Type} [DecidableEq Err] (ErrTestFailed : Err)
    (render : Err → String) :
    main ErrTestFailed render none = ⟨0, []⟩ ∧
    main ErrTestFailed render (some ErrTestFailed) = ⟨10, []⟩ ∧
    (∀ err, err ≠ ErrTestFailed →
      main ErrTestFailed render (some err) = ⟨1, [render err ++ "\n"]⟩) ∧
    (∀ result, (main ErrTestFailed render result).exitCode = 0 ↔ result = none) ∧
    (∀ result, (main ErrTestFailed render result).exitCode = 10 ↔
      result = some ErrTestFailed) := by
  refine ⟨rfl, by simp [main], ?_, ?_, ?_⟩
  · intro err hne
    simp [main, hne]
  · intro result
    cases result with
    | none => simp [main]
    | some err =>
      by_cases h : err = ErrTestFailed <;> simp [main, h]
  · intro result
    cases result with
    | none => simp [main]
    | some err =>
      by_cases h : err = ErrTestFailed <;> simp [main, h]

/-- C24 fails on the code: the duration `12.34s` in `--- PASS: slow (12.34s)`
becomes `10.00s`, not `0.00s`, because `dddPattern` has a single digit before
the point (likewise `12.345s` becomes `10.000s`); durations with one digit
before the point are reset as the claim says. -/
theorem ResetDuration_keeps_leading_digits :
    ResetDuration "--- PASS: slow (12.34s)" = "--- PASS: slow (10.00s)" ∧
    ResetDuration "--- PASS: slow (12.34s)" ≠ "--- PASS: slow (0.00s)" ∧
    ResetDuration "ok 12.345s" = "ok 10.000s" ∧
    ResetDuration "--- PASS: quick (1.23s)" = "--- PASS: quick (0.00s)" ∧
    ResetDuration "ok 0.123s" = "ok 0.000s" ∧
    ResetDuration "elapsed time: 0.001234 sec\nnext" =
      "elapsed time: 0.000000 sec\nnext" := by
  decide

end FinalTheorems

end Scenarigo
